import Mathlib

/-!
# recVTLB: the x86 code generator for virtual-memory translation

A shallow embedding of `pcsx2/x86/ix86-32/recVTLB.cpp`.

* The generator functions of the source file are embedded one for one as
  functions in the monad `Emit` (a state monad over `EmitState` with fatal
  errors): every `xFOO( ... )` line of the source becomes one `xEmit` of the
  corresponding `Instr`.
* The x86 emitter (`x86Emitter`), the register allocator of the recompiler
  (`iCore`), the profiler hooks and the host memory protection calls are not
  part of the source file. They are modelled here by the small definitions
  of the sections "emitter primitives" and "register allocator".
* The meaning of the emitted instructions is given by `step` / `run` over a
  `Machine`: four 32-bit registers, the sign and carry flag, the vector and
  MMX registers, a flat byte memory with 32-bit addresses, and the trace of
  calls made to handler functions. The translation tables (`vmap`, `ppmap`,
  `RWFT`) live in the environment `Env` and are not aliased by data memory.
  The aligned 16-byte move (`MOVDQA`) faults on an address that is not a
  multiple of 16; the run then ends in the outcome `fault`. Page protection
  of data memory is not modelled.
* The constants `VTLB_PAGE_BITS`, `VTLB_PAGE_MASK`, `INTC_STAT`, the address
  of the dispatcher buffer, the instruction encoder, the handler functions
  and the effect of the register flush are parameters (fields of `Env`).
-/

namespace RecVTLB

/-! ## Machine words and bytes -/

/-- Truncation to 32 bits. -/
def wrap32 (n : Nat) : Nat := n % 4294967296

/-- 32-bit subtraction `a - b` modulo 2^32. -/
def sub32 (a b : Nat) : Nat := (wrap32 a + (4294967296 - wrap32 b)) % 4294967296

/-- The sign bit (bit 31) of a 32-bit word: `(s32)n < 0`. -/
def signBit32 (n : Nat) : Bool := decide (2147483648 ≤ wrap32 n)

/-- Sign extension of a `bits`-wide value to 32 bits (MOVSX). -/
def signExtend (bits v : Nat) : Nat :=
  if v % 2 ^ bits < 2 ^ (bits - 1) then v % 2 ^ bits
  else v % 2 ^ bits + (4294967296 - 2 ^ bits)

/-- Zero extension of a `bits`-wide value to 32 bits (MOVZX). -/
def zeroExtend (bits v : Nat) : Nat := v % 2 ^ bits

/-- Little-endian value of a list of bytes. -/
def fromLE : List Nat → Nat
  | [] => 0
  | b :: bs => b + 256 * fromLE bs

/-- The `n` low bytes of `v`, little-endian. -/
def toLE : Nat → Nat → List Nat
  | 0, _ => []
  | n + 1, v => (v % 256) :: toLE n (v / 256)

/-- Reads `n` bytes of memory from address `a` (addresses wrap at 2^32). -/
def readBytes (mem : Nat → Nat) (a : Nat) : Nat → List Nat
  | 0 => []
  | n + 1 => (mem (wrap32 a) % 256) :: readBytes mem (a + 1) n

/-- Writes the bytes `bs` to memory from address `a` on. -/
def writeBytes (mem : Nat → Nat) (a : Nat) : List Nat → (Nat → Nat)
  | [] => mem
  | b :: bs => writeBytes (Function.update mem (wrap32 a) b) (a + 1) bs

/-! ## Instructions -/

/-- The general registers the generator names. -/
inductive Reg
  | eax | ebx | ecx | edx
  deriving DecidableEq, Repr

/-- The memory operands (`xIndirectVoid`) the generator builds: `ptr[reg]`
(plus a displacement) and `ptr[(void*)address]`. -/
inductive xIndirect
  | atReg (r : Reg) (off : Nat)
  | atAbs (a : Nat)
  deriving DecidableEq, Repr

/-- The operand `rm + k` (used as `srcRm+4`, `destRm+4`). -/
def xIndirect.add : xIndirect → Nat → xIndirect
  | .atReg r off, k => .atReg r (off + k)
  | .atAbs a, k => .atAbs (a + k)

/-- The tables of `vtlbdata` that generated code indexes with `[reg*4 + table]`. -/
inductive Table
  | vmap | ppmap
  deriving DecidableEq, Repr

/-- Target of an emitted call: a function pointer known at generation time,
or the entry `RWFT[bits][mode][idx]` read at run time. -/
inductive CallTarget
  | direct (fn : Nat)
  | viaRWFT (bits mode : Nat) (idx : Reg)
  deriving DecidableEq, Repr

/-- Argument of `xFastCall`: absent, a register, or an immediate. -/
inductive Arg
  | none
  | reg (r : Reg)
  | imm (v : Nat)
  deriving DecidableEq, Repr

/-- The instructions emitted by recVTLB.cpp. `FastCall` stands for what
`xFastCall` emits (argument moves into ecx / edx, then the call), `FlushCall`
for what `iFlushCall(FLUSH_FULLVTLB)` emits, `StoreReg` / `RestoreReg` for
`xStoreReg` / `xRestoreReg` (save to / reload from `g_globalXMMData`). -/
inductive Instr
  | MOV_rr (dst src : Reg)
  | MOV_ri (dst : Reg) (imm : Nat)
  | MOV_rm (dst : Reg) (src : xIndirect)
  | MOV_mr (bits : Nat) (dst : xIndirect) (src : Reg)
  | MOV_rt (dst : Reg) (tbl : Table) (idx : Reg)
  | MOVZX_rm (dst : Reg) (bits : Nat) (src : xIndirect)
  | MOVSX_rm (dst : Reg) (bits : Nat) (src : xIndirect)
  | MOVZX_rr (dst : Reg) (bits : Nat) (src : Reg)
  | MOVSX_rr (dst : Reg) (bits : Nat) (src : Reg)
  | SHR_ri (dst : Reg) (n : Nat)
  | AND_ri (dst : Reg) (imm : Nat)
  | OR_rr (dst src : Reg)
  | ADD_rr (dst src : Reg)
  | SUB_ri (dst : Reg) (imm : Nat)
  | SUB_rr (dst src : Reg)
  | MOVLPS_xm (x : Nat) (src : xIndirect)
  | MOVLPS_mx (dst : xIndirect) (x : Nat)
  | MOVQ_rm (r : Nat) (src : xIndirect)
  | MOVQ_mr (dst : xIndirect) (r : Nat)
  | MOVDQA_xm (x : Nat) (src : xIndirect)
  | MOVDQA_mx (dst : xIndirect) (x : Nat)
  | StoreReg (x : Nat)
  | RestoreReg (x : Nat)
  | JS (target : Nat)
  | JAE (target : Nat)
  | JMP_r (r : Reg)
  | FastCall (t : CallTarget) (a1 a2 : Arg)
  | FlushCall
  deriving DecidableEq, Repr

/-! ## Machine state and the meaning of instructions -/

/-- One call of a handler function: the function pointer called and the two
`__fastcall` argument registers at the call. -/
structure CallRec where
  fn : Nat
  ecx : Nat
  edx : Nat
  deriving DecidableEq, Repr

/-- The state generated code runs on. -/
structure Machine where
  eax : Nat
  ebx : Nat
  ecx : Nat
  edx : Nat
  sf : Bool
  cf : Bool
  xmm : Nat → List Nat
  mmx : Nat → List Nat
  mem : Nat → Nat
  xmmData : Nat → List Nat
  calls : List CallRec

/-- The environment: constants and tables of headers outside this file, the
instruction encoder, and the behaviour of external code. -/
structure Env where
  VTLB_PAGE_BITS : Nat
  VTLB_PAGE_MASK : Nat
  INTC_STAT : Nat
  psHu32 : Nat → Nat
  vmap : Nat → Nat
  ppmap : Nat → Nat
  RWFT : Nat → Nat → Nat → Nat
  IntcStat : Bool
  dispatchers : Nat
  enc : Nat → Instr → List Nat
  handler : Nat → Machine → Machine
  flush : Machine → Machine

/-- Well-formed constants: a page shift that is a valid 32-bit shift count
and keeps `page*4` inside 32 bits, and a 32-bit page mask. -/
def Env.WF (env : Env) : Prop :=
  2 ≤ env.VTLB_PAGE_BITS ∧ env.VTLB_PAGE_BITS < 32 ∧ env.VTLB_PAGE_MASK < 4294967296

instance (env : Env) : Decidable env.WF := by
  unfold Env.WF; infer_instance

def getReg (m : Machine) : Reg → Nat
  | .eax => m.eax
  | .ebx => m.ebx
  | .ecx => m.ecx
  | .edx => m.edx

def setReg (m : Machine) (r : Reg) (v : Nat) : Machine :=
  match r with
  | .eax => { m with eax := v }
  | .ebx => { m with ebx := v }
  | .ecx => { m with ecx := v }
  | .edx => { m with edx := v }

/-- Effective address of a memory operand. -/
def ea (m : Machine) : xIndirect → Nat
  | .atReg r off => wrap32 (getReg m r + off)
  | .atAbs a => wrap32 a

/-- Entry `idx` of a table, as the 32-bit load `[idx*4 + table]` sees it
(the scaled index wraps at 32 bits). -/
def tableRead (env : Env) (t : Table) (idx : Nat) : Nat :=
  match t with
  | .vmap => wrap32 (env.vmap (idx % 1073741824))
  | .ppmap => wrap32 (env.ppmap (idx % 1073741824))

/-- Loads an `xFastCall` argument into its register. -/
def setArg (m : Machine) (r : Reg) : Arg → Machine
  | .none => m
  | .reg s => setReg m r (getReg m s)
  | .imm v => setReg m r (wrap32 v)

/-- The function pointer a call target designates in a machine state. -/
def resolveTarget (env : Env) (m : Machine) : CallTarget → Nat
  | .direct fn => fn
  | .viaRWFT bits mode idx => env.RWFT bits mode (getReg m idx)

/-- Result of running code: control falls off the end, or leaves through a
taken branch / jump to `target`, or the instruction about to execute in state
`m` raises a fault (general protection, from an aligned 16-byte move on an
address that is not a multiple of 16). -/
inductive Outcome
  | next (m : Machine)
  | jump (target : Nat) (m : Machine)
  | fault (m : Machine)

def setFlags (m : Machine) (sf cf : Bool) : Machine := { m with sf := sf, cf := cf }

/-- Meaning of one instruction. -/
def step (env : Env) (i : Instr) (m : Machine) : Outcome :=
  match i with
  | .MOV_rr d s => .next (setReg m d (getReg m s))
  | .MOV_ri d imm => .next (setReg m d (wrap32 imm))
  | .MOV_rm d src => .next (setReg m d (fromLE (readBytes m.mem (ea m src) 4)))
  | .MOV_mr bits dst s =>
      .next { m with mem := writeBytes m.mem (ea m dst) (toLE (bits / 8) (getReg m s)) }
  | .MOV_rt d t idx => .next (setReg m d (tableRead env t (getReg m idx)))
  | .MOVZX_rm d bits src =>
      .next (setReg m d (zeroExtend bits (fromLE (readBytes m.mem (ea m src) (bits / 8)))))
  | .MOVSX_rm d bits src =>
      .next (setReg m d (signExtend bits (fromLE (readBytes m.mem (ea m src) (bits / 8)))))
  | .MOVZX_rr d bits s => .next (setReg m d (zeroExtend bits (getReg m s)))
  | .MOVSX_rr d bits s => .next (setReg m d (signExtend bits (getReg m s)))
  | .SHR_ri d n =>
      let r := wrap32 (getReg m d) >>> (n % 32)
      .next (setFlags (setReg m d r) (signBit32 r)
        (decide (n % 32 ≠ 0) && (wrap32 (getReg m d)).testBit (n % 32 - 1)))
  | .AND_ri d imm =>
      let r := wrap32 (getReg m d) &&& wrap32 imm
      .next (setFlags (setReg m d r) (signBit32 r) false)
  | .OR_rr d s =>
      let r := wrap32 (getReg m d) ||| wrap32 (getReg m s)
      .next (setFlags (setReg m d r) (signBit32 r) false)
  | .ADD_rr d s =>
      let r := wrap32 (getReg m d + getReg m s)
      .next (setFlags (setReg m d r) (signBit32 r)
        (decide (4294967296 ≤ wrap32 (getReg m d) + wrap32 (getReg m s))))
  | .SUB_ri d imm =>
      let r := sub32 (getReg m d) imm
      .next (setFlags (setReg m d r) (signBit32 r) (decide (wrap32 (getReg m d) < wrap32 imm)))
  | .SUB_rr d s =>
      let r := sub32 (getReg m d) (getReg m s)
      .next (setFlags (setReg m d r) (signBit32 r)
        (decide (wrap32 (getReg m d) < wrap32 (getReg m s))))
  | .MOVLPS_xm x src =>
      let v := readBytes m.mem (ea m src) 8 ++ (m.xmm x).drop 8
      .next { m with xmm := Function.update m.xmm x v }
  | .MOVLPS_mx dst x =>
      .next { m with mem := writeBytes m.mem (ea m dst) ((m.xmm x).take 8) }
  | .MOVQ_rm r src =>
      .next { m with mmx := Function.update m.mmx r (readBytes m.mem (ea m src) 8) }
  | .MOVQ_mr dst r =>
      .next { m with mem := writeBytes m.mem (ea m dst) ((m.mmx r).take 8) }
  | .MOVDQA_xm x src =>
      if ea m src % 16 = 0 then
        .next { m with xmm := Function.update m.xmm x (readBytes m.mem (ea m src) 16) }
      else .fault m
  | .MOVDQA_mx dst x =>
      if ea m dst % 16 = 0 then
        .next { m with mem := writeBytes m.mem (ea m dst) ((m.xmm x).take 16) }
      else .fault m
  | .StoreReg x => .next { m with xmmData := Function.update m.xmmData x (m.xmm x) }
  | .RestoreReg x => .next { m with xmm := Function.update m.xmm x (m.xmmData x) }
  | .JS target => if m.sf then .jump target m else .next m
  | .JAE target => if m.cf then .next m else .jump target m
  | .JMP_r r => .jump (getReg m r) m
  | .FastCall t a1 a2 =>
      let m2 := setArg (setArg m .ecx a1) .edx a2
      let fn := resolveTarget env m2 t
      .next { (env.handler fn m2) with calls := m2.calls ++ [⟨fn, m2.ecx, m2.edx⟩] }
  | .FlushCall => .next { (env.flush m) with calls := m.calls }

/-- Runs a straight-line instruction sequence; a taken branch or a fault
ends the run. -/
def run (env : Env) : List Instr → Machine → Outcome
  | [], m => .next m
  | i :: is, m =>
      match step env i m with
      | .next m1 => run env is m1
      | .jump t m1 => .jump t m1
      | .fault m1 => .fault m1

/-! ## Emitter primitives

The instruction stream and the globals the generator works on. -/

/-- The ways generation stops fatally: `jNO_DEFAULT`, `pxAssume`, `assert`. -/
inductive Fatal
  | jNO_DEFAULT
  | pxAssume
  | assert
  deriving DecidableEq, Repr

/-- Protection of the dispatcher page. `Unset` is the protection the static
buffer has before `HostSys::MemProtectStatic` is first called on it. -/
inductive PageAccess
  | Unset
  | ReadWrite
  | ExecOnly
  deriving DecidableEq, Repr

/-- Values of `x86FpuState`. -/
inductive FpuState
  | FPU_STATE
  | MMX_STATE
  deriving DecidableEq, Repr

/-- What the generator does, in order: an instruction written at a position,
a move of the emit position, a protection change of the dispatcher page, the
fill of the dispatcher buffer, a 32-bit store into already emitted code. -/
inductive Event
  | ins (pos : Nat) (i : Instr)
  | setPtr (p : Nat)
  | protect (mode : PageAccess)
  | memset (byte len : Nat)
  | patch (addr val : Nat)
  deriving DecidableEq, Repr

/-- The generation-time globals: the emit position `x86Ptr`, the host bytes
written so far, the trace of events, the protection of the dispatcher page,
the guard flag of `vtlb_dynarec_init`, and the allocator state of the
recompiler (`x86FpuState`, in-use flags of the vector and MMX registers). -/
structure EmitState where
  x86Ptr : Nat
  log : List Event
  bytes : Nat → Nat
  prot : PageAccess
  hasBeenCalled : Bool
  x86FpuState : FpuState
  xmmregs : List Bool
  mmxregs : List Bool

/-- Generation: a computation on the globals that may stop fatally. -/
abbrev Emit := StateT EmitState (Except Fatal)

/-- Modelled from the spec: the emission primitive of the emitter library
("emit instruction X at current position"): writes one instruction at the emit
position and advances the position by the length of its encoding. -/
def xEmit (env : Env) (i : Instr) : Emit Unit :=
  modify fun s =>
    { s with
      log := s.log ++ [Event.ins s.x86Ptr i]
      bytes := writeBytes s.bytes s.x86Ptr (env.enc s.x86Ptr i)
      x86Ptr := s.x86Ptr + (env.enc s.x86Ptr i).length }

/-- Modelled from the spec: "get current position" of the emitter library. -/
def xGetPtr : Emit Nat := do
  return (← get).x86Ptr

/-- Modelled from the spec: "set current position" of the emitter library. -/
def xSetPtr (p : Nat) : Emit Unit :=
  modify fun s => { s with x86Ptr := p, log := s.log ++ [Event.setPtr p] }

/-- The store `*writeback = value` into emitted code. -/
def writeU32 (addr val : Nat) : Emit Unit :=
  modify fun s =>
    { s with
      bytes := writeBytes s.bytes addr (toLE 4 val)
      log := s.log ++ [Event.patch addr val] }

/-- Modelled from the spec: the assertion `pxAssume`, fatal when it fails. -/
def pxAssume (c : Bool) : Emit Unit :=
  if c then pure () else throw Fatal.pxAssume

/-- Modelled from the spec: the assertion `assert`, fatal when it fails. -/
def assert (c : Bool) : Emit Unit :=
  if c then pure () else throw Fatal.assert

/-- Modelled from the spec: the memory-protection primitive of the host
(`HostSys::MemProtectStatic`), "mark a fixed-size, page-aligned region
read-write or execute-only", applied to the dispatcher buffer. -/
def MemProtectStatic (mode : PageAccess) : Emit Unit :=
  modify fun s => { s with prot := mode, log := s.log ++ [Event.protect mode] }

/-- The fill `memset_8<byte,len>( m_IndirectDispatchers )`. -/
def memset_8 (env : Env) (byte len : Nat) : Emit Unit :=
  modify fun s =>
    { s with
      bytes := fun a =>
        if env.dispatchers ≤ a ∧ a < env.dispatchers + len then byte else s.bytes a
      log := s.log ++ [Event.memset byte len] }

/-- Modelled from the spec: the profiling hooks `EE::Profiler.EmitMem`,
`EmitSlowMem`, `EmitConstMem` are "purely observational, no effect on
generated semantics"; they emit nothing. -/
def Profiler_EmitMem : Emit Unit := pure ()

/-- Modelled from the spec: see `Profiler_EmitMem`. -/
def Profiler_EmitSlowMem : Emit Unit := pure ()

/-- Modelled from the spec: see `Profiler_EmitMem`. -/
def Profiler_EmitConstMem (_addr : Nat) : Emit Unit := pure ()

/-- Modelled from the spec: `iFlushCall(FLUSH_FULLVTLB)`, the "flush before
call" notification to the recompiler; what it emits is the one
pseudo-instruction `FlushCall`. -/
def iFlushCall (env : Env) : Emit Unit := xEmit env Instr.FlushCall

/-! ## Register allocator -/

/-- Modelled from the spec: the allocator query "is a register of class C
free" for the vector registers. -/
def _hasFreeXMMreg (s : EmitState) : Bool := s.xmmregs.any (fun b => !b)

/-- Modelled from the spec: the allocator query "is a register of class C
free" for the MMX registers. -/
def _hasFreeMMXreg (s : EmitState) : Bool := s.mmxregs.any (fun b => !b)

/-- Modelled from the spec: "allocate a register of class C"
(`_allocTempXMMreg( XMMT_INT, -1 )`): claims the first free vector register. -/
def _allocTempXMMreg : Emit Nat := do
  let s ← get
  let i := s.xmmregs.indexOf false
  set { s with xmmregs := s.xmmregs.set i true }
  return i

/-- Modelled from the spec: "free a register of class C" (`_freeXMMreg`). -/
def _freeXMMreg (i : Nat) : Emit Unit :=
  modify fun s => { s with xmmregs := s.xmmregs.set i false }

/-- Modelled from the spec: "allocate a register of class C"
(`_allocMMXreg(-1, MMX_TEMP, 0)`): claims the first free MMX register. -/
def _allocMMXreg : Emit Nat := do
  let s ← get
  let i := s.mmxregs.indexOf false
  set { s with mmxregs := s.mmxregs.set i true }
  return i

/-- Modelled from the spec: "free a register of class C" (`_freeMMXreg`). -/
def _freeMMXreg (i : Nat) : Emit Unit :=
  modify fun s => { s with mmxregs := s.mmxregs.set i false }

/-! ## recVTLB.cpp -/

/-- The object `iAllocRegSSE`: the register it stands for and whether that
register was claimed from the allocator. -/
structure iAllocRegSSE where
  m_reg : Nat
  m_free : Bool
  deriving DecidableEq, Repr

/-- Constructor `iAllocRegSSE::iAllocRegSSE()`. -/
def iAllocRegSSE.ctor (env : Env) : Emit iAllocRegSSE := do
  let m_free := _hasFreeXMMreg (← get)
  if m_free then
    let r ← _allocTempXMMreg
    return { m_reg := r, m_free := m_free }
  else
    xEmit env (Instr.StoreReg 0)
    return { m_reg := 0, m_free := m_free }

/-- Destructor `iAllocRegSSE::~iAllocRegSSE()`. -/
def iAllocRegSSE.dtor (env : Env) (reg : iAllocRegSSE) : Emit Unit :=
  if reg.m_free then _freeXMMreg reg.m_reg
  else xEmit env (Instr.RestoreReg reg.m_reg)

def iMOV128_SSE (env : Env) (destRm srcRm : xIndirect) : Emit Unit := do
  let reg ← iAllocRegSSE.ctor env
  xEmit env (Instr.MOVDQA_xm reg.m_reg srcRm)
  xEmit env (Instr.MOVDQA_mx destRm reg.m_reg)
  iAllocRegSSE.dtor env reg

def iMOV64_Smart (env : Env) (destRm srcRm : xIndirect) : Emit Unit := do
  let s ← get
  if s.x86FpuState = FpuState.FPU_STATE ∧ _hasFreeXMMreg s = true then
    let reg ← _allocTempXMMreg
    xEmit env (Instr.MOVLPS_xm reg srcRm)
    xEmit env (Instr.MOVLPS_mx destRm reg)
    _freeXMMreg reg
  else if _hasFreeMMXreg s = true then
    let reg ← _allocMMXreg
    xEmit env (Instr.MOVQ_rm reg srcRm)
    xEmit env (Instr.MOVQ_mr destRm reg)
    _freeMMXreg reg
  else
    xEmit env (Instr.MOV_rm Reg.eax srcRm)
    xEmit env (Instr.MOV_mr 32 destRm Reg.eax)
    xEmit env (Instr.MOV_rm Reg.eax (srcRm.add 4))
    xEmit env (Instr.MOV_mr 32 (destRm.add 4) Reg.eax)

/-- Returns the writeback pointer: the address of the immediate of
`mov ebx, 0xcdcdcdcd`. -/
def DynGen_PrepRegs (env : Env) : Emit Nat := do
  Profiler_EmitMem
  xEmit env (Instr.MOV_rr Reg.eax Reg.ecx)
  xEmit env (Instr.SHR_ri Reg.eax env.VTLB_PAGE_BITS)
  xEmit env (Instr.MOV_rt Reg.eax Table.vmap Reg.eax)
  xEmit env (Instr.MOV_ri Reg.ebx 0xcdcdcdcd)
  let writeback := (← xGetPtr) - 4
  xEmit env (Instr.ADD_rr Reg.ecx Reg.eax)
  return writeback

def DynGen_DirectRead (env : Env) (bits : Nat) (sign : Bool) : Emit Unit :=
  if bits = 0 ∨ bits = 8 then
    if sign then xEmit env (Instr.MOVSX_rm Reg.eax 8 (xIndirect.atReg Reg.ecx 0))
    else xEmit env (Instr.MOVZX_rm Reg.eax 8 (xIndirect.atReg Reg.ecx 0))
  else if bits = 1 ∨ bits = 16 then
    if sign then xEmit env (Instr.MOVSX_rm Reg.eax 16 (xIndirect.atReg Reg.ecx 0))
    else xEmit env (Instr.MOVZX_rm Reg.eax 16 (xIndirect.atReg Reg.ecx 0))
  else if bits = 2 ∨ bits = 32 then
    xEmit env (Instr.MOV_rm Reg.eax (xIndirect.atReg Reg.ecx 0))
  else if bits = 3 ∨ bits = 64 then
    iMOV64_Smart env (xIndirect.atReg Reg.edx 0) (xIndirect.atReg Reg.ecx 0)
  else if bits = 4 ∨ bits = 128 then
    iMOV128_SSE env (xIndirect.atReg Reg.edx 0) (xIndirect.atReg Reg.ecx 0)
  else throw Fatal.jNO_DEFAULT

def DynGen_DirectWrite (env : Env) (bits : Nat) : Emit Unit :=
  if bits = 0 ∨ bits = 8 then
    xEmit env (Instr.MOV_mr 8 (xIndirect.atReg Reg.ecx 0) Reg.edx)
  else if bits = 1 ∨ bits = 16 then
    xEmit env (Instr.MOV_mr 16 (xIndirect.atReg Reg.ecx 0) Reg.edx)
  else if bits = 2 ∨ bits = 32 then
    xEmit env (Instr.MOV_mr 32 (xIndirect.atReg Reg.ecx 0) Reg.edx)
  else if bits = 3 ∨ bits = 64 then
    iMOV64_Smart env (xIndirect.atReg Reg.ecx 0) (xIndirect.atReg Reg.edx 0)
  else if bits = 4 ∨ bits = 128 then
    iMOV128_SSE env (xIndirect.atReg Reg.ecx 0) (xIndirect.atReg Reg.edx 0)
  else pure ()

/-- Size of the dispatcher buffer `m_IndirectDispatchers[__pagesize]`. -/
def pagesize : Nat := 4096

/-- The `sign` argument is the C `int` (0 or 1). -/
def GetIndirectDispatcherPtr (env : Env) (mode operandsize sign : Nat) : Emit Nat := do
  assert (if mode ≠ 0 ∨ operandsize ≥ 2 then decide (sign = 0) else true)
  let A := 32
  return env.dispatchers + ((mode * (7 * A)) + (sign * 5 * A) + (operandsize * A))

def GetFullTlbDispatcherPtr (env : Env) (mode operandsize sign : Nat) : Emit Nat := do
  let operandsize ←
    (if operandsize > 6 then
      if operandsize = 8 then pure 0
      else if operandsize = 16 then pure 1
      else if operandsize = 32 then pure 2
      else if operandsize = 64 then pure 3
      else if operandsize = 128 then pure 4
      else throw Fatal.jNO_DEFAULT
    else pure operandsize : Emit Nat)
  assert (if mode ≠ 0 ∨ operandsize ≥ 2 then decide (sign = 0) else true)
  let A := 64
  return env.dispatchers + (512 + (mode * (7 * A)) + (sign * 5 * A) + (operandsize * A))

def DynGen_IndirectDispatch (env : Env) (mode bits : Nat) (sign : Bool) : Emit Unit := do
  let szidx ←
    (if bits = 8 then pure 0
    else if bits = 16 then pure 1
    else if bits = 32 then pure 2
    else if bits = 64 then pure 3
    else if bits = 128 then pure 4
    else throw Fatal.jNO_DEFAULT : Emit Nat)
  xEmit env (Instr.JS (← GetIndirectDispatcherPtr env mode szidx (if sign then 1 else 0)))

def DynGen_FullTlbDispatch (env : Env) (mode bits : Nat) (sign : Bool) : Emit Unit := do
  let szidx ←
    (if bits = 8 then pure 0
    else if bits = 16 then pure 1
    else if bits = 32 then pure 2
    else if bits = 64 then pure 3
    else if bits = 128 then pure 4
    else throw Fatal.jNO_DEFAULT : Emit Nat)
  xEmit env (Instr.JAE (← GetFullTlbDispatcherPtr env mode szidx (if sign then 1 else 0)))

def DynGen_IndirectTlbDispatcher (env : Env) (mode bits : Nat) (sign : Bool) : Emit Unit := do
  xEmit env (Instr.MOVZX_rr Reg.eax 8 Reg.eax)
  xEmit env (Instr.SUB_ri Reg.ecx 0x80000000)
  xEmit env (Instr.SUB_rr Reg.ecx Reg.eax)
  xEmit env (Instr.FastCall (CallTarget.viaRWFT bits mode Reg.eax) (Arg.reg Reg.ecx) (Arg.reg Reg.edx))
  if mode = 0 then
    if bits = 0 then
      if sign then xEmit env (Instr.MOVSX_rr Reg.eax 8 Reg.eax)
      else xEmit env (Instr.MOVZX_rr Reg.eax 8 Reg.eax)
    else if bits = 1 then
      if sign then xEmit env (Instr.MOVSX_rr Reg.eax 16 Reg.eax)
      else xEmit env (Instr.MOVZX_rr Reg.eax 16 Reg.eax)
  xEmit env (Instr.JMP_r Reg.ebx)

def DynGen_FullTlbDispatcher (env : Env) (mode bits : Nat) (sign : Bool) : Emit Unit := do
  Profiler_EmitSlowMem
  xEmit env (Instr.MOV_rr Reg.eax Reg.ecx)
  xEmit env (Instr.SHR_ri Reg.eax env.VTLB_PAGE_BITS)
  xEmit env (Instr.MOV_rt Reg.eax Table.vmap Reg.eax)
  xEmit env (Instr.ADD_rr Reg.ecx Reg.eax)
  xEmit env (Instr.JS (← GetIndirectDispatcherPtr env mode bits (if sign then 1 else 0)))
  if mode = 1 then DynGen_DirectWrite env bits
  else DynGen_DirectRead env bits sign
  xEmit env (Instr.JMP_r Reg.ebx)

/-- Body of the innermost loop of `vtlb_dynarec_init`. -/
def vtlb_dynarec_init_slot (env : Env) (mode bits sign : Nat) : Emit Unit := do
  xSetPtr (← GetIndirectDispatcherPtr env mode bits (if sign ≠ 0 then 1 else 0))
  DynGen_IndirectTlbDispatcher env mode bits (decide (sign ≠ 0))
  xSetPtr (← GetFullTlbDispatcherPtr env mode bits (if sign ≠ 0 then 1 else 0))
  DynGen_FullTlbDispatcher env mode bits (decide (sign ≠ 0))

/-- The three nested `for` loops of `vtlb_dynarec_init`: mode 0..1, bits
0..4, sign 0..(`!mode && bits < 2 ? 2 : 1`)-1. -/
def vtlb_dynarec_init_loops (env : Env) : Emit Unit :=
  [0, 1].forM fun mode =>
    [0, 1, 2, 3, 4].forM fun bits =>
      (List.range (if mode = 0 ∧ bits < 2 then 2 else 1)).forM fun sign =>
        vtlb_dynarec_init_slot env mode bits sign

def vtlb_dynarec_init (env : Env) : Emit Unit := do
  if (← get).hasBeenCalled then
    return
  modify fun s => { s with hasBeenCalled := true }
  MemProtectStatic PageAccess.ReadWrite
  memset_8 env 0xcc 0x1000
  vtlb_dynarec_init_loops env
  MemProtectStatic PageAccess.ExecOnly

def vtlb_DynGenRead64 (env : Env) (bits : Nat) : Emit Unit := do
  pxAssume (decide (bits = 64 ∨ bits = 128))
  let writeback ← DynGen_PrepRegs env
  DynGen_IndirectDispatch env 0 bits false
  DynGen_DirectRead env bits false
  writeU32 writeback (← xGetPtr)

def vtlb_DynGenRead32 (env : Env) (bits : Nat) (sign : Bool) : Emit Unit := do
  pxAssume (decide (bits ≤ 32))
  let writeback ← DynGen_PrepRegs env
  DynGen_IndirectDispatch env 0 bits (sign && decide (bits < 32))
  DynGen_DirectRead env bits sign
  writeU32 writeback (← xGetPtr)

def vtlb_DynGenRead (env : Env) (_likely_address bits : Nat) (sign : Bool) : Emit Unit :=
  if bits < 64 then vtlb_DynGenRead32 env bits sign
  else vtlb_DynGenRead64 env bits

def vtlb_DynGenRead64_Const (env : Env) (bits addr_const : Nat) : Emit Unit := do
  Profiler_EmitConstMem addr_const
  let vmv_ptr := wrap32 (env.vmap (addr_const >>> env.VTLB_PAGE_BITS))
  let ppf := wrap32 (addr_const + vmv_ptr)
  if signBit32 ppf = false then
    if bits = 64 then
      iMOV64_Smart env (xIndirect.atReg Reg.edx 0) (xIndirect.atAbs ppf)
    else if bits = 128 then
      iMOV128_SSE env (xIndirect.atReg Reg.edx 0) (xIndirect.atAbs ppf)
    else throw Fatal.jNO_DEFAULT
  else
    let handler := vmv_ptr % 256
    let paddr := wrap32 (sub32 ppf handler + 0x80000000)
    let szidx := if bits = 64 then 3 else if bits = 128 then 4 else 0
    iFlushCall env
    xEmit env (Instr.FastCall (CallTarget.direct (env.RWFT szidx 0 handler)) (Arg.imm paddr) Arg.none)

def vtlb_DynGenRead32_Const (env : Env) (bits : Nat) (sign : Bool) (addr_const : Nat) :
    Emit Unit := do
  Profiler_EmitConstMem addr_const
  let vmv_ptr := wrap32 (env.vmap (addr_const >>> env.VTLB_PAGE_BITS))
  let ppf := wrap32 (addr_const + vmv_ptr)
  if signBit32 ppf = false then
    if bits = 8 then
      if sign then xEmit env (Instr.MOVSX_rm Reg.eax 8 (xIndirect.atAbs ppf))
      else xEmit env (Instr.MOVZX_rm Reg.eax 8 (xIndirect.atAbs ppf))
    else if bits = 16 then
      if sign then xEmit env (Instr.MOVSX_rm Reg.eax 16 (xIndirect.atAbs ppf))
      else xEmit env (Instr.MOVZX_rm Reg.eax 16 (xIndirect.atAbs ppf))
    else if bits = 32 then
      xEmit env (Instr.MOV_rm Reg.eax (xIndirect.atAbs ppf))
    else pure ()
  else
    let handler := vmv_ptr % 256
    let paddr := wrap32 (sub32 ppf handler + 0x80000000)
    let szidx := if bits = 8 then 0 else if bits = 16 then 1 else if bits = 32 then 2 else 0
    if bits = 32 ∧ env.IntcStat = false ∧ paddr = env.INTC_STAT then
      xEmit env (Instr.MOV_rm Reg.eax (xIndirect.atAbs (env.psHu32 env.INTC_STAT)))
    else
      iFlushCall env
      xEmit env (Instr.FastCall (CallTarget.direct (env.RWFT szidx 0 handler)) (Arg.imm paddr) Arg.none)
      if bits = 8 then
        if sign then xEmit env (Instr.MOVSX_rr Reg.eax 8 Reg.eax)
        else xEmit env (Instr.MOVZX_rr Reg.eax 8 Reg.eax)
      else if bits = 16 then
        if sign then xEmit env (Instr.MOVSX_rr Reg.eax 16 Reg.eax)
        else xEmit env (Instr.MOVZX_rr Reg.eax 16 Reg.eax)

def vtlb_DynGenWrite (env : Env) (sz : Nat) : Emit Unit := do
  let writeback ← DynGen_PrepRegs env
  DynGen_IndirectDispatch env 1 sz false
  DynGen_DirectWrite env sz
  writeU32 writeback (← xGetPtr)

/-- The overload `vtlb_DynGenWrite(u32 likely_address, u32 bits)`. -/
def vtlb_DynGenWrite_likely (env : Env) (_likely_address bits : Nat) : Emit Unit :=
  vtlb_DynGenWrite env bits

def vtlb_DynGenWrite_Const (env : Env) (bits addr_const : Nat) : Emit Unit := do
  Profiler_EmitConstMem addr_const
  let vmv_ptr := wrap32 (env.vmap (addr_const >>> env.VTLB_PAGE_BITS))
  let ppf := wrap32 (addr_const + vmv_ptr)
  if signBit32 ppf = false then
    if bits = 8 then xEmit env (Instr.MOV_mr 8 (xIndirect.atAbs ppf) Reg.edx)
    else if bits = 16 then xEmit env (Instr.MOV_mr 16 (xIndirect.atAbs ppf) Reg.edx)
    else if bits = 32 then xEmit env (Instr.MOV_mr 32 (xIndirect.atAbs ppf) Reg.edx)
    else if bits = 64 then iMOV64_Smart env (xIndirect.atAbs ppf) (xIndirect.atReg Reg.edx 0)
    else if bits = 128 then iMOV128_SSE env (xIndirect.atAbs ppf) (xIndirect.atReg Reg.edx 0)
    else pure ()
  else
    let handler := vmv_ptr % 256
    let paddr := wrap32 (sub32 ppf handler + 0x80000000)
    let szidx :=
      if bits = 8 then 0 else if bits = 16 then 1 else if bits = 32 then 2
      else if bits = 64 then 3 else if bits = 128 then 4 else 0
    iFlushCall env
    xEmit env (Instr.FastCall (CallTarget.direct (env.RWFT szidx 1 handler)) (Arg.imm paddr)
      (Arg.reg Reg.edx))

def vtlb_DynV2P (env : Env) : Emit Unit := do
  xEmit env (Instr.MOV_rr Reg.eax Reg.ecx)
  xEmit env (Instr.AND_ri Reg.ecx env.VTLB_PAGE_MASK)
  xEmit env (Instr.SHR_ri Reg.eax env.VTLB_PAGE_BITS)
  xEmit env (Instr.MOV_rt Reg.eax Table.ppmap Reg.eax)
  xEmit env (Instr.OR_rr Reg.eax Reg.ecx)

/-! ## Reading off what a generator call emitted -/

def Event.instr : Event → Option Instr
  | .ins _ i => some i
  | _ => none

/-- The instructions a generator call appends to the stream when started in
state `s`, or the fatal stop. -/
def emitted {α : Type} (e : Emit α) (s : EmitState) : Except Fatal (List Instr) :=
  match e.run s with
  | .ok (_, s1) => .ok ((s1.log.drop s.log.length).filterMap Event.instr)
  | .error err => .error err

/-! ## Vocabulary of the statements -/

/-- The page-map entry of a virtual address, `vtlbdata.vmap[addr>>VTLB_PAGE_BITS]`
as a `u32`. -/
def vmapEntry (env : Env) (A : Nat) : Nat := wrap32 (env.vmap (A >>> env.VTLB_PAGE_BITS))

/-- The value `addr + vmap[addr>>VTLB_PAGE_BITS]` modulo 2^32 (`ppf`). The
address is direct-mapped when its sign bit is clear. -/
def ppfOf (env : Env) (A : Nat) : Nat := wrap32 (A + vmapEntry env A)

/-- Two generator states that differ at most in the stream (emit position,
bytes written, trace). -/
def SameAlloc (s1 s : EmitState) : Prop :=
  s1.x86FpuState = s.x86FpuState ∧ s1.xmmregs = s.xmmregs ∧ s1.mmxregs = s.mmxregs ∧
    s1.hasBeenCalled = s.hasBeenCalled ∧ s1.prot = s.prot

/-- The generator call `e`, started in `s`, returns `a` normally, appends to
the trace only, the instructions it appends are exactly `code`, and it leaves
the allocator, the guard flag and the page protection as they were. -/
def Emits {α : Type} (e : Emit α) (s : EmitState) (a : α) (code : List Instr) : Prop :=
  match e.run s with
  | .ok (a1, s1) =>
      a1 = a ∧ s1.log.take s.log.length = s.log ∧
        (s1.log.drop s.log.length).filterMap Event.instr = code ∧ SameAlloc s1 s
  | .error _ => False

/-- The instruction sequence `iMOV64_Smart( destRm, srcRm )` emits in
allocator state `s`. -/
def mov64Code (s : EmitState) (destRm srcRm : xIndirect) : List Instr :=
  if s.x86FpuState = FpuState.FPU_STATE ∧ _hasFreeXMMreg s = true then
    [Instr.MOVLPS_xm (s.xmmregs.indexOf false) srcRm,
     Instr.MOVLPS_mx destRm (s.xmmregs.indexOf false)]
  else if _hasFreeMMXreg s = true then
    [Instr.MOVQ_rm (s.mmxregs.indexOf false) srcRm,
     Instr.MOVQ_mr destRm (s.mmxregs.indexOf false)]
  else
    [Instr.MOV_rm Reg.eax srcRm, Instr.MOV_mr 32 destRm Reg.eax,
     Instr.MOV_rm Reg.eax (srcRm.add 4), Instr.MOV_mr 32 (destRm.add 4) Reg.eax]

/-- The instruction sequence `iMOV128_SSE( destRm, srcRm )` emits in
allocator state `s`. -/
def mov128Code (s : EmitState) (destRm srcRm : xIndirect) : List Instr :=
  if _hasFreeXMMreg s = true then
    [Instr.MOVDQA_xm (s.xmmregs.indexOf false) srcRm,
     Instr.MOVDQA_mx destRm (s.xmmregs.indexOf false)]
  else
    [Instr.StoreReg 0, Instr.MOVDQA_xm 0 srcRm, Instr.MOVDQA_mx destRm 0, Instr.RestoreReg 0]

/-- The five instructions of `DynGen_PrepRegs`. -/
def prepRegsCode (env : Env) : List Instr :=
  [Instr.MOV_rr Reg.eax Reg.ecx, Instr.SHR_ri Reg.eax env.VTLB_PAGE_BITS,
   Instr.MOV_rt Reg.eax Table.vmap Reg.eax, Instr.MOV_ri Reg.ebx 0xcdcdcdcd,
   Instr.ADD_rr Reg.ecx Reg.eax]

/-- Width class of an access width: 8/16/32/64/128 bits are classes 0..4. -/
def szidxOf (bits : Nat) : Nat :=
  if bits = 8 then 0 else if bits = 16 then 1 else if bits = 32 then 2
  else if bits = 64 then 3 else 4

/-- Address of the indirect dispatcher slot of (mode, width class, sign). -/
def indirectSlot (env : Env) (mode szidx sign : Nat) : Nat :=
  env.dispatchers + (mode * 224 + sign * 160 + szidx * 32)

/-- The direct-path load instructions for a supported width, reading from
the operand `src` (`ptr[ecx]` in the dynamic emitters, `ptr[ppf]` in the
constant-address emitters). -/
def directReadCode (s : EmitState) (bits : Nat) (sign : Bool) (src : xIndirect) : List Instr :=
  if bits = 8 then
    [if sign then Instr.MOVSX_rm Reg.eax 8 src else Instr.MOVZX_rm Reg.eax 8 src]
  else if bits = 16 then
    [if sign then Instr.MOVSX_rm Reg.eax 16 src else Instr.MOVZX_rm Reg.eax 16 src]
  else if bits = 32 then [Instr.MOV_rm Reg.eax src]
  else if bits = 64 then mov64Code s (xIndirect.atReg Reg.edx 0) src
  else mov128Code s (xIndirect.atReg Reg.edx 0) src

/-- The direct-path store instructions for a supported width, writing to the
operand `dst`. -/
def directWriteCode (s : EmitState) (bits : Nat) (dst : xIndirect) : List Instr :=
  if bits = 8 then [Instr.MOV_mr 8 dst Reg.edx]
  else if bits = 16 then [Instr.MOV_mr 16 dst Reg.edx]
  else if bits = 32 then [Instr.MOV_mr 32 dst Reg.edx]
  else if bits = 64 then mov64Code s dst (xIndirect.atReg Reg.edx 0)
  else mov128Code s dst (xIndirect.atReg Reg.edx 0)

/-- The supported access widths. -/
def Supported (bits : Nat) : Prop :=
  bits = 8 ∨ bits = 16 ∨ bits = 32 ∨ bits = 64 ∨ bits = 128

instance (bits : Nat) : Decidable (Supported bits) := by
  unfold Supported; infer_instance

/-- The handler selector of a page-map entry, `(u8)vmv_ptr`. -/
def handlerOf (env : Env) (A : Nat) : Nat := vmapEntry env A % 256

/-- The physical address recovered for a handler page,
`ppf - handler + 0x80000000` as a `u32`. -/
def paddrOf (env : Env) (A : Nat) : Nat :=
  wrap32 (sub32 (ppfOf env A) (handlerOf env A) + 0x80000000)

/-- The extension of the handler result emitted after a handler call of an
8- or 16-bit load (nothing for the other widths). -/
def extCode (bits : Nat) (sign : Bool) : List Instr :=
  if bits = 8 then
    [if sign then Instr.MOVSX_rr Reg.eax 8 Reg.eax else Instr.MOVZX_rr Reg.eax 8 Reg.eax]
  else if bits = 16 then
    [if sign then Instr.MOVSX_rr Reg.eax 16 Reg.eax else Instr.MOVZX_rr Reg.eax 16 Reg.eax]
  else []

/-- The first four instructions of every indirect dispatcher: selector,
physical address, call through the handler table. -/
def dispatcherCallCode (mode bits : Nat) : List Instr :=
  [Instr.MOVZX_rr Reg.eax 8 Reg.eax, Instr.SUB_ri Reg.ecx 0x80000000,
   Instr.SUB_rr Reg.ecx Reg.eax,
   Instr.FastCall (CallTarget.viaRWFT bits mode Reg.eax) (Arg.reg Reg.ecx) (Arg.reg Reg.edx)]

/-- The value an 8/16/32-bit load from address `a` leaves in eax. -/
def loadVal (bits : Nat) (sign : Bool) (mem : Nat → Nat) (a : Nat) : Nat :=
  if bits = 32 then fromLE (readBytes mem a 4)
  else if sign then signExtend bits (fromLE (readBytes mem a (bits / 8)))
  else zeroExtend bits (fromLE (readBytes mem a (bits / 8)))

/-- Whether the two 32-bit moves through eax are what `iMOV64_Smart` emits
in allocator state `s` (no vector register usable, no MMX register free). -/
def viaEax (s : EmitState) : Bool :=
  !(decide (s.x86FpuState = FpuState.FPU_STATE) && _hasFreeXMMreg s) && !(_hasFreeMMXreg s)

/-- Memory after the code of `iMOV64_Smart` has moved 8 bytes from address
`a` to address `d`: one 8-byte move through a vector or MMX register, or two
4-byte moves through eax (the second reads `a+4` after the first wrote `d`). -/
def copy64 (s : EmitState) (mem : Nat → Nat) (d a : Nat) : Nat → Nat :=
  if viaEax s then
    writeBytes (writeBytes mem d (readBytes mem a 4)) (d + 4)
      (readBytes (writeBytes mem d (readBytes mem a 4)) (a + 4) 4)
  else writeBytes mem d (readBytes mem a 8)

/-- Memory after the code of `iMOV128_SSE` has moved 16 bytes from `a` to `d`. -/
def copy128 (mem : Nat → Nat) (d a : Nat) : Nat → Nat :=
  writeBytes mem d (readBytes mem a 16)

/-- Whether a memory operand is addressed through eax. -/
def xIndirect.usesEax : xIndirect → Bool
  | .atReg .eax _ => true
  | _ => false

/-- The forward copy in two halves is safe: the destination does not start
1..7 bytes above the source (modulo 2^32). -/
def fwdSafe (d a : Nat) : Prop := sub32 d a = 0 ∨ 8 ≤ sub32 d a

instance (d a : Nat) : Decidable (fwdSafe d a) := by
  unfold fwdSafe; infer_instance

/-- Effective address of an operand from the values of the four registers. -/
def eaRegs (eax ebx ecx edx : Nat) : xIndirect → Nat
  | .atReg .eax off => wrap32 (eax + off)
  | .atReg .ebx off => wrap32 (ebx + off)
  | .atReg .ecx off => wrap32 (ecx + off)
  | .atReg .edx off => wrap32 (edx + off)
  | .atAbs a => wrap32 a

/-- The dynamic-address emitter for a direction, a width and a sign flag:
`vtlb_DynGenWrite` for stores, `vtlb_DynGenRead32` / `vtlb_DynGenRead64` for
loads. -/
def dynGen (env : Env) (store : Bool) (bits : Nat) (sign : Bool) : Emit Unit :=
  if store then vtlb_DynGenWrite env bits
  else if bits < 64 then vtlb_DynGenRead32 env bits sign
  else vtlb_DynGenRead64 env bits

/-- The constant-address emitter for a direction, a width, a sign flag and
an address: `vtlb_DynGenWrite_Const` for stores, `vtlb_DynGenRead32_Const` /
`vtlb_DynGenRead64_Const` for loads. -/
def constGen (env : Env) (store : Bool) (bits : Nat) (sign : Bool) (A : Nat) : Emit Unit :=
  if store then vtlb_DynGenWrite_Const env bits A
  else if bits < 64 then vtlb_DynGenRead32_Const env bits sign A
  else vtlb_DynGenRead64_Const env bits A

/-- Memory after a direct access of the given direction and width at
physical address `ppf`, with `edx` the data register: a store of the low
bytes of edx (8/16/32 bits), a copy between `[edx]` and `[ppf]` (64/128
bits), nothing for an 8/16/32-bit load. -/
def directMem (s : EmitState) (store : Bool) (bits : Nat) (mem : Nat → Nat) (edx ppf : Nat) :
    Nat → Nat :=
  if store then
    if bits = 64 then copy64 s mem ppf (wrap32 edx)
    else if bits = 128 then copy128 mem ppf (wrap32 edx)
    else writeBytes mem ppf (toLE (bits / 8) edx)
  else
    if bits = 64 then copy64 s mem (wrap32 edx) ppf
    else if bits = 128 then copy128 mem (wrap32 edx) ppf
    else mem

instance : DecidableEq (Except Fatal (List Instr)) := fun a b =>
  match a, b with
  | .ok x, .ok y =>
      if h : x = y then isTrue (by rw [h]) else isFalse (fun e => h (by cases e; rfl))
  | .error x, .error y =>
      if h : x = y then isTrue (by rw [h]) else isFalse (fun e => h (by cases e; rfl))
  | .ok _, .error _ => isFalse (fun e => by cases e)
  | .error _, .ok _ => isFalse (fun e => by cases e)

/-- The machine state in which control leaves a run of code. -/
def Outcome.machine : Outcome → Machine
  | .next m => m
  | .jump _ m => m
  | .fault m => m

/-- Whether a run ended in a fault. -/
def Outcome.isFault : Outcome → Bool
  | .fault _ => true
  | _ => false

/-- The operands of a 128-bit access are usable by the aligned 16-byte move:
for a width of 128 bits the physical address `ppf` and the address in edx of
the 16-byte data buffer are multiples of 16. Nothing is required of the other
widths. -/
def wideAligned (bits edx ppf : Nat) : Prop :=
  bits = 128 → ppf % 16 = 0 ∧ wrap32 edx % 16 = 0

instance (bits edx ppf : Nat) : Decidable (wideAligned bits edx ppf) := by
  unfold wideAligned; infer_instance

/-- The instruction list of a successful generation (empty after a fatal
stop). -/
def codeOf : Except Fatal (List Instr) → List Instr
  | .ok c => c
  | .error _ => []

/-! ## Concrete inputs -/

/-- A concrete environment: 4 KiB pages; page 1 is served by handler 3 (its
entry `0x80000003` makes `A + entry` negative and recovers the physical
address A), page 2 by handler 5 with physical base `INTC_STAT`, every other
page is direct-mapped at offset `0x100000`. -/
def env0 : Env :=
  { VTLB_PAGE_BITS := 12
    VTLB_PAGE_MASK := 4095
    INTC_STAT := 0x1000f000
    psHu32 := fun a => 0x20000000 + a % 65536
    vmap := fun p => if p = 1 then 0x80000003 else if p = 2 then 0x9000D005 else 0x100000
    ppmap := fun p => (p * 4096) % 4294967296
    RWFT := fun b md h => 1000 + 100 * b + 10 * md + h
    IntcStat := false
    dispatchers := 0x500000
    enc := fun _ _ => [0x90]
    handler := fun fn m => { m with eax := fn + 0x8080 }
    flush := fun m => m }

/-- A fresh generator state: nothing emitted, all vector and MMX registers
free, `x86FpuState = FPU_STATE`. -/
def es0 : EmitState :=
  { x86Ptr := 0x600000
    log := []
    bytes := fun _ => 0
    prot := PageAccess.Unset
    hasBeenCalled := false
    x86FpuState := FpuState.FPU_STATE
    xmmregs := List.replicate 8 false
    mmxregs := List.replicate 8 false }

/-- A generator state with MMX registers free but `x86FpuState = MMX_STATE`. -/
def esMmx : EmitState := { es0 with x86FpuState := FpuState.MMX_STATE }

/-- A generator state with every vector and MMX register in use. -/
def esBusy : EmitState :=
  { es0 with xmmregs := List.replicate 8 true, mmxregs := List.replicate 8 true }

/-- A machine state whose memory holds the byte `a % 251` at address `a`. -/
def m0 : Machine :=
  { eax := 0, ebx := 0, ecx := 0, edx := 0, sf := false, cf := false
    xmm := fun _ => List.replicate 16 0
    mmx := fun _ => List.replicate 8 0
    mem := fun a => a % 251
    xmmData := fun _ => List.replicate 16 0
    calls := [] }

/-- The sign/zero-extension law for a `bits`-wide value `v` extended into
the 32-bit register value `eax`: the low `bits` bits of eax are those of `v`,
and the upper `32 - bits` bits are all ones when the load is signed and the
top bit of `v` is set, all zeros otherwise. -/
def ExtLaw (bits : Nat) (sign : Bool) (v eax : Nat) : Prop :=
  eax < 4294967296 ∧ eax % 2 ^ bits = v % 2 ^ bits ∧
    eax / 2 ^ bits =
      (if sign = true ∧ 2 ^ (bits - 1) ≤ v % 2 ^ bits then 2 ^ (32 - bits) - 1 else 0)

instance (bits : Nat) (sign : Bool) (v eax : Nat) : Decidable (ExtLaw bits sign v eax) := by
  unfold ExtLaw; infer_instance

/-- Branch and jump instructions. -/
def Instr.isBranch : Instr → Bool
  | .JS _ => true
  | .JAE _ => true
  | .JMP_r _ => true
  | _ => false

/-- Call instructions. -/
def Instr.isCall : Instr → Bool
  | .FastCall _ _ _ => true
  | _ => false

/-- The `vtlbdata` table an instruction reads, if any (`RWFT` is read only
by calls). -/
def Instr.readsTable : Instr → Option Table
  | .MOV_rt _ t _ => some t
  | _ => none

/-- Runs `vtlb_dynarec_init` `n` times in a row. -/
def vtlb_dynarec_init_times (env : Env) : Nat → Emit Unit
  | 0 => pure ()
  | n + 1 => do
      vtlb_dynarec_init_times env n
      vtlb_dynarec_init env

/-- The generator call `e`, started in `s`, returns normally and leaves the
allocator, the guard flag and the page protection as they were. -/
def Runs {α : Type} (e : Emit α) (s : EmitState) : Prop :=
  ∃ a s1, e.run s = .ok (a, s1) ∧ SameAlloc s1 s

/-- Address of the full dispatcher slot of (mode, width class, sign). -/
def fullSlot (env : Env) (mode szidx sign : Nat) : Nat :=
  env.dispatchers + (512 + mode * 448 + sign * 320 + szidx * 64)

/-- The (mode, width class, sign) triples for which dispatchers exist: mode
0 (load) or 1 (store), width class 0..4, sign 0 or 1, with sign 1 only for
loads of width class 0 or 1. -/
def validSlot (mode szidx sign : Nat) : Prop :=
  mode ≤ 1 ∧ szidx ≤ 4 ∧ sign ≤ 1 ∧ (sign = 1 → mode = 0 ∧ szidx < 2)

instance (mode szidx sign : Nat) : Decidable (validSlot mode szidx sign) := by
  unfold validSlot; infer_instance

/-- The triples the three nested loops of `vtlb_dynarec_init` go through, in
order. -/
def initTriples : List (Nat × Nat × Nat) :=
  [0, 1].flatMap fun mode =>
    [0, 1, 2, 3, 4].flatMap fun bits =>
      (List.range (if mode = 0 ∧ bits < 2 then 2 else 1)).map fun sign => (mode, bits, sign)

/-- The flush notification. -/
def Instr.isFlush : Instr → Bool
  | .FlushCall => true
  | _ => false

/-- An instruction that is neither a flush notification nor a call nor a
branch. -/
def Instr.isPlain (i : Instr) : Bool := !i.isFlush && !i.isCall && !i.isBranch

/-- The three constant-address emitters applied to the same width, sign flag
and address. -/
def constEmitters (env : Env) (bits : Nat) (sign : Bool) (A : Nat) : List (Emit Unit) :=
  [vtlb_DynGenRead64_Const env bits A, vtlb_DynGenRead32_Const env bits sign A,
   vtlb_DynGenWrite_Const env bits A]

/-- The generator state after the instructions `code` have been emitted one
after the other from state `s` (see `xEmit`). -/
def emitAll (env : Env) : List Instr → EmitState → EmitState
  | [], s => s
  | i :: is, s =>
      emitAll env is
        { s with
          log := s.log ++ [Event.ins s.x86Ptr i]
          bytes := writeBytes s.bytes s.x86Ptr (env.enc s.x86Ptr i)
          x86Ptr := s.x86Ptr + (env.enc s.x86Ptr i).length }

/-- The trace of emitting `code` from position `p`: each instruction at the
position the one before it ended at. -/
def layout (env : Env) : Nat → List Instr → List Event
  | _, [] => []
  | p, i :: is => Event.ins p i :: layout env (p + (env.enc p i).length) is

/-- The emit position after `code` has been emitted from position `p`. -/
def endPos (env : Env) : Nat → List Instr → Nat
  | p, [] => p
  | p, i :: is => endPos env (p + (env.enc p i).length) is

/-- The generator call `e`, started in `s`, returns `a` normally and leaves
exactly the state in which the instructions `code` have been emitted from
`s`: the allocator, the guard flag and the page protection are as they were. -/
def EmitsExactly {α : Type} (env : Env) (e : Emit α) (s : EmitState) (a : α)
    (code : List Instr) : Prop :=
  e.run s = .ok (a, emitAll env code s)

/-- The generator state after the store `*writeback = value` (see
`writeU32`). -/
def storeU32 (addr val : Nat) (s : EmitState) : EmitState :=
  { s with
    bytes := writeBytes s.bytes addr (toLE 4 val)
    log := s.log ++ [Event.patch addr val] }

/-- The instructions of a dynamic-address emitter for a supported width:
`DynGen_PrepRegs`, the `js` to the indirect dispatcher, the direct path. -/
def dynCode (env : Env) (s : EmitState) (store : Bool) (bits : Nat) (sign : Bool) :
    List Instr :=
  prepRegsCode env ++
    Instr.JS (indirectSlot env (if store then 1 else 0) (szidxOf bits)
      (if (!store && sign && decide (bits < 32)) then 1 else 0)) ::
    (if store then directWriteCode s bits (xIndirect.atReg Reg.ecx 0)
     else directReadCode s bits (sign && decide (bits < 64)) (xIndirect.atReg Reg.ecx 0))

/-- Position of the `mov ebx, 0xcdcdcdcd` of `DynGen_PrepRegs` when emission
starts at position `p`. -/
def movEbxPos (env : Env) (p : Nat) : Nat := endPos env p ((prepRegsCode env).take 3)

/-- The writeback pointer `DynGen_PrepRegs` returns when emission starts at
position `p`: four bytes before the end of `mov ebx, 0xcdcdcdcd`. -/
def writebackPtr (env : Env) (p : Nat) : Nat := endPos env p ((prepRegsCode env).take 4) - 4

/-- The `mov r, imm32` instructions. -/
def Instr.isMovImm : Instr → Bool
  | .MOV_ri _ _ => true
  | _ => false

/-- Effect of a 32-bit store of `val` at `addr` on an emitted instruction: a
store over the last four bytes of a `mov r, imm32` (where its immediate is
encoded) replaces the immediate; everything else is left as it is. -/
def Event.patched (env : Env) (addr val : Nat) : Event → Event
  | .ins p (.MOV_ri r imm) =>
      if p + (env.enc p (.MOV_ri r imm)).length = addr + 4 then .ins p (.MOV_ri r val)
      else .ins p (.MOV_ri r imm)
  | e => e

/-- Processes one event of a trace: a store into emitted code is applied to
the instructions emitted so far, any other event is appended. -/
def applyEvent (env : Env) (acc : List Event) : Event → List Event
  | .patch a v => acc.map (Event.patched env a v)
  | e => acc ++ [e]

/-- The instructions a trace stands for once its stores into emitted code
have been applied, in emission order. -/
def finalCode (env : Env) (evs : List Event) : List Instr :=
  (evs.foldl (applyEvent env) []).filterMap Event.instr

/-- The instructions of an indirect dispatcher (`DynGen_IndirectTlbDispatcher`
for a mode, a width class and a sign flag). -/
def trampCode (mode k : Nat) (sign : Bool) : List Instr :=
  dispatcherCallCode mode k ++
    ((if mode = 0 then extCode (if k = 0 then 8 else if k = 1 then 16 else 0) sign else []) ++
      [Instr.JMP_r Reg.ebx])

/-- The environment `env0` with an encoder that puts the 32-bit immediate of
`mov r, imm32` in the last four bytes of its five-byte encoding. -/
def env1 : Env :=
  { env0 with
    enc := fun _ i =>
      match i with
      | .MOV_ri _ v => 0xBB :: toLE 4 v
      | _ => [0x90] }

/-- Access width in bits of a width class: classes 0..4 are 8/16/32/64/128. -/
def classWidth (k : Nat) : Nat := 8 * 2 ^ k

/-- The instructions of a full dispatcher (`DynGen_FullTlbDispatcher` for a
mode, a width class 0..4 and a sign flag) in allocator state `s`. -/
def fullCode (env : Env) (s : EmitState) (mode k : Nat) (sign : Bool) : List Instr :=
  [Instr.MOV_rr Reg.eax Reg.ecx, Instr.SHR_ri Reg.eax env.VTLB_PAGE_BITS,
   Instr.MOV_rt Reg.eax Table.vmap Reg.eax, Instr.ADD_rr Reg.ecx Reg.eax,
   Instr.JS (indirectSlot env mode k (if sign then 1 else 0))] ++
    ((if mode = 1 then directWriteCode s (classWidth k) (xIndirect.atReg Reg.ecx 0)
      else directReadCode s (classWidth k) sign (xIndirect.atReg Reg.ecx 0)) ++
      [Instr.JMP_r Reg.ebx])

/-- The generator state after `xSetPtr( p )`. -/
def setPtrState (p : Nat) (s : EmitState) : EmitState :=
  { s with x86Ptr := p, log := s.log ++ [Event.setPtr p] }

/-- The generator state after one pass of the innermost loop body of
`vtlb_dynarec_init`: the indirect dispatcher emitted at its slot, then the
full dispatcher at its slot. -/
def slotState (env : Env) (mode k sg : Nat) (s : EmitState) : EmitState :=
  emitAll env (fullCode env s mode k (decide (sg ≠ 0)))
    (setPtrState (fullSlot env mode k sg)
      (emitAll env (trampCode mode k (decide (sg ≠ 0)))
        (setPtrState (indirectSlot env mode k sg) s)))

/-- The trace of one pass of the innermost loop body of `vtlb_dynarec_init`
in allocator state `s`. -/
def slotEvents (env : Env) (s : EmitState) (mode k sg : Nat) : List Event :=
  Event.setPtr (indirectSlot env mode k sg) ::
    layout env (indirectSlot env mode k sg) (trampCode mode k (decide (sg ≠ 0))) ++
  Event.setPtr (fullSlot env mode k sg) ::
    layout env (fullSlot env mode k sg) (fullCode env s mode k (decide (sg ≠ 0)))

/-- The generator state after the three nested loops of
`vtlb_dynarec_init`. -/
def loopsState (env : Env) (s : EmitState) : EmitState :=
  [0, 1].foldl (fun st mode =>
    [0, 1, 2, 3, 4].foldl (fun st bits =>
      (List.range (if mode = 0 ∧ bits < 2 then 2 else 1)).foldl (fun st sign =>
        slotState env mode bits sign st) st) st) s

/-- The generator state of the first call of `vtlb_dynarec_init` when it
enters the loops: guard flag set, page read-write, buffer filled with 0xcc. -/
def initStart (env : Env) (s : EmitState) : EmitState :=
  { s with
    hasBeenCalled := true
    prot := PageAccess.ReadWrite
    bytes := fun a =>
      if env.dispatchers ≤ a ∧ a < env.dispatchers + 0x1000 then 0xcc else s.bytes a
    log := s.log ++ [Event.protect PageAccess.ReadWrite, Event.memset 0xcc 0x1000] }

/-- The generator state after the first call of `vtlb_dynarec_init`. -/
def initState (env : Env) (s : EmitState) : EmitState :=
  { (loopsState env (initStart env s)) with
    prot := PageAccess.ExecOnly
    log := (loopsState env (initStart env s)).log ++ [Event.protect PageAccess.ExecOnly] }

/-- The slot address the `js` of a dynamic-address emitter targets, for a
direction, a width and a sign flag. -/
def dynSlot (env : Env) (store : Bool) (bits : Nat) (sign : Bool) : Nat :=
  indirectSlot env (if store then 1 else 0) (szidxOf bits)
    (if (!store && sign && decide (bits < 32)) then 1 else 0)

/-- The trace of the three nested loops of `vtlb_dynarec_init` in allocator
state `s`: the traces of the passes for the triples of `initTriples`, in
order. -/
def loopEvents (env : Env) (s : EmitState) : List Event :=
  initTriples.flatMap fun t => slotEvents env s t.1 t.2.1 t.2.2

/-- A change of the protection of the dispatcher page. -/
def Event.isProtect : Event → Bool
  | .protect _ => true
  | _ => false

/-- A write into the instruction stream: an emitted instruction, the fill of
the dispatcher buffer, a store into emitted code. -/
def Event.isWrite : Event → Bool
  | .ins _ _ => true
  | .memset _ _ => true
  | .patch _ _ => true
  | _ => false

/-! # Theorems -/

/-! ## Words and bytes -/

theorem wrap32_lt (n : Nat) : wrap32 n < 4294967296 := by
  unfold wrap32; omega

@[simp] theorem wrap32_wrap32 (n : Nat) : wrap32 (wrap32 n) = wrap32 n := by
  unfold wrap32; omega

theorem wrap32_of_lt {n : Nat} (h : n < 4294967296) : wrap32 n = n := by
  unfold wrap32; omega

@[simp] theorem wrap32_add_wrap32_left (a b : Nat) : wrap32 (wrap32 a + b) = wrap32 (a + b) := by
  unfold wrap32; omega

@[simp] theorem wrap32_add_wrap32_right (a b : Nat) : wrap32 (a + wrap32 b) = wrap32 (a + b) := by
  unfold wrap32; omega

theorem readBytes_length (mem : Nat → Nat) (a n : Nat) : (readBytes mem a n).length = n := by
  induction n generalizing a with
  | zero => rfl
  | succ k ih => simp [readBytes, ih]

theorem readBytes_lt (mem : Nat → Nat) (a n : Nat) : ∀ b ∈ readBytes mem a n, b < 256 := by
  induction n generalizing a with
  | zero => intro b hb; simp [readBytes] at hb
  | succ k ih =>
    intro b hb
    simp only [readBytes, List.mem_cons] at hb
    rcases hb with h | h
    · omega
    · exact ih _ b h

theorem readBytes_wrap (mem : Nat → Nat) (a n : Nat) :
    readBytes mem (wrap32 a) n = readBytes mem a n := by
  induction n generalizing a with
  | zero => rfl
  | succ k ih =>
    simp only [readBytes, wrap32_wrap32]
    rw [← ih (wrap32 a + 1), ← ih (a + 1)]
    simp

theorem writeBytes_wrap (mem : Nat → Nat) (a : Nat) (bs : List Nat) :
    writeBytes mem (wrap32 a) bs = writeBytes mem a bs := by
  induction bs generalizing a mem with
  | nil => rfl
  | cons b bs ih =>
    simp only [writeBytes, wrap32_wrap32]
    rw [← ih _ (wrap32 a + 1), ← ih _ (a + 1)]
    simp

theorem readBytes_add (mem : Nat → Nat) (a n k : Nat) :
    readBytes mem a (n + k) = readBytes mem a n ++ readBytes mem (a + n) k := by
  induction n generalizing a with
  | zero => simp [readBytes]
  | succ j ih =>
    have : j + 1 + k = (j + k) + 1 := by omega
    rw [this]
    simp only [readBytes, List.cons_append, ih]
    rw [show a + 1 + j = a + (j + 1) by omega]

theorem writeBytes_append (mem : Nat → Nat) (a : Nat) (xs ys : List Nat) :
    writeBytes mem a (xs ++ ys) = writeBytes (writeBytes mem a xs) (a + xs.length) ys := by
  induction xs generalizing a mem with
  | nil => simp [writeBytes]
  | cons x xs ih =>
    rw [List.cons_append]
    simp only [writeBytes, List.length_cons]
    rw [ih, show a + 1 + xs.length = a + (xs.length + 1) by omega]

theorem writeBytes_outside (mem : Nat → Nat) (a : Nat) (bs : List Nat) (x : Nat)
    (h : ∀ i, i < bs.length → wrap32 (a + i) ≠ x) : writeBytes mem a bs x = mem x := by
  induction bs generalizing a mem with
  | nil => rfl
  | cons b bs ih =>
    simp only [writeBytes]
    rw [ih]
    · have h0 := h 0 (by simp)
      simp only [Nat.add_zero] at h0
      simp [Function.update_apply, Ne.symm h0]
    · intro i hi
      have := h (i + 1) (by simp; omega)
      rwa [show a + 1 + i = a + (i + 1) by omega]

theorem readBytes_congr (m1 m2 : Nat → Nat) (a n : Nat)
    (h : ∀ i, i < n → m1 (wrap32 (a + i)) = m2 (wrap32 (a + i))) :
    readBytes m1 a n = readBytes m2 a n := by
  induction n generalizing a with
  | zero => rfl
  | succ k ih =>
    simp only [readBytes]
    have h0 := h 0 (by omega)
    simp only [Nat.add_zero] at h0
    rw [h0, ih]
    intro i hi
    have := h (i + 1) (by omega)
    rwa [show a + 1 + i = a + (i + 1) by omega]

theorem readBytes_writeBytes_disjoint (mem : Nat → Nat) (a b n : Nat) (bs : List Nat)
    (h : ∀ i j, i < n → j < bs.length → wrap32 (a + j) ≠ wrap32 (b + i)) :
    readBytes (writeBytes mem a bs) b n = readBytes mem b n := by
  apply readBytes_congr
  intro i hi
  apply writeBytes_outside
  intro j hj
  exact h i j hi hj

theorem readBytes_writeBytes_same (mem : Nat → Nat) (a : Nat) (bs : List Nat)
    (hlen : bs.length ≤ 4294967296) (hb : ∀ b ∈ bs, b < 256) :
    readBytes (writeBytes mem a bs) a bs.length = bs := by
  induction bs generalizing a mem with
  | nil => rfl
  | cons b bs ih =>
    simp only [List.length_cons] at hlen
    simp only [List.length_cons, readBytes, writeBytes]
    rw [ih _ _ (by omega) (fun x hx => hb x (by simp [hx]))]
    rw [writeBytes_outside]
    · have := hb b (by simp)
      simp only [Function.update_same]
      rw [Nat.mod_eq_of_lt this]
    · intro j hj
      unfold wrap32; omega

theorem fromLE_toLE (n v : Nat) : fromLE (toLE n v) = v % 256 ^ n := by
  induction n generalizing v with
  | zero => simp [toLE, fromLE, Nat.mod_one]
  | succ k ih =>
    simp only [toLE, fromLE, ih]
    rw [pow_succ, Nat.mul_comm (256 ^ k) 256, Nat.mod_mul]

theorem toLE_fromLE (bs : List Nat) (hb : ∀ b ∈ bs, b < 256) :
    toLE bs.length (fromLE bs) = bs := by
  induction bs with
  | nil => rfl
  | cons b bs ih =>
    have hb0 : b < 256 := hb b (by simp)
    simp only [List.length_cons, toLE, fromLE]
    have h1 : (b + 256 * fromLE bs) % 256 = b := by omega
    have h2 : (b + 256 * fromLE bs) / 256 = fromLE bs := by omega
    rw [h1, h2, ih]
    intro x hx
    exact hb x (by simp [hx])

/-! ## What the generator functions emit -/

theorem set_indexOf_restore (l : List Bool) (h : false ∈ l) :
    (l.set (l.indexOf false) true).set (l.indexOf false) false = l := by
  rw [List.set_set]
  have hi : l.indexOf false < l.length := List.indexOf_lt_length.mpr h
  have hg : l[l.indexOf false] = false := List.indexOf_get hi
  apply List.ext_getElem
  · simp
  · intro i h1 h2
    by_cases hEq : l.indexOf false = i
    · subst hEq; simp [hg]
    · simp [List.getElem_set, hEq]

theorem Emits_pure {α : Type} (s : EmitState) (a : α) : Emits (pure a : Emit α) s a [] := by
  simp [Emits, StateT.run, pure, StateT.pure, Except.pure, SameAlloc]

theorem Emits_xEmit (env : Env) (i : Instr) (s : EmitState) : Emits (xEmit env i) s () [i] := by
  simp [Emits, xEmit, StateT.run, modify, modifyGet, MonadStateOf.modifyGet,
    StateT.modifyGet, Pure.pure, Except.pure, SameAlloc, Event.instr]

theorem Emits_bind {α β : Type} {e : Emit α} {f : α → Emit β} {s : EmitState} {a : α} {b : β}
    {c1 c2 : List Instr} (h1 : Emits e s a c1)
    (h2 : ∀ s1, SameAlloc s1 s → Emits (f a) s1 b c2) : Emits (e >>= f) s b (c1 ++ c2) := by
  unfold Emits at h1 ⊢
  simp only [StateT.run_bind]
  cases he : e.run s with
  | error err => rw [he] at h1; exact h1.elim
  | ok r =>
    obtain ⟨a1, s1⟩ := r
    rw [he] at h1
    obtain ⟨ha, htake, hcode, hsame⟩ := h1
    subst ha
    have h2' := h2 s1 hsame
    unfold Emits at h2'
    simp only [Bind.bind, Except.bind]
    cases hf : (f a1).run s1 with
    | error err => rw [hf] at h2'; exact h2'.elim
    | ok r2 =>
      obtain ⟨b1, s2⟩ := r2
      rw [hf] at h2'
      obtain ⟨hb, htake2, hcode2, hsame2⟩ := h2'
      have e1 : s1.log = s.log ++ s1.log.drop s.log.length := by
        conv_lhs => rw [← List.take_append_drop s.log.length s1.log, htake]
      have e2 : s2.log = s1.log ++ s2.log.drop s1.log.length := by
        conv_lhs => rw [← List.take_append_drop s1.log.length s2.log, htake2]
      have e3 : s2.log = s.log ++ (s1.log.drop s.log.length ++ s2.log.drop s1.log.length) := by
        rw [← List.append_assoc, ← e1]; exact e2
      refine ⟨hb, ?_, ?_, ?_⟩
      · rw [e3, List.take_left]
      · rw [e3, List.drop_left, List.filterMap_append, hcode, hcode2]
      · obtain ⟨p1, p2, p3, p4, p5⟩ := hsame
        obtain ⟨q1, q2, q3, q4, q5⟩ := hsame2
        exact ⟨q1.trans p1, q2.trans p2, q3.trans p3, q4.trans p4, q5.trans p5⟩

theorem SameAlloc_refl (s : EmitState) : SameAlloc s s := ⟨rfl, rfl, rfl, rfl, rfl⟩

theorem Emits_emitted {α : Type} {e : Emit α} {s : EmitState} {a : α} {code : List Instr}
    (h : Emits e s a code) : emitted e s = .ok code := by
  unfold Emits at h
  unfold emitted
  cases he : e.run s with
  | error err => rw [he] at h; exact h.elim
  | ok r =>
    obtain ⟨a1, s1⟩ := r
    rw [he] at h
    simp only [h.2.2.1]

theorem mov64Code_congr {s1 s : EmitState} (h : SameAlloc s1 s) (d src : xIndirect) :
    mov64Code s1 d src = mov64Code s d src := by
  obtain ⟨p1, p2, p3, -, -⟩ := h
  simp [mov64Code, _hasFreeXMMreg, _hasFreeMMXreg, p1, p2, p3]

theorem mov128Code_congr {s1 s : EmitState} (h : SameAlloc s1 s) (d src : xIndirect) :
    mov128Code s1 d src = mov128Code s d src := by
  obtain ⟨p1, p2, p3, -, -⟩ := h
  simp [mov128Code, _hasFreeXMMreg, p2]

theorem Emits_iMOV64_Smart (env : Env) (s : EmitState) (d src : xIndirect) :
    Emits (iMOV64_Smart env d src) s () (mov64Code s d src) := by
  unfold mov64Code
  by_cases h1 : s.x86FpuState = FpuState.FPU_STATE ∧ _hasFreeXMMreg s = true
  · have hx : false ∈ s.xmmregs := by simpa [_hasFreeXMMreg] using h1.2
    simp [Emits, iMOV64_Smart, h1, _allocTempXMMreg, _freeXMMreg, xEmit, StateT.run,
      bind, StateT.bind, modify, modifyGet, MonadStateOf.modifyGet, StateT.modifyGet, Except.bind,
      pure, StateT.pure, Except.pure, get, getThe, MonadStateOf.get, StateT.get, set,
      StateT.set, SameAlloc, Event.instr, set_indexOf_restore _ hx]
  · by_cases h2 : _hasFreeMMXreg s = true
    · have hx : false ∈ s.mmxregs := by simpa [_hasFreeMMXreg] using h2
      simp [Emits, iMOV64_Smart, h1, h2, _allocMMXreg, _freeMMXreg, xEmit, StateT.run,
        bind, StateT.bind, modify, modifyGet, MonadStateOf.modifyGet, StateT.modifyGet, Except.bind,
        pure, StateT.pure, Except.pure, get, getThe, MonadStateOf.get, StateT.get, set,
        StateT.set, SameAlloc, Event.instr, set_indexOf_restore _ hx]
    · simp [Emits, iMOV64_Smart, h1, h2, xEmit, StateT.run,
        bind, StateT.bind, modify, modifyGet, MonadStateOf.modifyGet, StateT.modifyGet, Except.bind,
        pure, StateT.pure, Except.pure, get, getThe, MonadStateOf.get, StateT.get, set,
        StateT.set, SameAlloc, Event.instr]

theorem Emits_iMOV128_SSE (env : Env) (s : EmitState) (d src : xIndirect) :
    Emits (iMOV128_SSE env d src) s () (mov128Code s d src) := by
  unfold mov128Code
  by_cases h1 : _hasFreeXMMreg s = true
  · have hx : false ∈ s.xmmregs := by simpa [_hasFreeXMMreg] using h1
    simp [Emits, iMOV128_SSE, iAllocRegSSE.ctor, iAllocRegSSE.dtor, h1, _allocTempXMMreg,
      _freeXMMreg, xEmit, StateT.run,
      bind, StateT.bind, modify, modifyGet, MonadStateOf.modifyGet, StateT.modifyGet, Except.bind,
      pure, StateT.pure, Except.pure, get, getThe, MonadStateOf.get, StateT.get, set,
      StateT.set, SameAlloc, Event.instr, set_indexOf_restore _ hx]
  · simp [Emits, iMOV128_SSE, iAllocRegSSE.ctor, iAllocRegSSE.dtor, h1, xEmit,
      StateT.run,
      bind, StateT.bind, modify, modifyGet, MonadStateOf.modifyGet, StateT.modifyGet, Except.bind,
      pure, StateT.pure, Except.pure, get, getThe, MonadStateOf.get, StateT.get, set,
      StateT.set, SameAlloc, Event.instr]

theorem Emits_bind_eq {α β : Type} {e : Emit α} {f : α → Emit β} {s : EmitState} {a : α} {b : β}
    {c c1 c2 : List Instr} (h1 : Emits e s a c1)
    (h2 : ∀ s1, SameAlloc s1 s → Emits (f a) s1 b c2) (hc : c = c1 ++ c2) :
    Emits (e >>= f) s b c := hc ▸ Emits_bind h1 h2

theorem SameAlloc_trans {a b c : EmitState} (h1 : SameAlloc a b) (h2 : SameAlloc b c) :
    SameAlloc a c := by
  obtain ⟨p1, p2, p3, p4, p5⟩ := h1
  obtain ⟨q1, q2, q3, q4, q5⟩ := h2
  exact ⟨p1.trans q1, p2.trans q2, p3.trans q3, p4.trans q4, p5.trans q5⟩

theorem Emits_PrepRegs (env : Env) (s : EmitState) :
    ∃ wb, Emits (DynGen_PrepRegs env) s wb (prepRegsCode env) := by
  simp [Emits, DynGen_PrepRegs, prepRegsCode, Profiler_EmitMem, xGetPtr, xEmit, StateT.run, bind,
    StateT.bind, modify, modifyGet, MonadStateOf.modifyGet, StateT.modifyGet, Except.bind, pure,
    StateT.pure, Except.pure, Event.instr, get, getThe, MonadStateOf.get, StateT.get, SameAlloc]

theorem Emits_GetIndirectDispatcherPtr (env : Env) (s : EmitState) (mode szidx sign : Nat)
    (h : (mode ≠ 0 ∨ 2 ≤ szidx) → sign = 0) :
    Emits (GetIndirectDispatcherPtr env mode szidx sign) s (indirectSlot env mode szidx sign) [] := by
  by_cases hc : mode ≠ 0 ∨ 2 ≤ szidx
  · have := h hc
    subst this
    simp [Emits, GetIndirectDispatcherPtr, indirectSlot, assert, hc, StateT.run, bind,
      StateT.bind, Except.bind, pure, StateT.pure, Except.pure, SameAlloc]
  · simp [Emits, GetIndirectDispatcherPtr, indirectSlot, assert, hc, StateT.run, bind,
      StateT.bind, Except.bind, pure, StateT.pure, Except.pure, SameAlloc]
    omega

theorem Emits_IndirectDispatch (env : Env) (s : EmitState) (mode bits : Nat) (sign : Bool)
    (hb : Supported bits) (h : (mode ≠ 0 ∨ 2 ≤ szidxOf bits) → sign = false) :
    Emits (DynGen_IndirectDispatch env mode bits sign) s ()
      [Instr.JS (indirectSlot env mode (szidxOf bits) (if sign then 1 else 0))] := by
  have hg := fun s1 => Emits_GetIndirectDispatcherPtr env s1 mode (szidxOf bits)
    (if sign then 1 else 0) (by intro hc; simp [h hc])
  unfold DynGen_IndirectDispatch
  rcases hb with rfl | rfl | rfl | rfl | rfl <;>
  · simp only [szidxOf] at hg
    norm_num at hg ⊢
    refine Emits_bind_eq (hg s) (fun s1 _ => Emits_xEmit env _ s1) (by simp [szidxOf])

theorem Emits_DirectRead (env : Env) (s : EmitState) (bits : Nat) (sign : Bool)
    (hb : Supported bits) :
    Emits (DynGen_DirectRead env bits sign) s ()
      (directReadCode s bits sign (xIndirect.atReg Reg.ecx 0)) := by
  unfold DynGen_DirectRead directReadCode
  rcases hb with rfl | rfl | rfl | rfl | rfl
  · cases sign <;> simpa using Emits_xEmit env _ s
  · cases sign <;> simpa using Emits_xEmit env _ s
  · simpa using Emits_xEmit env _ s
  · simpa using Emits_iMOV64_Smart env s _ _
  · simpa using Emits_iMOV128_SSE env s _ _

theorem Emits_DirectWrite (env : Env) (s : EmitState) (bits : Nat) (hb : Supported bits) :
    Emits (DynGen_DirectWrite env bits) s ()
      (directWriteCode s bits (xIndirect.atReg Reg.ecx 0)) := by
  unfold DynGen_DirectWrite directWriteCode
  rcases hb with rfl | rfl | rfl | rfl | rfl
  · simpa using Emits_xEmit env _ s
  · simpa using Emits_xEmit env _ s
  · simpa using Emits_xEmit env _ s
  · simpa using Emits_iMOV64_Smart env s _ _
  · simpa using Emits_iMOV128_SSE env s _ _

theorem directReadCode_congr {s1 s : EmitState} (h : SameAlloc s1 s) (bits : Nat) (sign : Bool)
    (src : xIndirect) : directReadCode s1 bits sign src = directReadCode s bits sign src := by
  simp [directReadCode, mov64Code_congr h, mov128Code_congr h]

theorem directWriteCode_congr {s1 s : EmitState} (h : SameAlloc s1 s) (bits : Nat)
    (dst : xIndirect) : directWriteCode s1 bits dst = directWriteCode s bits dst := by
  simp [directWriteCode, mov64Code_congr h, mov128Code_congr h]

theorem Emits_writeback (s : EmitState) (wb : Nat) :
    Emits (xGetPtr >>= fun p => writeU32 wb p) s () [] := by
  simp [Emits, xGetPtr, writeU32, StateT.run, bind, StateT.bind, modify, modifyGet,
    MonadStateOf.modifyGet, StateT.modifyGet, Except.bind, pure, StateT.pure, Except.pure,
    Event.instr, get, getThe, MonadStateOf.get, StateT.get, SameAlloc]

theorem Emits_pxAssume (s : EmitState) (c : Bool) (h : c = true) : Emits (pxAssume c) s () [] := by
  subst h
  simpa [pxAssume] using Emits_pure s ()

/-- Listing of the dynamic load emitter for 8/16/32 bits. -/
theorem Emits_DynGenRead32 (env : Env) (s : EmitState) (bits : Nat) (sign : Bool)
    (hb : bits = 8 ∨ bits = 16 ∨ bits = 32) :
    Emits (vtlb_DynGenRead32 env bits sign) s ()
      (prepRegsCode env ++
        Instr.JS (indirectSlot env 0 (szidxOf bits) (if (sign && decide (bits < 32)) then 1 else 0)) ::
        directReadCode s bits sign (xIndirect.atReg Reg.ecx 0)) := by
  have hs : Supported bits := by unfold Supported; omega
  obtain ⟨wb, hwb⟩ := Emits_PrepRegs env s
  unfold vtlb_DynGenRead32
  refine Emits_bind_eq (Emits_pxAssume s _ (by simp; omega)) (fun s1 h1 => ?_) (List.nil_append _).symm
  obtain ⟨wb, hwb⟩ := Emits_PrepRegs env s1
  refine Emits_bind_eq hwb (fun s2 h2 => ?_) rfl
  refine Emits_bind_eq (Emits_IndirectDispatch env s2 0 bits _ hs ?_) (fun s3 h3 => ?_)
    (show Instr.JS _ :: directReadCode s bits sign (xIndirect.atReg Reg.ecx 0) =
      [Instr.JS _] ++ directReadCode s bits sign (xIndirect.atReg Reg.ecx 0) from rfl)
  · intro hc
    rcases hb with rfl | rfl | rfl <;> simp [szidxOf] at hc ⊢
  · refine Emits_bind_eq (Emits_DirectRead env s3 bits sign hs) (fun s4 _ => Emits_writeback s4 wb) ?_
    rw [List.append_nil, directReadCode_congr (SameAlloc_trans h3 (SameAlloc_trans h2 h1))]

theorem Emits_DynGenRead64 (env : Env) (s : EmitState) (bits : Nat)
    (hb : bits = 64 ∨ bits = 128) :
    Emits (vtlb_DynGenRead64 env bits) s ()
      (prepRegsCode env ++ Instr.JS (indirectSlot env 0 (szidxOf bits) 0) ::
        directReadCode s bits false (xIndirect.atReg Reg.ecx 0)) := by
  have hs : Supported bits := by unfold Supported; omega
  unfold vtlb_DynGenRead64
  refine Emits_bind_eq (Emits_pxAssume s _ (by simp; omega)) (fun s1 h1 => ?_) (List.nil_append _).symm
  obtain ⟨wb, hwb⟩ := Emits_PrepRegs env s1
  refine Emits_bind_eq hwb (fun s2 h2 => ?_) rfl
  refine Emits_bind_eq (Emits_IndirectDispatch env s2 0 bits false hs (fun _ => rfl))
    (fun s3 h3 => ?_)
    (show Instr.JS _ :: directReadCode s bits false (xIndirect.atReg Reg.ecx 0) =
      [Instr.JS _] ++ directReadCode s bits false (xIndirect.atReg Reg.ecx 0) from rfl)
  refine Emits_bind_eq (Emits_DirectRead env s3 bits false hs) (fun s4 _ => Emits_writeback s4 wb) ?_
  rw [List.append_nil, directReadCode_congr (SameAlloc_trans h3 (SameAlloc_trans h2 h1))]

theorem Emits_DynGenWrite (env : Env) (s : EmitState) (bits : Nat) (hs : Supported bits) :
    Emits (vtlb_DynGenWrite env bits) s ()
      (prepRegsCode env ++ Instr.JS (indirectSlot env 1 (szidxOf bits) 0) ::
        directWriteCode s bits (xIndirect.atReg Reg.ecx 0)) := by
  unfold vtlb_DynGenWrite
  obtain ⟨wb, hwb⟩ := Emits_PrepRegs env s
  refine Emits_bind_eq hwb (fun s2 h2 => ?_) rfl
  refine Emits_bind_eq (Emits_IndirectDispatch env s2 1 bits false hs (fun _ => rfl))
    (fun s3 h3 => ?_)
    (show Instr.JS _ :: directWriteCode s bits (xIndirect.atReg Reg.ecx 0) =
      [Instr.JS _] ++ directWriteCode s bits (xIndirect.atReg Reg.ecx 0) from rfl)
  refine Emits_bind_eq (Emits_DirectWrite env s3 bits hs) (fun s4 _ => Emits_writeback s4 wb) ?_
  rw [List.append_nil, directWriteCode_congr (SameAlloc_trans h3 h2)]

theorem Emits_iFlushCall (env : Env) (s : EmitState) : Emits (iFlushCall env) s () [Instr.FlushCall] :=
  Emits_xEmit env _ s

theorem Emits_Read32_Const_direct (env : Env) (s : EmitState) (bits : Nat) (sign : Bool) (A : Nat)
    (hb : bits = 8 ∨ bits = 16 ∨ bits = 32) (hd : signBit32 (ppfOf env A) = false) :
    Emits (vtlb_DynGenRead32_Const env bits sign A) s ()
      (directReadCode s bits sign (xIndirect.atAbs (ppfOf env A))) := by
  unfold ppfOf vmapEntry at hd
  unfold vtlb_DynGenRead32_Const directReadCode ppfOf vmapEntry
  simp only [Profiler_EmitConstMem, pure_bind, hd, if_true]
  rcases hb with rfl | rfl | rfl
  · cases sign <;> simpa using Emits_xEmit env _ s
  · cases sign <;> simpa using Emits_xEmit env _ s
  · simpa using Emits_xEmit env _ s

theorem Emits_Read64_Const_direct (env : Env) (s : EmitState) (bits : Nat) (A : Nat)
    (hb : bits = 64 ∨ bits = 128) (hd : signBit32 (ppfOf env A) = false) :
    Emits (vtlb_DynGenRead64_Const env bits A) s ()
      (directReadCode s bits false (xIndirect.atAbs (ppfOf env A))) := by
  unfold ppfOf vmapEntry at hd
  unfold vtlb_DynGenRead64_Const directReadCode ppfOf vmapEntry
  simp only [Profiler_EmitConstMem, pure_bind, hd, if_true]
  rcases hb with rfl | rfl
  · simpa using Emits_iMOV64_Smart env s _ _
  · simpa using Emits_iMOV128_SSE env s _ _

theorem Emits_Write_Const_direct (env : Env) (s : EmitState) (bits : Nat) (A : Nat)
    (hb : Supported bits) (hd : signBit32 (ppfOf env A) = false) :
    Emits (vtlb_DynGenWrite_Const env bits A) s ()
      (directWriteCode s bits (xIndirect.atAbs (ppfOf env A))) := by
  unfold ppfOf vmapEntry at hd
  unfold vtlb_DynGenWrite_Const directWriteCode ppfOf vmapEntry
  simp only [Profiler_EmitConstMem, pure_bind, hd, if_true]
  rcases hb with rfl | rfl | rfl | rfl | rfl
  · simpa using Emits_xEmit env _ s
  · simpa using Emits_xEmit env _ s
  · simpa using Emits_xEmit env _ s
  · simpa using Emits_iMOV64_Smart env s _ _
  · simpa using Emits_iMOV128_SSE env s _ _

/-- Handler branch of the constant-address store emitter, for every width
argument: flush, then the call. -/
theorem Emits_Write_Const_handler (env : Env) (s : EmitState) (bits : Nat) (A : Nat)
    (hd : signBit32 (ppfOf env A) = true) :
    Emits (vtlb_DynGenWrite_Const env bits A) s ()
      [Instr.FlushCall,
       Instr.FastCall (CallTarget.direct (env.RWFT (if Supported bits then szidxOf bits else 0) 1 (handlerOf env A)))
         (Arg.imm (paddrOf env A)) (Arg.reg Reg.edx)] := by
  have hsz : (if bits = 8 then 0 else if bits = 16 then 1 else if bits = 32 then 2
      else if bits = 64 then 3 else if bits = 128 then 4 else 0)
      = (if Supported bits then szidxOf bits else 0) := by
    unfold Supported szidxOf
    split_ifs <;> first | rfl | omega
  unfold ppfOf vmapEntry at hd
  unfold vtlb_DynGenWrite_Const paddrOf handlerOf ppfOf vmapEntry
  simp only [Profiler_EmitConstMem, pure_bind, hd, hsz]
  exact Emits_bind_eq (Emits_iFlushCall env s) (fun s1 _ => Emits_xEmit env _ s1) rfl
  
/-- Handler branch of the constant-address 64/128-bit load emitter, for
every width argument. -/
theorem Emits_Read64_Const_handler (env : Env) (s : EmitState) (bits : Nat) (A : Nat)
    (hd : signBit32 (ppfOf env A) = true) :
    Emits (vtlb_DynGenRead64_Const env bits A) s ()
      [Instr.FlushCall,
       Instr.FastCall
         (CallTarget.direct
           (env.RWFT (if bits = 64 then 3 else if bits = 128 then 4 else 0) 0 (handlerOf env A)))
         (Arg.imm (paddrOf env A)) Arg.none] := by
  unfold ppfOf vmapEntry at hd
  unfold vtlb_DynGenRead64_Const paddrOf handlerOf ppfOf vmapEntry
  simp only [Profiler_EmitConstMem, pure_bind, hd]
  exact Emits_bind_eq (Emits_iFlushCall env s) (fun s1 _ => Emits_xEmit env _ s1) rfl

/-- Handler branch of the constant-address 8/16/32-bit load emitter, for
every width argument. -/
theorem Emits_Read32_Const_handler (env : Env) (s : EmitState) (bits : Nat) (sign : Bool)
    (A : Nat) (hd : signBit32 (ppfOf env A) = true) :
    Emits (vtlb_DynGenRead32_Const env bits sign A) s ()
      (if bits = 32 ∧ env.IntcStat = false ∧ paddrOf env A = env.INTC_STAT then
        [Instr.MOV_rm Reg.eax (xIndirect.atAbs (env.psHu32 env.INTC_STAT))]
      else
        Instr.FlushCall ::
        Instr.FastCall
          (CallTarget.direct
            (env.RWFT (if bits = 8 then 0 else if bits = 16 then 1 else if bits = 32 then 2 else 0)
              0 (handlerOf env A)))
          (Arg.imm (paddrOf env A)) Arg.none :: extCode bits sign) := by
  unfold ppfOf vmapEntry at hd
  unfold vtlb_DynGenRead32_Const paddrOf handlerOf ppfOf vmapEntry extCode
  simp only [Profiler_EmitConstMem, pure_bind, hd, Bool.true_eq_false, if_false]
  split_ifs
  all_goals first
    | exact Emits_xEmit env _ s
    | (refine Emits_bind_eq (Emits_iFlushCall env s) (fun s1 _ => ?_) rfl
       refine Emits_bind_eq (Emits_xEmit env _ s1) (fun s2 _ => ?_) rfl
       first
         | exact Emits_xEmit env _ s2
         | exact Emits_pure s2 ())

/-- Listing of an indirect dispatcher. -/
theorem Emits_IndirectTlbDispatcher (env : Env) (s : EmitState) (mode bits : Nat) (sign : Bool) :
    Emits (DynGen_IndirectTlbDispatcher env mode bits sign) s ()
      (dispatcherCallCode mode bits ++
        ((if mode = 0 then extCode (if bits = 0 then 8 else if bits = 1 then 16 else 0) sign else [])
          ++ [Instr.JMP_r Reg.ebx])) := by
  unfold DynGen_IndirectTlbDispatcher dispatcherCallCode
  refine Emits_bind_eq (Emits_xEmit env _ s) (fun s1 _ => ?_) rfl
  refine Emits_bind_eq (Emits_xEmit env _ s1) (fun s2 _ => ?_) rfl
  refine Emits_bind_eq (Emits_xEmit env _ s2) (fun s3 _ => ?_) rfl
  refine Emits_bind_eq (Emits_xEmit env _ s3) (fun s4 _ => ?_) rfl
  unfold extCode
  by_cases hm : mode = 0
  · by_cases h0 : bits = 0
    · cases sign <;> simp only [hm, h0, if_true] <;>
        exact Emits_bind_eq (Emits_xEmit env _ s4) (fun s5 _ => Emits_xEmit env _ s5) rfl
    · by_cases h1 : bits = 1
      · cases sign <;> simp only [hm, h1, if_true] <;>
          exact Emits_bind_eq (Emits_xEmit env _ s4) (fun s5 _ => Emits_xEmit env _ s5) rfl
      · simp only [hm, h0, h1, if_true, if_false]
        exact Emits_bind_eq (Emits_pure s4 _) (fun s5 _ => Emits_xEmit env _ s5) rfl
  · simp only [hm, if_false]
    exact Emits_bind_eq (Emits_pure s4 _) (fun s5 _ => Emits_xEmit env _ s5) rfl

/-! ## What the emitted code does -/

theorem run_append (env : Env) (c1 c2 : List Instr) (m : Machine) :
    run env (c1 ++ c2) m =
      match run env c1 m with
      | .next m1 => run env c2 m1
      | .jump t m1 => .jump t m1
      | .fault m1 => .fault m1 := by
  induction c1 generalizing m with
  | nil => simp [run]
  | cons i is ih =>
    simp only [List.cons_append, run]
    cases step env i m with
    | next m1 => simpa using ih m1
    | jump t m1 => rfl
    | fault m1 => rfl

theorem pageIndex_eq (env : Env) (hwf : env.WF) (A : Nat) (hA : A < 4294967296) :
    wrap32 A >>> (env.VTLB_PAGE_BITS % 32) % 1073741824 = A >>> env.VTLB_PAGE_BITS := by
  obtain ⟨h2, h32, -⟩ := hwf
  rw [wrap32_of_lt hA, Nat.mod_eq_of_lt h32, Nat.shiftRight_eq_div_pow]
  apply Nat.mod_eq_of_lt
  have h4 : 2 ^ 2 ≤ 2 ^ env.VTLB_PAGE_BITS := Nat.pow_le_pow_right (by norm_num) h2
  have : A / 2 ^ env.VTLB_PAGE_BITS ≤ A / 2 ^ 2 := Nat.div_le_div_left h4 (by norm_num)
  omega

theorem signBit32_wrap32 (n : Nat) : signBit32 (wrap32 n) = signBit32 n := by
  simp only [signBit32, wrap32_wrap32]

/-- The machine state `DynGen_PrepRegs` code leaves. -/
theorem run_prepRegs (env : Env) (hwf : env.WF) (m : Machine) (hA : m.ecx < 4294967296) :
    run env (prepRegsCode env) m = .next
      { m with
        eax := vmapEntry env m.ecx
        ebx := 0xcdcdcdcd
        ecx := ppfOf env m.ecx
        sf := signBit32 (ppfOf env m.ecx)
        cf := decide (4294967296 ≤ m.ecx + vmapEntry env m.ecx) } := by
  have hp := pageIndex_eq env hwf m.ecx hA
  rw [wrap32_of_lt hA] at hp
  have hc : wrap32 3452816845 = 3452816845 := wrap32_of_lt (by norm_num)
  simp only [run, step, prepRegsCode, getReg, setReg, setFlags, tableRead, hp, vmapEntry, ppfOf,
    wrap32_wrap32, wrap32_of_lt hA, wrap32_add_wrap32_right, signBit32_wrap32, hc]

theorem and_255 (E : Nat) : E &&& 0xFF = E % 256 := Nat.and_pow_two_sub_one_eq_mod E 8

theorem paddr_int (A E : Nat) :
    sub32 (sub32 (wrap32 (A + E)) 2147483648) (E % 256) =
      Int.toNat (((A : Int) + E - ((E % 256 : Nat) : Int) - 2147483648) % 4294967296) := by
  unfold sub32 wrap32
  omega

theorem paddr_const_eq (ppf h : Nat) :
    wrap32 (sub32 ppf h + 2147483648) = sub32 (sub32 ppf 2147483648) h := by
  unfold sub32 wrap32
  omega

theorem run_dispatcherCall_gen (env : Env) (mode bits k : Nat) (m : Machine) :
    run env [Instr.MOVZX_rr Reg.eax 8 Reg.eax, Instr.SUB_ri Reg.ecx k,
       Instr.SUB_rr Reg.ecx Reg.eax,
       Instr.FastCall (CallTarget.viaRWFT bits mode Reg.eax) (Arg.reg Reg.ecx) (Arg.reg Reg.edx)] m
    = .next
      { (env.handler (env.RWFT bits mode (m.eax % 256))
          { m with
            eax := m.eax % 256
            ecx := sub32 (sub32 m.ecx k) (m.eax % 256)
            sf := signBit32 (sub32 (sub32 m.ecx k) (m.eax % 256))
            cf := decide (wrap32 (sub32 m.ecx k) < wrap32 (m.eax % 256)) }) with
        calls := m.calls ++
          [⟨env.RWFT bits mode (m.eax % 256), sub32 (sub32 m.ecx k) (m.eax % 256), m.edx⟩] } := by
  simp only [run, step, getReg, setReg, setFlags, setArg, resolveTarget, zeroExtend]
  rfl

theorem run_dispatcherCall (env : Env) (mode bits : Nat) (m : Machine) :
    run env (dispatcherCallCode mode bits) m = .next
      { (env.handler (env.RWFT bits mode (m.eax % 256))
          { m with
            eax := m.eax % 256
            ecx := sub32 (sub32 m.ecx 2147483648) (m.eax % 256)
            sf := signBit32 (sub32 (sub32 m.ecx 2147483648) (m.eax % 256))
            cf := decide (wrap32 (sub32 m.ecx 2147483648) < wrap32 (m.eax % 256)) }) with
        calls := m.calls ++
          [⟨env.RWFT bits mode (m.eax % 256),
            sub32 (sub32 m.ecx 2147483648) (m.eax % 256), m.edx⟩] } :=
  run_dispatcherCall_gen env mode bits 2147483648 m

/-- What the extension after a handler call does to eax. -/
theorem run_extCode (env : Env) (bits : Nat) (sign : Bool) (m : Machine) :
    run env (extCode bits sign) m = .next
      { m with eax := if bits = 8 ∨ bits = 16 then
                        (if sign then signExtend bits m.eax else zeroExtend bits m.eax)
                      else m.eax } := by
  unfold extCode
  by_cases h8 : bits = 8
  · subst h8; cases sign <;> simp [run, step, getReg, setReg]
  · by_cases h16 : bits = 16
    · subst h16; cases sign <;> simp [run, step, getReg, setReg]
    · simp [h8, h16, run]

/-- Running a whole indirect dispatcher: it makes exactly the call of
`run_dispatcherCall` and leaves through `jmp ebx`. -/
theorem run_dispatcher (env : Env) (mode bits : Nat) (sign : Bool) (m : Machine) :
    ∃ mh m2, run env (dispatcherCallCode mode bits) m = .next mh ∧
      run env (dispatcherCallCode mode bits ++
        ((if mode = 0 then extCode (if bits = 0 then 8 else if bits = 1 then 16 else 0) sign
          else []) ++ [Instr.JMP_r Reg.ebx])) m = .jump mh.ebx m2 ∧
      m2.calls = m.calls ++
        [⟨env.RWFT bits mode (m.eax % 256),
          sub32 (sub32 m.ecx 2147483648) (m.eax % 256), m.edx⟩] ∧
      m2.eax = (if mode = 0 ∧ (bits = 0 ∨ bits = 1) then
                  (if sign then signExtend (if bits = 0 then 8 else 16) mh.eax
                   else zeroExtend (if bits = 0 then 8 else 16) mh.eax)
                else mh.eax) := by
  have h1 := run_dispatcherCall env mode bits m
  generalize hmh : ({ (env.handler (env.RWFT bits mode (m.eax % 256))
          { m with
            eax := m.eax % 256
            ecx := sub32 (sub32 m.ecx 2147483648) (m.eax % 256)
            sf := signBit32 (sub32 (sub32 m.ecx 2147483648) (m.eax % 256))
            cf := decide (wrap32 (sub32 m.ecx 2147483648) < wrap32 (m.eax % 256)) }) with
        calls := m.calls ++
          [⟨env.RWFT bits mode (m.eax % 256),
            sub32 (sub32 m.ecx 2147483648) (m.eax % 256), m.edx⟩] } : Machine) = mh at h1
  have h2 : mh.calls = m.calls ++
          [⟨env.RWFT bits mode (m.eax % 256),
            sub32 (sub32 m.ecx 2147483648) (m.eax % 256), m.edx⟩] := by rw [← hmh]
  clear hmh
  rw [run_append, h1]
  simp only [run_append]
  by_cases hm : mode = 0
  · subst hm
    simp only [if_true, run_extCode]
    refine ⟨mh, _, rfl, rfl, ?_, ?_⟩
    · simpa [step] using h2
    · by_cases h0 : bits = 0
      · simp [step, h0]
      · by_cases hb1 : bits = 1
        · simp [step, hb1]
        · simp [step, h0, hb1]
  · simp only [hm, if_false, run]
    refine ⟨mh, _, rfl, rfl, ?_, ?_⟩
    · simpa [step] using h2
    · simp [step, hm]

/-- C1: entered with eax = E = vmap[A >> VTLB_PAGE_BITS] and ecx = (A + E) mod 2^32,
as `DynGen_PrepRegs` leaves them, the indirect dispatcher generated for any
direction `mode`, width class `bits` and sign flag makes exactly one call: to
`RWFT[bits][mode][E & 0xFF]`, with `((A + E) - (E & 0xFF) - 0x80000000) mod 2^32`
in ecx and edx unchanged, and then leaves through `jmp ebx`. (The sign-bit
condition, under which the branch to the dispatcher is taken, is not needed
for this.) -/
theorem indirect_dispatcher_call (env : Env) (hwf : env.WF) (s s1 : EmitState)
    (mode bits : Nat) (sign : Bool) (m : Machine) (A : Nat) (hA : A < 4294967296)
    (hecx : m.ecx = A) :
    ∃ prep tramp m1 m2 ret,
      emitted (DynGen_PrepRegs env) s = .ok prep ∧
      run env prep m = .next m1 ∧
      m1.eax = vmapEntry env A ∧ m1.ecx = wrap32 (A + vmapEntry env A) ∧
      emitted (DynGen_IndirectTlbDispatcher env mode bits sign) s1 = .ok tramp ∧
      run env tramp m1 = .jump ret m2 ∧
      m2.calls = m.calls ++
        [⟨env.RWFT bits mode (vmapEntry env A &&& 0xFF),
          Int.toNat (((A : Int) + vmapEntry env A - ((vmapEntry env A &&& 0xFF : Nat) : Int)
            - 0x80000000) % 4294967296),
          m.edx⟩] := by
  obtain ⟨wb, hwb⟩ := Emits_PrepRegs env s
  have hrun := run_prepRegs env hwf m (by omega)
  rw [hecx] at hrun
  obtain ⟨mh, m2, -, hj, hcalls, -⟩ := run_dispatcher env mode bits sign
    { m with
        eax := vmapEntry env A
        ebx := 0xcdcdcdcd
        ecx := ppfOf env A
        sf := signBit32 (ppfOf env A)
        cf := decide (4294967296 ≤ A + vmapEntry env A) }
  refine ⟨_, _, _, m2, mh.ebx, Emits_emitted hwb, hrun, rfl, rfl,
    Emits_emitted (Emits_IndirectTlbDispatcher env s1 mode bits sign), hj, ?_⟩
  rw [hcalls, and_255]
  simp only [ppfOf]
  rw [paddr_int]

theorem toLE_fromLE_read (mem : Nat → Nat) (a n : Nat) :
    toLE n (fromLE (readBytes mem a n)) = readBytes mem a n := by
  have := toLE_fromLE (readBytes mem a n) (readBytes_lt mem a n)
  rwa [readBytes_length] at this

/-- What the 8/16/32-bit direct load code does: eax receives the loaded
value, nothing else changes. -/
theorem run_directRead32 (env : Env) (s : EmitState) (bits : Nat) (sign : Bool)
    (src : xIndirect) (m : Machine) (hb : bits = 8 ∨ bits = 16 ∨ bits = 32) :
    run env (directReadCode s bits sign src) m =
      .next { m with eax := loadVal bits sign m.mem (ea m src) } := by
  rcases hb with rfl | rfl | rfl
  · cases sign <;> simp [directReadCode, loadVal, run, step, setReg]
  · cases sign <;> simp [directReadCode, loadVal, run, step, setReg]
  · simp [directReadCode, loadVal, run, step, setReg]

/-- What the 8/16/32-bit direct store code does: the low bytes of edx are
written, nothing else changes. -/
theorem run_directWrite32 (env : Env) (s : EmitState) (bits : Nat)
    (dst : xIndirect) (m : Machine) (hb : bits = 8 ∨ bits = 16 ∨ bits = 32) :
    run env (directWriteCode s bits dst) m =
      .next { m with mem := writeBytes m.mem (ea m dst) (toLE (bits / 8) m.edx) } := by
  rcases hb with rfl | rfl | rfl <;> simp [directWriteCode, run, step, getReg]

theorem ea_xmm (m : Machine) (x : xIndirect) (f : Nat → List Nat) :
    ea { m with xmm := f } x = ea m x := by
  cases x with
  | atReg r off => cases r <;> rfl
  | atAbs a => rfl

theorem ea_mmx (m : Machine) (x : xIndirect) (f : Nat → List Nat) :
    ea { m with mmx := f } x = ea m x := by
  cases x with
  | atReg r off => cases r <;> rfl
  | atAbs a => rfl

theorem take8_read (mem : Nat → Nat) (a : Nat) (l : List Nat) :
    (readBytes mem a 8 ++ l).take 8 = readBytes mem a 8 := by
  have h := readBytes_length mem a 8
  rw [List.take_append_of_le_length (by omega), List.take_of_length_le (by omega)]

theorem take_read (mem : Nat → Nat) (a n : Nat) :
    (readBytes mem a n).take n = readBytes mem a n := by
  rw [List.take_of_length_le (by rw [readBytes_length])]

theorem ea_eq_eaRegs (m : Machine) (x : xIndirect) :
    ea m x = eaRegs m.eax m.ebx m.ecx m.edx x := by
  cases x with
  | atReg r off => cases r <;> rfl
  | atAbs a => rfl

theorem eaRegs_eax (a b c d : Nat) (x : xIndirect) (h : x.usesEax = false) :
    eaRegs a b c d x = eaRegs 0 b c d x := by
  cases x with
  | atReg r off => cases r <;> simp_all [xIndirect.usesEax, eaRegs]
  | atAbs a => rfl

theorem eaRegs_add_noeax (a b c d k : Nat) (x : xIndirect) (h : x.usesEax = false) :
    eaRegs a b c d (x.add k) = wrap32 (eaRegs 0 b c d x + k) := by
  cases x with
  | atReg r off =>
    cases r <;>
      simp_all [xIndirect.usesEax, eaRegs, xIndirect.add, wrap32_add_wrap32_left, Nat.add_assoc]
  | atAbs a => simp [eaRegs, xIndirect.add, wrap32_add_wrap32_left]

/-- What the code of `iMOV64_Smart` does when neither operand is addressed
through eax: memory becomes `copy64`, and ebx, ecx, edx and the call trace
are untouched (eax too unless the copy goes through eax). -/
theorem run_mov64 (env : Env) (s : EmitState) (d src : xIndirect) (m : Machine)
    (hd : d.usesEax = false) (hs : src.usesEax = false) :
    ∃ m1, run env (mov64Code s d src) m = .next m1 ∧
      m1.mem = copy64 s m.mem (ea m d) (ea m src) ∧
      m1.ebx = m.ebx ∧ m1.ecx = m.ecx ∧ m1.edx = m.edx ∧ m1.calls = m.calls ∧
      (viaEax s = false → m1.eax = m.eax) := by
  unfold mov64Code copy64 viaEax
  by_cases h1 : s.x86FpuState = FpuState.FPU_STATE ∧ _hasFreeXMMreg s = true
  · rw [if_pos h1]
    refine ⟨_, rfl, ?_, rfl, rfl, rfl, rfl, fun _ => rfl⟩
    simp [h1.1, h1.2, step, ea_xmm, take8_read]
  · rw [if_neg h1]
    by_cases h2 : _hasFreeMMXreg s = true
    · rw [if_pos h2]
      refine ⟨_, rfl, ?_, rfl, rfl, rfl, rfl, fun _ => rfl⟩
      simp [h2, step, ea_mmx, take_read]
    · rw [if_neg h2]
      have h2f : _hasFreeMMXreg s = false := by simpa using h2
      have h1f : (decide (s.x86FpuState = FpuState.FPU_STATE) && _hasFreeXMMreg s) = false := by
        simpa using h1
      refine ⟨_, rfl, ?_, rfl, rfl, rfl, rfl, ?_⟩
      · simp only [h1f, h2f, Bool.not_false, Bool.and_self, if_true, ea_eq_eaRegs m]
        rw [eaRegs_eax m.eax _ _ _ d hd, eaRegs_eax m.eax _ _ _ src hs]
        simp only [step, setReg, getReg, ea_eq_eaRegs, eaRegs_add_noeax _ _ _ _ _ d hd,
          eaRegs_add_noeax _ _ _ _ _ src hs, eaRegs_eax (fromLE _) _ _ _ d hd,
          eaRegs_eax (fromLE _) _ _ _ src hs,
          toLE_fromLE_read, Nat.reduceDiv, readBytes_wrap, writeBytes_wrap]
      · intro h
        simp [h1f, h2f] at h

/-- What the code of `iMOV128_SSE` does when source and destination are
multiples of 16: memory becomes `copy128`; the general registers and the call
trace are untouched. -/
theorem run_mov128 (env : Env) (s : EmitState) (d src : xIndirect) (m : Machine)
    (hs : ea m src % 16 = 0) (hd : ea m d % 16 = 0) :
    ∃ m1, run env (mov128Code s d src) m = .next m1 ∧
      m1.mem = copy128 m.mem (ea m d) (ea m src) ∧
      m1.eax = m.eax ∧ m1.ebx = m.ebx ∧ m1.ecx = m.ecx ∧ m1.edx = m.edx ∧
      m1.calls = m.calls ∧ (_hasFreeXMMreg s = false → m1.xmm = m.xmm) := by
  rw [ea_eq_eaRegs] at hs hd
  unfold mov128Code copy128
  by_cases h1 : _hasFreeXMMreg s = true
  · rw [if_pos h1]
    refine ⟨{ m with
      xmm := Function.update m.xmm (s.xmmregs.indexOf false) (readBytes m.mem (ea m src) 16)
      mem := writeBytes m.mem (ea m d) (readBytes m.mem (ea m src) 16) }, ?_, rfl, rfl, rfl, rfl,
      rfl, rfl, fun h => by simp [h1] at h⟩
    simp [run, step, ea_eq_eaRegs, take_read, hs, hd]
  · rw [if_neg h1]
    refine ⟨{ m with
      xmmData := Function.update m.xmmData 0 (m.xmm 0)
      mem := writeBytes m.mem (ea m d) (readBytes m.mem (ea m src) 16) }, ?_, rfl, rfl, rfl, rfl,
      rfl, rfl, fun _ => rfl⟩
    simp [run, step, ea_eq_eaRegs, take_read, hs, hd]

/-- The code of `iMOV128_SSE` faults when its source or its destination is
not a multiple of 16: at the load when the source is not, at the store
otherwise. Memory, the general registers and the call trace are as they were;
when the fault is at the store the vector register used holds the 16 source
bytes. -/
theorem run_mov128_fault (env : Env) (s : EmitState) (d src : xIndirect) (m : Machine)
    (h : ¬ (ea m src % 16 = 0 ∧ ea m d % 16 = 0)) :
    ∃ mf, run env (mov128Code s d src) m = .fault mf ∧
      mf.mem = m.mem ∧ mf.eax = m.eax ∧ mf.ebx = m.ebx ∧ mf.ecx = m.ecx ∧ mf.edx = m.edx ∧
      mf.calls = m.calls ∧
      (_hasFreeXMMreg s = false → ea m src % 16 = 0 →
        mf.xmm 0 = readBytes m.mem (ea m src) 16) := by
  rw [ea_eq_eaRegs, ea_eq_eaRegs] at h
  unfold mov128Code
  by_cases hs : eaRegs m.eax m.ebx m.ecx m.edx src % 16 = 0
  · have hd : ¬ eaRegs m.eax m.ebx m.ecx m.edx d % 16 = 0 := fun hd => h ⟨hs, hd⟩
    by_cases h1 : _hasFreeXMMreg s = true
    · rw [if_pos h1]
      refine ⟨{ m with
        xmm := Function.update m.xmm (s.xmmregs.indexOf false)
          (readBytes m.mem (ea m src) 16) }, ?_, rfl, rfl, rfl, rfl, rfl, rfl,
        fun h => by simp [h1] at h⟩
      simp [run, step, ea_eq_eaRegs, hs, hd]
    · rw [if_neg h1]
      refine ⟨{ m with
        xmmData := Function.update m.xmmData 0 (m.xmm 0)
        xmm := Function.update m.xmm 0 (readBytes m.mem (ea m src) 16) }, ?_, rfl, rfl, rfl, rfl,
        rfl, rfl, fun _ _ => by simp⟩
      simp [run, step, ea_eq_eaRegs, hs, hd]
  · by_cases h1 : _hasFreeXMMreg s = true
    · rw [if_pos h1]
      refine ⟨m, ?_, rfl, rfl, rfl, rfl, rfl, rfl, fun h => by simp [h1] at h⟩
      simp [run, step, ea_eq_eaRegs, hs]
    · rw [if_neg h1]
      refine ⟨{ m with xmmData := Function.update m.xmmData 0 (m.xmm 0) }, ?_, rfl, rfl, rfl,
        rfl, rfl, rfl, fun _ h => absurd (by rw [ea_eq_eaRegs] at h; exact h) hs⟩
      simp [run, step, ea_eq_eaRegs, hs]

theorem ppfOf_lt (env : Env) (A : Nat) : ppfOf env A < 4294967296 := wrap32_lt _

/-- Running the head of a dynamic emitter's code (`DynGen_PrepRegs`, then the
`js`): the branch is taken exactly when the sign bit of `ppf` is set;
otherwise the direct-path code runs with ecx = `ppf`. -/
theorem run_dyn_head (env : Env) (hwf : env.WF) (m : Machine) (hA : m.ecx < 4294967296)
    (t : Nat) (code : List Instr) :
    ∃ m1, run env (prepRegsCode env ++ Instr.JS t :: code) m =
        (if signBit32 (ppfOf env m.ecx) = true then .jump t m1 else run env code m1) ∧
      m1.eax = vmapEntry env m.ecx ∧ m1.ebx = 0xcdcdcdcd ∧ m1.ecx = ppfOf env m.ecx ∧
      m1.edx = m.edx ∧ m1.mem = m.mem ∧ m1.calls = m.calls := by
  refine ⟨{ m with
        eax := vmapEntry env m.ecx
        ebx := 0xcdcdcdcd
        ecx := ppfOf env m.ecx
        sf := signBit32 (ppfOf env m.ecx)
        cf := decide (4294967296 ≤ m.ecx + vmapEntry env m.ecx) }, ?_, rfl, rfl, rfl, rfl, rfl, rfl⟩
  rw [run_append, run_prepRegs env hwf m hA]
  simp only [run, step]
  split_ifs <;> rfl

theorem Emits_dynGen (env : Env) (s : EmitState) (store : Bool) (bits : Nat) (sign : Bool)
    (hb : Supported bits) :
    Emits (dynGen env store bits sign) s ()
      (prepRegsCode env ++
        Instr.JS (indirectSlot env (if store then 1 else 0) (szidxOf bits)
          (if (!store && sign && decide (bits < 32)) then 1 else 0)) ::
        (if store then directWriteCode s bits (xIndirect.atReg Reg.ecx 0)
         else directReadCode s bits (sign && decide (bits < 64)) (xIndirect.atReg Reg.ecx 0))) := by
  unfold dynGen
  cases store
  · rcases hb with rfl | rfl | rfl | rfl | rfl
    · simpa using Emits_DynGenRead32 env s 8 sign (by simp)
    · simpa using Emits_DynGenRead32 env s 16 sign (by simp)
    · simpa using Emits_DynGenRead32 env s 32 sign (by simp)
    · simpa using Emits_DynGenRead64 env s 64 (by simp)
    · simpa using Emits_DynGenRead64 env s 128 (by simp)
  · simpa using Emits_DynGenWrite env s bits hb

theorem Emits_constGen_direct (env : Env) (s : EmitState) (store : Bool) (bits : Nat)
    (sign : Bool) (A : Nat) (hb : Supported bits) (hd : signBit32 (ppfOf env A) = false) :
    Emits (constGen env store bits sign A) s ()
      (if store then directWriteCode s bits (xIndirect.atAbs (ppfOf env A))
       else directReadCode s bits (sign && decide (bits < 64)) (xIndirect.atAbs (ppfOf env A))) := by
  unfold constGen
  cases store
  · rcases hb with rfl | rfl | rfl | rfl | rfl
    · simpa using Emits_Read32_Const_direct env s 8 sign A (by simp) hd
    · simpa using Emits_Read32_Const_direct env s 16 sign A (by simp) hd
    · simpa using Emits_Read32_Const_direct env s 32 sign A (by simp) hd
    · simpa using Emits_Read64_Const_direct env s 64 A (by simp) hd
    · simpa using Emits_Read64_Const_direct env s 128 A (by simp) hd
  · simpa using Emits_Write_Const_direct env s bits A hb hd

/-- What direct-path code does, for every direction and supported width,
when its memory operand `x` designates the address `ppf` and is not
addressed through eax, and for 128 bits `ppf` and the data buffer `[edx]` are
multiples of 16. -/
theorem run_direct (env : Env) (s : EmitState) (store : Bool) (bits : Nat) (sign : Bool)
    (x : xIndirect) (m : Machine) (hb : Supported bits) (hx : x.usesEax = false)
    (hal : wideAligned bits m.edx (ea m x)) :
    ∃ m1, run env (if store then directWriteCode s bits x
                   else directReadCode s bits (sign && decide (bits < 64)) x) m = .next m1 ∧
      m1.mem = directMem s store bits m.mem m.edx (ea m x) ∧
      m1.ecx = m.ecx ∧ m1.edx = m.edx ∧ m1.calls = m.calls ∧
      (store = false → bits ≤ 32 → m1.eax = loadVal bits sign m.mem (ea m x)) := by
  have hedx : wrap32 (m.edx + 0) = wrap32 m.edx := rfl
  cases store
  · simp only [Bool.false_eq_true, if_false]
    rcases hb with rfl | rfl | rfl | rfl | rfl
    · rw [run_directRead32 env s 8 _ x m (by simp)]
      exact ⟨_, rfl, by simp [directMem], rfl, rfl, rfl, fun _ _ => by simp⟩
    · rw [run_directRead32 env s 16 _ x m (by simp)]
      exact ⟨_, rfl, by simp [directMem], rfl, rfl, rfl, fun _ _ => by simp⟩
    · rw [run_directRead32 env s 32 _ x m (by simp)]
      exact ⟨_, rfl, by simp [directMem], rfl, rfl, rfl, fun _ _ => by simp [loadVal]⟩
    · obtain ⟨m1, h1, h2, -, h4, h5, h6, -⟩ :=
        run_mov64 env s (xIndirect.atReg Reg.edx 0) x m rfl hx
      refine ⟨m1, ?_, ?_, h4, h5, h6, fun _ h => absurd h (by norm_num)⟩
      · simpa [directReadCode] using h1
      · simpa [directMem, ea, getReg] using h2
    · obtain ⟨m1, h1, h2, -, -, h4, h5, h6, -⟩ :=
        run_mov128 env s (xIndirect.atReg Reg.edx 0) x m (hal rfl).1 (hal rfl).2
      refine ⟨m1, ?_, ?_, h4, h5, h6, fun _ h => absurd h (by norm_num)⟩
      · simpa [directReadCode] using h1
      · simpa [directMem, ea, getReg] using h2
  · simp only [if_true]
    rcases hb with rfl | rfl | rfl | rfl | rfl
    · rw [run_directWrite32 env s 8 x m (by simp)]
      exact ⟨_, rfl, by simp [directMem], rfl, rfl, rfl, fun h => by simp at h⟩
    · rw [run_directWrite32 env s 16 x m (by simp)]
      exact ⟨_, rfl, by simp [directMem], rfl, rfl, rfl, fun h => by simp at h⟩
    · rw [run_directWrite32 env s 32 x m (by simp)]
      exact ⟨_, rfl, by simp [directMem], rfl, rfl, rfl, fun h => by simp at h⟩
    · obtain ⟨m1, h1, h2, -, h4, h5, h6, -⟩ :=
        run_mov64 env s x (xIndirect.atReg Reg.edx 0) m hx rfl
      refine ⟨m1, ?_, ?_, h4, h5, h6, fun h => by simp at h⟩
      · simpa [directWriteCode] using h1
      · simpa [directMem, ea, getReg] using h2
    · obtain ⟨m1, h1, h2, -, -, h4, h5, h6, -⟩ :=
        run_mov128 env s x (xIndirect.atReg Reg.edx 0) m (hal rfl).2 (hal rfl).1
      refine ⟨m1, ?_, ?_, h4, h5, h6, fun h => by simp at h⟩
      · simpa [directWriteCode] using h1
      · simpa [directMem, ea, getReg] using h2

/-- Direct-path code of a 128-bit access faults when `ppf` or the data buffer
`[edx]` is not a multiple of 16; memory, the general registers and the call
trace are as they were. -/
theorem run_direct_fault (env : Env) (s : EmitState) (store : Bool) (sign : Bool)
    (x : xIndirect) (m : Machine) (hal : ¬ wideAligned 128 m.edx (ea m x)) :
    ∃ mf, run env (if store then directWriteCode s 128 x
                   else directReadCode s 128 (sign && decide (128 < 64)) x) m = .fault mf ∧
      mf.mem = m.mem ∧ mf.eax = m.eax ∧ mf.ecx = m.ecx ∧ mf.edx = m.edx ∧
      mf.calls = m.calls := by
  have hedx : ea m (xIndirect.atReg Reg.edx 0) = wrap32 m.edx := rfl
  cases store
  · obtain ⟨mf, h1, h2, h3, -, h5, h6, h7, -⟩ :=
      run_mov128_fault env s (xIndirect.atReg Reg.edx 0) x m
        (by rw [hedx]; intro h; exact hal (fun _ => h))
    refine ⟨mf, ?_, h2, h3, h5, h6, h7⟩
    simpa [directReadCode] using h1
  · obtain ⟨mf, h1, h2, h3, -, h5, h6, h7, -⟩ :=
      run_mov128_fault env s x (xIndirect.atReg Reg.edx 0) m
        (by rw [hedx]; intro h; exact hal (fun _ => ⟨h.2, h.1⟩))
    refine ⟨mf, ?_, h2, h3, h5, h6, h7⟩
    simpa [directWriteCode] using h1

/-- C2: for a direct-mapped address A (sign bit of `ppf = (A + vmap[A >> VTLB_PAGE_BITS])
mod 2^32` clear), every supported width, direction and sign flag: the code of
the dynamic emitter run with ecx = A and the code of the constant-address
emitter for A, generated in the same generator state and run from the same
machine state, end the same way, access the same address `ppf` and leave
identical memory. Both fall through and the memory is `directMem` (the
written bytes for a store, the 8 or 16 bytes copied to `[edx]` for a
64/128-bit load), and for 8/16/32-bit loads eax is the same, the value loaded
from `ppf`; the one exception is a 128-bit access whose `ppf` or data buffer
`[edx]` is not a multiple of 16, where both fault at the aligned 16-byte move
with memory as it was. -/
theorem dyn_const_agree_direct (env : Env) (hwf : env.WF) (s : EmitState) (m : Machine)
    (A : Nat) (hA : A < 4294967296) (hecx : m.ecx = A)
    (hd : signBit32 (ppfOf env A) = false)
    (store : Bool) (bits : Nat) (hb : Supported bits) (sign : Bool) :
    ∃ cd cc md mc,
      emitted (dynGen env store bits sign) s = .ok cd ∧
      emitted (constGen env store bits sign A) s = .ok cc ∧
      (if wideAligned bits m.edx (ppfOf env A) then
        run env cd m = .next md ∧ run env cc m = .next mc ∧
          mc.mem = directMem s store bits m.mem m.edx (ppfOf env A)
       else run env cd m = .fault md ∧ run env cc m = .fault mc ∧ mc.mem = m.mem) ∧
      md.mem = mc.mem ∧
      (store = false → bits ≤ 32 →
        md.eax = mc.eax ∧ mc.eax = loadVal bits sign m.mem (ppfOf env A)) := by
  subst hecx
  have hp : wrap32 (ppfOf env m.ecx) = ppfOf env m.ecx := wrap32_of_lt (ppfOf_lt env _)
  obtain ⟨m1, hhead, -, -, hecx1, hedx1, hmem1, -⟩ :=
    run_dyn_head env hwf m hA
      (indirectSlot env (if store then 1 else 0) (szidxOf bits)
        (if (!store && sign && decide (bits < 32)) then 1 else 0))
      (if store then directWriteCode s bits (xIndirect.atReg Reg.ecx 0)
       else directReadCode s bits (sign && decide (bits < 64)) (xIndirect.atReg Reg.ecx 0))
  rw [hd] at hhead
  simp only [Bool.false_eq_true, if_false] at hhead
  have e1 : ea m1 (xIndirect.atReg Reg.ecx 0) = ppfOf env m.ecx := by
    simp only [ea, getReg, hecx1, Nat.add_zero, hp]
  have e2 : ea m (xIndirect.atAbs (ppfOf env m.ecx)) = ppfOf env m.ecx := by
    simp only [ea, hp]
  by_cases hal : wideAligned bits m.edx (ppfOf env m.ecx)
  · obtain ⟨md, hrd, hmd, -, -, -, hed⟩ :=
      run_direct env s store bits sign (xIndirect.atReg Reg.ecx 0) m1 hb rfl
        (by rw [e1, hedx1]; exact hal)
    obtain ⟨mc, hrc, hmc, -, -, -, hec⟩ :=
      run_direct env s store bits sign (xIndirect.atAbs (ppfOf env m.ecx)) m hb rfl
        (by rw [e2]; exact hal)
    rw [e1, hmem1, hedx1] at hmd
    rw [e2] at hmc
    rw [e1, hmem1] at hed
    rw [e2] at hec
    refine ⟨_, _, md, mc, Emits_emitted (Emits_dynGen env s store bits sign hb),
      Emits_emitted (Emits_constGen_direct env s store bits sign m.ecx hb hd),
      ?_, hmd.trans hmc.symm, fun h1 h2 => ⟨?_, hec h1 h2⟩⟩
    · rw [if_pos hal]
      exact ⟨hhead.trans hrd, hrc, hmc⟩
    · rw [hed h1 h2, hec h1 h2]
  · have h128 : bits = 128 := by
      by_contra hne
      exact hal (fun h => absurd h hne)
    subst h128
    obtain ⟨md, hrd, hmd, -, -, -, -⟩ :=
      run_direct_fault env s store sign (xIndirect.atReg Reg.ecx 0) m1
        (by rw [e1, hedx1]; exact hal)
    obtain ⟨mc, hrc, hmc, -, -, -, -⟩ :=
      run_direct_fault env s store sign (xIndirect.atAbs (ppfOf env m.ecx)) m
        (by rw [e2]; exact hal)
    refine ⟨_, _, md, mc, Emits_emitted (Emits_dynGen env s store 128 sign hb),
      Emits_emitted (Emits_constGen_direct env s store 128 sign m.ecx hb hd),
      ?_, by rw [hmd, hmc, hmem1], fun _ h2 => absurd h2 (by norm_num)⟩
    rw [if_neg hal]
    exact ⟨hhead.trans hrd, hrc, hmc⟩

theorem toLE_length (n v : Nat) : (toLE n v).length = n := by
  induction n generalizing v with
  | zero => rfl
  | succ k ih => simp [toLE, ih]

theorem toLE_lt (n v : Nat) : ∀ b ∈ toLE n v, b < 256 := by
  induction n generalizing v with
  | zero => intro b hb; simp [toLE] at hb
  | succ k ih =>
    intro b hb
    simp only [toLE, List.mem_cons] at hb
    rcases hb with h | h
    · omega
    · exact ih _ b h

/-- Reading back `n` bytes just written. -/
theorem readBytes_writeBytes_read (mem : Nat → Nat) (d a n : Nat) (hn : n ≤ 4294967296) :
    readBytes (writeBytes mem d (readBytes mem a n)) d n = readBytes mem a n := by
  have := readBytes_writeBytes_same mem d (readBytes mem a n)
    (by rw [readBytes_length]; exact hn) (readBytes_lt mem a n)
  rwa [readBytes_length] at this

/-- When the forward copy is safe, the two 4-byte moves through eax leave the
memory one 8-byte move leaves. -/
theorem copy64_eq (s : EmitState) (mem : Nat → Nat) (d a : Nat)
    (h : viaEax s = true → fwdSafe d a) :
    copy64 s mem d a = writeBytes mem d (readBytes mem a 8) := by
  unfold copy64
  by_cases hv : viaEax s = true
  · rw [if_pos hv]
    have hsafe := h hv
    have hdis : readBytes (writeBytes mem d (readBytes mem a 4)) (a + 4) 4
        = readBytes mem (a + 4) 4 := by
      apply readBytes_writeBytes_disjoint
      intro i j hi hj
      rw [readBytes_length] at hj
      unfold fwdSafe sub32 at hsafe
      unfold wrap32 at hsafe ⊢
      omega
    rw [hdis, readBytes_add mem a 4 4, writeBytes_append, readBytes_length]
  · rw [if_neg hv]

/-- After the copy, the 8 destination bytes are the 8 source bytes as they
were before it (when the forward copy is safe). -/
theorem copy64_read (s : EmitState) (mem : Nat → Nat) (d a : Nat)
    (h : viaEax s = true → fwdSafe d a) :
    readBytes (copy64 s mem d a) d 8 = readBytes mem a 8 := by
  rw [copy64_eq s mem d a h, readBytes_writeBytes_read mem d a 8 (by norm_num)]

theorem copy128_read (mem : Nat → Nat) (d a : Nat) :
    readBytes (copy128 mem d a) d 16 = readBytes mem a 16 := by
  unfold copy128
  rw [readBytes_writeBytes_read mem d a 16 (by norm_num)]

theorem fromLE_toLE_read (mem : Nat → Nat) (a n v : Nat) (hn : n ≤ 4294967296) :
    fromLE (readBytes (writeBytes mem a (toLE n v)) a n) = v % 256 ^ n := by
  have := readBytes_writeBytes_same mem a (toLE n v) (by rw [toLE_length]; exact hn) (toLE_lt n v)
  rw [toLE_length] at this
  rw [this, fromLE_toLE]
/-- C3 (amended): round trip on direct-mapped memory. For a direct-mapped
address A and a supported width W, the code of `vtlb_DynGenWrite(W)` run with
ecx = A falls through, and the code of the load emitter of width W (zero
extending for W < 32) run afterwards with ecx = A on the memory the store left
yields the stored value: eax = edx mod 2^W for W <= 32, and for W = 64/128 the
W/8 bytes at the load's `[edx]` equal the W/8 bytes that were at the store's
`[edx]`. For W = 128 this needs the physical address `ppf` and the data
buffers `[edx]` of the store and of the load to be multiples of 16
(`wideAligned`), as the aligned 16-byte move faults otherwise. For W = 64 it
needs, whenever `iMOV64_Smart` copies through eax, that the destination of
the copy does not start 1..7 bytes above its source (`fwdSafe`), for the store
and for the load. -/
theorem store_load_roundtrip (env : Env) (hwf : env.WF) (s1 s2 : EmitState) (m : Machine)
    (A : Nat) (hA : A < 4294967296) (hecx : m.ecx = A)
    (hd : signBit32 (ppfOf env A) = false)
    (bits : Nat) (hb : Supported bits) (sign : Bool) (hsg : bits < 32 → sign = false)
    (hal1 : wideAligned bits m.edx (ppfOf env A))
    (hsafe1 : bits = 64 → viaEax s1 = true → fwdSafe (ppfOf env A) (wrap32 m.edx)) :
    ∃ cs ms, emitted (vtlb_DynGenWrite env bits) s1 = .ok cs ∧ run env cs m = .next ms ∧
      ∀ m2 : Machine, m2.ecx = A → m2.mem = ms.mem →
        wideAligned bits m2.edx (ppfOf env A) →
        (bits = 64 → viaEax s2 = true → fwdSafe (wrap32 m2.edx) (ppfOf env A)) →
        ∃ cl ml, emitted (dynGen env false bits sign) s2 = .ok cl ∧
          run env cl m2 = .next ml ∧
          (bits ≤ 32 → ml.eax = m.edx % 2 ^ bits) ∧
          (64 ≤ bits →
            readBytes ml.mem m2.edx (bits / 8) = readBytes m.mem m.edx (bits / 8)) := by
  subst hecx
  have hp : wrap32 (ppfOf env m.ecx) = ppfOf env m.ecx := wrap32_of_lt (ppfOf_lt env _)
  have hEs := Emits_dynGen env s1 true bits sign hb
  simp only [dynGen, if_true, Bool.not_true, Bool.false_and] at hEs
  obtain ⟨m1, hhead, -, -, hecx1, hedx1, hmem1, -⟩ :=
    run_dyn_head env hwf m hA (indirectSlot env 1 (szidxOf bits) (if false = true then 1 else 0))
      (directWriteCode s1 bits (xIndirect.atReg Reg.ecx 0))
  rw [hd] at hhead
  simp only [Bool.false_eq_true, if_false] at hhead hEs
  have e1 : ea m1 (xIndirect.atReg Reg.ecx 0) = ppfOf env m.ecx := by
    simp only [ea, getReg, hecx1, Nat.add_zero, hp]
  obtain ⟨ms, hrs, hms, -, -, -, -⟩ :=
    run_direct env s1 true bits sign (xIndirect.atReg Reg.ecx 0) m1 hb rfl
      (by rw [e1, hedx1]; exact hal1)
  simp only [if_true] at hrs
  rw [e1, hmem1, hedx1] at hms
  refine ⟨_, ms, Emits_emitted hEs, hhead.trans hrs, ?_⟩
  intro m2 hecx2 hmem2 hal2 hsafe2
  obtain ⟨m3, hhead2, -, -, hecx3, hedx3, hmem3, -⟩ :=
    run_dyn_head env hwf m2 (by omega)
      (indirectSlot env (if false = true then 1 else 0) (szidxOf bits)
        (if (!false && sign && decide (bits < 32)) = true then 1 else 0))
      (if false = true then directWriteCode s2 bits (xIndirect.atReg Reg.ecx 0)
       else directReadCode s2 bits (sign && decide (bits < 64)) (xIndirect.atReg Reg.ecx 0))
  rw [hecx2, hd] at hhead2
  simp only [Bool.false_eq_true, if_false] at hhead2
  have e3 : ea m3 (xIndirect.atReg Reg.ecx 0) = ppfOf env m.ecx := by
    simp only [ea, getReg, hecx3, hecx2, Nat.add_zero, hp]
  obtain ⟨ml, hrl, hml, -, -, -, hel⟩ :=
    run_direct env s2 false bits sign (xIndirect.atReg Reg.ecx 0) m3 hb rfl
      (by rw [e3, hedx3]; exact hal2)
  simp only [Bool.false_eq_true, if_false] at hrl
  rw [e3, hmem3, hedx3, hmem2, hms] at hml
  rw [e3, hmem3, hmem2, hms] at hel
  refine ⟨_, ml, Emits_emitted (Emits_dynGen env s2 false bits sign hb), hhead2.trans hrl, ?_, ?_⟩
  · intro hle
    rw [hel rfl hle]
    rcases hb with rfl | rfl | rfl | rfl | rfl
    · rw [hsg (by norm_num)]
      simp only [loadVal, directMem, zeroExtend]
      norm_num
      rw [fromLE_toLE_read _ _ 1 _ (by norm_num)]
      norm_num
    · rw [hsg (by norm_num)]
      simp only [loadVal, directMem, zeroExtend]
      norm_num
      rw [fromLE_toLE_read _ _ 2 _ (by norm_num)]
      norm_num
    · simp only [loadVal, directMem]
      norm_num
      rw [fromLE_toLE_read _ _ 4 _ (by norm_num)]
      norm_num
    · omega
    · omega
  · intro hge
    rw [hml]
    rcases hb with rfl | rfl | rfl | rfl | rfl
    · omega
    · omega
    · omega
    · simp only [directMem]
      norm_num
      rw [← readBytes_wrap _ m2.edx, ← readBytes_wrap _ m.edx,
        copy64_read _ _ _ _ (hsafe2 rfl), copy64_read _ _ _ _ (hsafe1 rfl)]
    · simp only [directMem]
      norm_num
      rw [← readBytes_wrap _ m2.edx, ← readBytes_wrap _ m.edx, copy128_read, copy128_read]

/-- C3 as stated fails: the 128-bit store to the direct-mapped address
A = 0x14 (physical `0x100014`, not a multiple of 16) of the 16 bytes at
`[edx] = 0x300000` does not complete: the aligned 16-byte move to `ppf`
faults, and the 16 bytes at `ppf` are not the 16 bytes that were to be
stored, so no load can return them. -/
theorem store_load_roundtrip_unaligned :
    signBit32 (ppfOf env0 0x14) = false ∧ ppfOf env0 0x14 = 0x100014 ∧
    (run env0 (codeOf (emitted (vtlb_DynGenWrite env0 128) es0))
      { m0 with ecx := 0x14, edx := 0x300000 }).isFault = true ∧
    readBytes
      (run env0 (codeOf (emitted (vtlb_DynGenWrite env0 128) es0))
        { m0 with ecx := 0x14, edx := 0x300000 }).machine.mem 0x100014 16
    ≠ readBytes m0.mem 0x300000 16 := by
  decide

/-- The 64-bit round trip also fails on overlap: with every vector and MMX
register in use, a 64-bit store of the 8 bytes at `[edx] = 0x10000C` to the direct-mapped address
A = 0x10 (physical `0x100010`, 4 bytes above the source) followed by a 64-bit
load from A into `[0x200000]` does not return the 8 bytes that were stored
from: the first 4-byte move of the store overwrites the upper half of its own
source. -/
theorem store_load_roundtrip_overlap :
    readBytes
      (run env0 (codeOf (emitted (vtlb_DynGenRead64 env0 64) esBusy))
        { (run env0 (codeOf (emitted (vtlb_DynGenWrite env0 64) esBusy))
            { m0 with ecx := 0x10, edx := 0x10000C }).machine with
          ecx := 0x10, edx := 0x200000 }).machine.mem 0x200000 8
    ≠ readBytes m0.mem 0x10000C 8 := by
  decide

/-- MOVSX and MOVZX obey the extension law for 8 and 16 bits. -/
theorem extLaw_ext (bits : Nat) (sign : Bool) (v : Nat) (hb : bits = 8 ∨ bits = 16) :
    ExtLaw bits sign v (if sign then signExtend bits v else zeroExtend bits v) := by
  rcases hb with rfl | rfl <;> cases sign <;>
    simp only [ExtLaw, signExtend, zeroExtend, Bool.false_eq_true, if_false, if_true,
      false_and, true_and] <;> norm_num <;> first | omega | (split_ifs <;> omega)

theorem loadVal_ext (bits : Nat) (sign : Bool) (mem : Nat → Nat) (a : Nat)
    (hb : bits = 8 ∨ bits = 16) :
    loadVal bits sign mem a =
      (if sign then signExtend bits (fromLE (readBytes mem a (bits / 8)))
       else zeroExtend bits (fromLE (readBytes mem a (bits / 8)))) := by
  rcases hb with rfl | rfl <;> simp [loadVal]

/-- Running the flush and handler call of a constant-address emitter: one
call, to `fn`, with the immediate physical address in ecx; the rest of the
code continues in the state the handler returns. -/
theorem run_constCall (env : Env) (fn pa : Nat) (a2 : Arg) (tail : List Instr) (m : Machine)
    (ha2 : a2 = Arg.none ∨ a2 = Arg.reg Reg.edx) :
    ∃ mh, run env [Instr.FlushCall, Instr.FastCall (CallTarget.direct fn) (Arg.imm pa) a2] m
        = .next mh ∧
      run env (Instr.FlushCall :: Instr.FastCall (CallTarget.direct fn) (Arg.imm pa) a2 :: tail) m
        = run env tail mh ∧
      mh.calls = m.calls ++ [⟨fn, wrap32 pa, (env.flush m).edx⟩] := by
  rcases ha2 with rfl | rfl
  · exact ⟨_, rfl, rfl, rfl⟩
  · exact ⟨_, rfl, rfl, rfl⟩

/-- C4: sign/zero-extension law on the four load paths, for W = 8, 16 and
both sign flags. Direct-mapped address: the code of `vtlb_DynGenRead32` (run
with ecx = A) and of `vtlb_DynGenRead32_Const` leave in eax the extension of
the W-bit value in memory at `ppf`. Handler-mapped address: the code of
`vtlb_DynGenRead32` branches to the indirect dispatcher slot of (load, width
class, sign), and the dispatcher generated for that triple leaves in eax the
extension of the value the handler returned in eax; the code of
`vtlb_DynGenRead32_Const` is flush, call, extension, and leaves in eax the
extension of the value the handler returned. "Extension" is `ExtLaw`: low W
bits kept, upper 32-W bits all ones iff signed and the top bit of the value
is set, else all zeros. -/
theorem sign_zero_extension (env : Env) (hwf : env.WF) (s s1 : EmitState) (m : Machine)
    (A : Nat) (hA : A < 4294967296) (hecx : m.ecx = A)
    (bits : Nat) (hb : bits = 8 ∨ bits = 16) (sign : Bool) :
    (signBit32 (ppfOf env A) = false →
      (∃ cd md, emitted (vtlb_DynGenRead32 env bits sign) s = .ok cd ∧
        run env cd m = .next md ∧
        ExtLaw bits sign (fromLE (readBytes m.mem (ppfOf env A) (bits / 8))) md.eax) ∧
      (∃ cc mc, emitted (vtlb_DynGenRead32_Const env bits sign A) s = .ok cc ∧
        run env cc m = .next mc ∧
        ExtLaw bits sign (fromLE (readBytes m.mem (ppfOf env A) (bits / 8))) mc.eax)) ∧
    (signBit32 (ppfOf env A) = true →
      (∃ cd m1 tramp mh m2 ret,
        emitted (vtlb_DynGenRead32 env bits sign) s = .ok cd ∧
        run env cd m = .jump (indirectSlot env 0 (szidxOf bits) (if sign then 1 else 0)) m1 ∧
        emitted (DynGen_IndirectTlbDispatcher env 0 (szidxOf bits) sign) s1 = .ok tramp ∧
        run env (dispatcherCallCode 0 (szidxOf bits)) m1 = .next mh ∧
        run env tramp m1 = .jump ret m2 ∧ ExtLaw bits sign mh.eax m2.eax) ∧
      (∃ fn pa mh mc,
        emitted (vtlb_DynGenRead32_Const env bits sign A) s =
          .ok (Instr.FlushCall :: Instr.FastCall (CallTarget.direct fn) (Arg.imm pa) Arg.none ::
            extCode bits sign) ∧
        run env [Instr.FlushCall, Instr.FastCall (CallTarget.direct fn) (Arg.imm pa) Arg.none] m
          = .next mh ∧
        run env (Instr.FlushCall :: Instr.FastCall (CallTarget.direct fn) (Arg.imm pa) Arg.none ::
            extCode bits sign) m = .next mc ∧
        ExtLaw bits sign mh.eax mc.eax)) := by
  subst hecx
  have hb3 : bits = 8 ∨ bits = 16 ∨ bits = 32 := by omega
  have hsup : Supported bits := by unfold Supported; omega
  have hlt : bits < 32 := by omega
  have hp : wrap32 (ppfOf env m.ecx) = ppfOf env m.ecx := wrap32_of_lt (ppfOf_lt env _)
  have hEd := Emits_DynGenRead32 env s bits sign hb3
  simp only [hlt, decide_True, Bool.and_true] at hEd
  obtain ⟨m1, hhead, -, -, hecx1, -, hmem1, -⟩ :=
    run_dyn_head env hwf m hA (indirectSlot env 0 (szidxOf bits) (if sign = true then 1 else 0))
      (directReadCode s bits sign (xIndirect.atReg Reg.ecx 0))
  constructor
  · intro hd
    rw [hd] at hhead
    simp only [Bool.false_eq_true, if_false] at hhead
    constructor
    · refine ⟨_, _, Emits_emitted hEd, hhead.trans (run_directRead32 env s bits sign _ m1 hb3), ?_⟩
      have e1 : ea m1 (xIndirect.atReg Reg.ecx 0) = ppfOf env m.ecx := by
        simp only [ea, getReg, hecx1, Nat.add_zero, hp]
      simp only [e1, hmem1, loadVal_ext _ _ _ _ hb]
      exact extLaw_ext bits sign _ hb
    · refine ⟨_, _, Emits_emitted (Emits_Read32_Const_direct env s bits sign m.ecx hb3 hd),
        run_directRead32 env s bits sign _ m hb3, ?_⟩
      simp only [ea, hp, loadVal_ext _ _ _ _ hb]
      exact extLaw_ext bits sign _ hb
  · intro hd
    rw [hd] at hhead
    simp only [if_true] at hhead
    constructor
    · obtain ⟨mh, m2, hcall, hj, -, heax⟩ := run_dispatcher env 0 (szidxOf bits) sign m1
      refine ⟨_, m1, _, mh, m2, mh.ebx, Emits_emitted hEd, hhead,
        Emits_emitted (Emits_IndirectTlbDispatcher env s1 0 (szidxOf bits) sign), hcall, hj, ?_⟩
      rw [heax]
      rcases hb with rfl | rfl
      · simpa [szidxOf] using extLaw_ext 8 sign mh.eax (by simp)
      · simpa [szidxOf] using extLaw_ext 16 sign mh.eax (by simp)
    · have hE := Emits_Read32_Const_handler env s bits sign m.ecx hd
      have h32 : ¬ (bits = 32 ∧ env.IntcStat = false ∧ paddrOf env m.ecx = env.INTC_STAT) := by
        omega
      rw [if_neg h32] at hE
      obtain ⟨mh, hcall, htail, -⟩ := run_constCall env
        (env.RWFT (if bits = 8 then 0 else if bits = 16 then 1
            else if bits = 32 then 2 else 0) 0 (handlerOf env m.ecx))
        (paddrOf env m.ecx) Arg.none (extCode bits sign) m (Or.inl rfl)
      rw [run_extCode] at htail
      refine ⟨_, _, mh, _, Emits_emitted hE, hcall, htail, ?_⟩
      simp only [hb, if_true]
      exact extLaw_ext bits sign _ hb

/-- Witness of `indirect_dispatcher_call`: the 16-bit signed load dispatcher,
entered for the handler-mapped address `0x1002` of `env0`. -/
theorem indirect_dispatcher_call_witness :
    env0.WF ∧ (0x1002 : Nat) < 4294967296 ∧
    ({ m0 with ecx := 0x1002 } : Machine).ecx = 0x1002 ∧
    ∃ prep tramp m1 m2 ret,
      emitted (DynGen_PrepRegs env0) es0 = .ok prep ∧
      run env0 prep { m0 with ecx := 0x1002 } = .next m1 ∧
      m1.eax = vmapEntry env0 0x1002 ∧ m1.ecx = wrap32 (0x1002 + vmapEntry env0 0x1002) ∧
      emitted (DynGen_IndirectTlbDispatcher env0 0 1 true) es0 = .ok tramp ∧
      run env0 tramp m1 = .jump ret m2 ∧
      m2.calls = ({ m0 with ecx := 0x1002 } : Machine).calls ++
        [⟨env0.RWFT 1 0 (vmapEntry env0 0x1002 &&& 0xFF),
          Int.toNat ((((0x1002 : Nat) : Int) + vmapEntry env0 0x1002
            - ((vmapEntry env0 0x1002 &&& 0xFF : Nat) : Int) - 0x80000000) % 4294967296),
          ({ m0 with ecx := 0x1002 } : Machine).edx⟩] :=
  ⟨by decide, by decide, rfl,
    indirect_dispatcher_call env0 (by decide) es0 es0 0 1 true { m0 with ecx := 0x1002 } 0x1002
      (by decide) rfl⟩

/-- Witness of `dyn_const_agree_direct`: a 128-bit store to the direct-mapped
address `0x10` of `env0` (physical `0x100010`) from the aligned buffer
`0x300000`. -/
theorem dyn_const_agree_direct_witness :
    env0.WF ∧ (0x10 : Nat) < 4294967296 ∧
    ({ m0 with ecx := 0x10, edx := 0x300000 } : Machine).ecx = 0x10 ∧
    signBit32 (ppfOf env0 0x10) = false ∧ Supported 128 ∧
    ∃ cd cc md mc,
      emitted (dynGen env0 true 128 false) es0 = .ok cd ∧
      emitted (constGen env0 true 128 false 0x10) es0 = .ok cc ∧
      (if wideAligned 128 ({ m0 with ecx := 0x10, edx := 0x300000 } : Machine).edx
          (ppfOf env0 0x10) then
        run env0 cd { m0 with ecx := 0x10, edx := 0x300000 } = .next md ∧
          run env0 cc { m0 with ecx := 0x10, edx := 0x300000 } = .next mc ∧
          mc.mem = directMem es0 true 128
            ({ m0 with ecx := 0x10, edx := 0x300000 } : Machine).mem
            ({ m0 with ecx := 0x10, edx := 0x300000 } : Machine).edx (ppfOf env0 0x10)
       else run env0 cd { m0 with ecx := 0x10, edx := 0x300000 } = .fault md ∧
          run env0 cc { m0 with ecx := 0x10, edx := 0x300000 } = .fault mc ∧
          mc.mem = ({ m0 with ecx := 0x10, edx := 0x300000 } : Machine).mem) ∧
      md.mem = mc.mem ∧
      (true = false → 128 ≤ 32 →
        md.eax = mc.eax ∧
        mc.eax = loadVal 128 false ({ m0 with ecx := 0x10, edx := 0x300000 } : Machine).mem
          (ppfOf env0 0x10)) :=
  ⟨by decide, by decide, rfl, by decide, by decide,
    dyn_const_agree_direct env0 (by decide) es0 { m0 with ecx := 0x10, edx := 0x300000 } 0x10
      (by decide) rfl (by decide) true 128 (by decide) false⟩

/-- Witness of `store_load_roundtrip`: a 128-bit store and load at the
direct-mapped address `0x10` of `env0` (physical `0x100010`) with the aligned
data buffer `0x300000`, every vector register in use. -/
theorem store_load_roundtrip_witness :
    env0.WF ∧ (0x10 : Nat) < 4294967296 ∧
    ({ m0 with ecx := 0x10, edx := 0x300000 } : Machine).ecx = 0x10 ∧
    signBit32 (ppfOf env0 0x10) = false ∧ Supported 128 ∧
    ((128 : Nat) < 32 → false = false) ∧
    wideAligned 128 ({ m0 with ecx := 0x10, edx := 0x300000 } : Machine).edx (ppfOf env0 0x10) ∧
    ((128 : Nat) = 64 → viaEax esBusy = true →
      fwdSafe (ppfOf env0 0x10)
        (wrap32 ({ m0 with ecx := 0x10, edx := 0x300000 } : Machine).edx)) ∧
    ∃ cs ms, emitted (vtlb_DynGenWrite env0 128) esBusy = .ok cs ∧
      run env0 cs { m0 with ecx := 0x10, edx := 0x300000 } = .next ms ∧
      ∀ m2 : Machine, m2.ecx = 0x10 → m2.mem = ms.mem →
        wideAligned 128 m2.edx (ppfOf env0 0x10) →
        ((128 : Nat) = 64 → viaEax esBusy = true → fwdSafe (wrap32 m2.edx) (ppfOf env0 0x10)) →
        ∃ cl ml, emitted (dynGen env0 false 128 false) esBusy = .ok cl ∧
          run env0 cl m2 = .next ml ∧
          ((128 : Nat) ≤ 32 →
            ml.eax = ({ m0 with ecx := 0x10, edx := 0x300000 } : Machine).edx % 2 ^ 128) ∧
          ((64 : Nat) ≤ 128 →
            readBytes ml.mem m2.edx (128 / 8) =
              readBytes ({ m0 with ecx := 0x10, edx := 0x300000 } : Machine).mem
                ({ m0 with ecx := 0x10, edx := 0x300000 } : Machine).edx (128 / 8)) :=
  ⟨by decide, by decide, rfl, by decide, by decide, fun _ => rfl, by decide,
    fun h => absurd h (by decide),
    store_load_roundtrip env0 (by decide) esBusy esBusy { m0 with ecx := 0x10, edx := 0x300000 }
      0x10 (by decide) rfl (by decide) 128 (by decide) false (fun _ => rfl) (by decide)
      (fun h => absurd h (by decide))⟩

/-- Witness of `sign_zero_extension`: signed 16-bit loads at the
handler-mapped address `0x1002` of `env0`. -/
theorem sign_zero_extension_witness :
    env0.WF ∧ (0x1002 : Nat) < 4294967296 ∧
    ({ m0 with ecx := 0x1002 } : Machine).ecx = 0x1002 ∧ ((16 : Nat) = 8 ∨ (16 : Nat) = 16) ∧
    signBit32 (ppfOf env0 0x1002) = true ∧
    (∃ cd m1 tramp mh m2 ret,
        emitted (vtlb_DynGenRead32 env0 16 true) es0 = .ok cd ∧
        run env0 cd { m0 with ecx := 0x1002 } =
          .jump (indirectSlot env0 0 (szidxOf 16) (if true = true then 1 else 0)) m1 ∧
        emitted (DynGen_IndirectTlbDispatcher env0 0 (szidxOf 16) true) es0 = .ok tramp ∧
        run env0 (dispatcherCallCode 0 (szidxOf 16)) m1 = .next mh ∧
        run env0 tramp m1 = .jump ret m2 ∧ ExtLaw 16 true mh.eax m2.eax) ∧
      (∃ fn pa mh mc,
        emitted (vtlb_DynGenRead32_Const env0 16 true 0x1002) es0 =
          .ok (Instr.FlushCall :: Instr.FastCall (CallTarget.direct fn) (Arg.imm pa) Arg.none ::
            extCode 16 true) ∧
        run env0 [Instr.FlushCall, Instr.FastCall (CallTarget.direct fn) (Arg.imm pa) Arg.none]
          { m0 with ecx := 0x1002 } = .next mh ∧
        run env0 (Instr.FlushCall :: Instr.FastCall (CallTarget.direct fn) (Arg.imm pa) Arg.none ::
            extCode 16 true) { m0 with ecx := 0x1002 } = .next mc ∧
        ExtLaw 16 true mh.eax mc.eax) :=
  ⟨by decide, by decide, rfl, by decide, by decide,
    (sign_zero_extension env0 (by decide) es0 es0 { m0 with ecx := 0x1002 } 0x1002 (by decide)
      rfl 16 (by decide) true).2 (by decide)⟩

/-- C10 (amended): the instruction sequences `iMOV64_Smart` emits in any two
allocator states (through a vector register with MOVLPS, through an MMX
register with MOVQ, or through eax in two 32-bit halves), run from the same
machine state with operands not addressed through eax, leave the same memory,
in which the 8 destination bytes are the 8 source bytes as they were before
the move, provided that, when one of the two sequences is the one through
eax, the destination does not start 1..7 bytes above the source. -/
theorem mov64_tiers_agree (env : Env) (s s1 : EmitState) (d src : xIndirect) (m : Machine)
    (hd : d.usesEax = false) (hs : src.usesEax = false)
    (hsafe : viaEax s = true ∨ viaEax s1 = true → fwdSafe (ea m d) (ea m src)) :
    ∃ c c1 r r1,
      emitted (iMOV64_Smart env d src) s = .ok c ∧
      emitted (iMOV64_Smart env d src) s1 = .ok c1 ∧
      run env c m = .next r ∧ run env c1 m = .next r1 ∧
      r.mem = r1.mem ∧
      readBytes r.mem (ea m d) 8 = readBytes m.mem (ea m src) 8 := by
  obtain ⟨r, hr, hmem, -⟩ := run_mov64 env s d src m hd hs
  obtain ⟨r1, hr1, hmem1, -⟩ := run_mov64 env s1 d src m hd hs
  rw [copy64_eq _ _ _ _ (fun h => hsafe (Or.inl h))] at hmem
  rw [copy64_eq _ _ _ _ (fun h => hsafe (Or.inr h))] at hmem1
  refine ⟨_, _, r, r1, Emits_emitted (Emits_iMOV64_Smart env s d src),
    Emits_emitted (Emits_iMOV64_Smart env s1 d src), hr, hr1, hmem.trans hmem1.symm, ?_⟩
  rw [hmem, readBytes_writeBytes_read _ _ _ 8 (by norm_num)]

/-- Witness of `mov64_tiers_agree`: MOVLPS against the two moves through eax,
from `0x100000` to the disjoint `0x200000`. -/
theorem mov64_tiers_agree_witness :
    (xIndirect.atAbs 0x200000).usesEax = false ∧ (xIndirect.atAbs 0x100000).usesEax = false ∧
    (viaEax es0 = true ∨ viaEax esBusy = true →
      fwdSafe (ea m0 (xIndirect.atAbs 0x200000)) (ea m0 (xIndirect.atAbs 0x100000))) ∧
    ∃ c c1 r r1,
      emitted (iMOV64_Smart env0 (xIndirect.atAbs 0x200000) (xIndirect.atAbs 0x100000)) es0
        = .ok c ∧
      emitted (iMOV64_Smart env0 (xIndirect.atAbs 0x200000) (xIndirect.atAbs 0x100000)) esBusy
        = .ok c1 ∧
      run env0 c m0 = .next r ∧ run env0 c1 m0 = .next r1 ∧
      r.mem = r1.mem ∧
      readBytes r.mem (ea m0 (xIndirect.atAbs 0x200000)) 8 =
        readBytes m0.mem (ea m0 (xIndirect.atAbs 0x100000)) 8 :=
  ⟨rfl, rfl, fun _ => by decide,
    mov64_tiers_agree env0 es0 esBusy (xIndirect.atAbs 0x200000) (xIndirect.atAbs 0x100000) m0
      rfl rfl (fun _ => by decide)⟩

/-- C10 as stated fails: moving 8 bytes from `0x100000` to the overlapping
`0x100004`, the sequence through eax (all registers in use) and the MOVLPS
sequence (a vector register free) leave different bytes at `0x100008`, and
after the sequence through eax the 8 destination bytes are not the 8 source
bytes as they were before the move. -/
theorem mov64_tiers_differ_on_overlap :
    (run env0 (codeOf (emitted
        (iMOV64_Smart env0 (xIndirect.atAbs 0x100004) (xIndirect.atAbs 0x100000)) esBusy))
      m0).machine.mem 0x100008
    ≠ (run env0 (codeOf (emitted
        (iMOV64_Smart env0 (xIndirect.atAbs 0x100004) (xIndirect.atAbs 0x100000)) es0))
      m0).machine.mem 0x100008
    ∧ readBytes (run env0 (codeOf (emitted
        (iMOV64_Smart env0 (xIndirect.atAbs 0x100004) (xIndirect.atAbs 0x100000)) esBusy))
      m0).machine.mem 0x100004 8
    ≠ readBytes m0.mem 0x100000 8 := by
  decide

/-- C9: the code of `vtlb_DynV2P`, run with the virtual address in ecx,
falls through with eax = ppmap[va >> VTLB_PAGE_BITS] | (va & VTLB_PAGE_MASK);
it contains no branch and no call and reads no table other than `ppmap`. -/
theorem dynV2P_translates (env : Env) (hwf : env.WF) (s : EmitState) (m : Machine)
    (va : Nat) (hva : va < 4294967296) (hecx : m.ecx = va)
    (hpp : ∀ i, env.ppmap i < 4294967296) :
    ∃ c r, emitted (vtlb_DynV2P env) s = .ok c ∧ run env c m = .next r ∧
      r.eax = env.ppmap (va >>> env.VTLB_PAGE_BITS) ||| (va &&& env.VTLB_PAGE_MASK) ∧
      ∀ i ∈ c, i.isBranch = false ∧ i.isCall = false ∧
        ∀ t, i.readsTable = some t → t = Table.ppmap := by
  subst hecx
  have hE : Emits (vtlb_DynV2P env) s ()
      [Instr.MOV_rr Reg.eax Reg.ecx, Instr.AND_ri Reg.ecx env.VTLB_PAGE_MASK,
       Instr.SHR_ri Reg.eax env.VTLB_PAGE_BITS, Instr.MOV_rt Reg.eax Table.ppmap Reg.eax,
       Instr.OR_rr Reg.eax Reg.ecx] := by
    unfold vtlb_DynV2P
    refine Emits_bind_eq (Emits_xEmit env _ s) (fun s1 _ => ?_) rfl
    refine Emits_bind_eq (Emits_xEmit env _ s1) (fun s2 _ => ?_) rfl
    refine Emits_bind_eq (Emits_xEmit env _ s2) (fun s3 _ => ?_) rfl
    exact Emits_bind_eq (Emits_xEmit env _ s3) (fun s4 _ => Emits_xEmit env _ s4) rfl
  have hp := pageIndex_eq env hwf m.ecx hva
  rw [wrap32_of_lt hva] at hp
  have hmask : wrap32 env.VTLB_PAGE_MASK = env.VTLB_PAGE_MASK := wrap32_of_lt hwf.2.2
  have hand : wrap32 (m.ecx &&& env.VTLB_PAGE_MASK) = m.ecx &&& env.VTLB_PAGE_MASK :=
    wrap32_of_lt (lt_of_le_of_lt Nat.and_le_left hva)
  refine ⟨_, _, Emits_emitted hE, rfl, ?_, ?_⟩
  · simp only [run, step, getReg, setReg, setFlags, tableRead, hp, wrap32_wrap32,
      wrap32_of_lt hva, hmask, hand, wrap32_of_lt (hpp _)]
  · intro i hi
    simp only [List.mem_cons, List.mem_singleton, List.not_mem_nil, or_false] at hi
    rcases hi with rfl | rfl | rfl | rfl | rfl <;>
      simp [Instr.isBranch, Instr.isCall, Instr.readsTable]

/-- Witness of `dynV2P_translates`: the address `0x2345` in `env0`. -/
theorem dynV2P_translates_witness :
    env0.WF ∧ (0x2345 : Nat) < 4294967296 ∧ ({ m0 with ecx := 0x2345 } : Machine).ecx = 0x2345 ∧
    (∀ i, env0.ppmap i < 4294967296) ∧
    ∃ c r, emitted (vtlb_DynV2P env0) es0 = .ok c ∧
      run env0 c { m0 with ecx := 0x2345 } = .next r ∧
      r.eax = env0.ppmap (0x2345 >>> env0.VTLB_PAGE_BITS) ||| (0x2345 &&& env0.VTLB_PAGE_MASK) ∧
      ∀ i ∈ c, i.isBranch = false ∧ i.isCall = false ∧
        ∀ t, i.readsTable = some t → t = Table.ppmap :=
  ⟨by decide, by decide, rfl, fun i => Nat.mod_lt _ (by norm_num),
    dynV2P_translates env0 (by decide) es0 { m0 with ecx := 0x2345 } 0x2345 (by decide) rfl
      (fun i => Nat.mod_lt _ (by norm_num))⟩

/-- C7: for a constant-address 8/16/32-bit load of a handler-mapped address.
When the recovered physical address is `INTC_STAT`, the emitter emits the
single direct 32-bit load of the register's backing location (no flush, no
call) if and only if the width is 32 and `EmuConfig.Speedhacks.IntcStat` is
unset. Whenever the shortcut condition fails (flag set, or width 8 or 16, or
another physical address) it emits the flush notification, then the call of
`RWFT[width class][0][selector]` with that physical address, then the
extension of the result. -/
theorem intc_stat_shortcut (env : Env) (s : EmitState) (bits : Nat) (sign : Bool) (A : Nat)
    (hb : bits = 8 ∨ bits = 16 ∨ bits = 32) (hd : signBit32 (ppfOf env A) = true) :
    (paddrOf env A = env.INTC_STAT →
      (emitted (vtlb_DynGenRead32_Const env bits sign A) s =
          .ok [Instr.MOV_rm Reg.eax (xIndirect.atAbs (env.psHu32 env.INTC_STAT))]
        ↔ bits = 32 ∧ env.IntcStat = false)) ∧
    (¬ (bits = 32 ∧ env.IntcStat = false ∧ paddrOf env A = env.INTC_STAT) →
      emitted (vtlb_DynGenRead32_Const env bits sign A) s =
        .ok (Instr.FlushCall ::
          Instr.FastCall (CallTarget.direct (env.RWFT (szidxOf bits) 0 (handlerOf env A)))
            (Arg.imm (paddrOf env A)) Arg.none :: extCode bits sign)) := by
  have hE := Emits_emitted (Emits_Read32_Const_handler env s bits sign A hd)
  have hsz : (if bits = 8 then 0 else if bits = 16 then 1 else if bits = 32 then 2 else 0)
      = szidxOf bits := by
    rcases hb with rfl | rfl | rfl <;> rfl
  rw [hsz] at hE
  constructor
  · intro hpa
    constructor
    · intro h
      by_contra hc
      rw [if_neg (fun hh => hc ⟨hh.1, hh.2.1⟩)] at hE
      rw [hE] at h
      simp at h
    · intro h
      rw [if_pos ⟨h.1, h.2, hpa⟩] at hE
      exact hE
  · intro hc
    rw [if_neg hc] at hE
    exact hE

/-- Witness of `intc_stat_shortcut`: the 32-bit load of address `0x2000` of
`env0`, whose physical address is `INTC_STAT`. -/
theorem intc_stat_shortcut_witness :
    ((32 : Nat) = 8 ∨ (32 : Nat) = 16 ∨ (32 : Nat) = 32) ∧
    signBit32 (ppfOf env0 0x2000) = true ∧ paddrOf env0 0x2000 = env0.INTC_STAT ∧
    (emitted (vtlb_DynGenRead32_Const env0 32 false 0x2000) es0 =
          .ok [Instr.MOV_rm Reg.eax (xIndirect.atAbs (env0.psHu32 env0.INTC_STAT))]
        ↔ (32 : Nat) = 32 ∧ env0.IntcStat = false) :=
  ⟨by decide, by decide, by decide,
    (intc_stat_shortcut env0 es0 32 false 0x2000 (by decide) (by decide)).1 (by decide)⟩

/-- The dynamic emitters stop fatally on every width they do not support:
`vtlb_DynGenRead32` outside {8,16,32}, `vtlb_DynGenRead64` outside {64,128},
`vtlb_DynGenRead` and `vtlb_DynGenWrite` outside {8,16,32,64,128}. -/
theorem dyn_emitters_fatal (env : Env) (s : EmitState) (bits : Nat) (sign : Bool) :
    (¬ (bits = 8 ∨ bits = 16 ∨ bits = 32) →
      ∃ err, emitted (vtlb_DynGenRead32 env bits sign) s = .error err) ∧
    (¬ (bits = 64 ∨ bits = 128) →
      ∃ err, emitted (vtlb_DynGenRead64 env bits) s = .error err) ∧
    (¬ Supported bits →
      (∃ err, emitted (vtlb_DynGenRead env 0 bits sign) s = .error err) ∧
      ∃ err, emitted (vtlb_DynGenWrite env bits) s = .error err) := by
  have h32 : ¬ (bits = 8 ∨ bits = 16 ∨ bits = 32) →
      ∃ err, emitted (vtlb_DynGenRead32 env bits sign) s = .error err := by
    intro h
    have h8 : bits ≠ 8 := fun e => h (Or.inl e)
    have h16 : bits ≠ 16 := fun e => h (Or.inr (Or.inl e))
    have h3 : bits ≠ 32 := fun e => h (Or.inr (Or.inr e))
    by_cases hle : bits ≤ 32
    · have h64 : bits ≠ 64 := by omega
      have h128 : bits ≠ 128 := by omega
      simp [emitted, vtlb_DynGenRead32, pxAssume, DynGen_PrepRegs, Profiler_EmitMem, xGetPtr,
        xEmit, DynGen_IndirectDispatch, hle, h8, h16, h3, h64, h128, StateT.run, bind,
        StateT.bind, modify, modifyGet, MonadStateOf.modifyGet, StateT.modifyGet, Except.bind,
        pure, StateT.pure, Except.pure, get, getThe, MonadStateOf.get, StateT.get, throw,
        throwThe, MonadExceptOf.throw, StateT.lift, Except.map, liftM, monadLift, MonadLift.monadLift]
    · simp [emitted, vtlb_DynGenRead32, pxAssume, hle, StateT.run, bind, StateT.bind,
        Except.bind, throw, throwThe, MonadExceptOf.throw, StateT.lift, liftM, monadLift,
        MonadLift.monadLift]
  have h64 : ¬ (bits = 64 ∨ bits = 128) →
      ∃ err, emitted (vtlb_DynGenRead64 env bits) s = .error err := by
    intro h
    simp [emitted, vtlb_DynGenRead64, pxAssume, h, StateT.run, bind, StateT.bind,
      Except.bind, throw, throwThe, MonadExceptOf.throw, StateT.lift, liftM, monadLift,
      MonadLift.monadLift]
  refine ⟨h32, h64, fun hs => ⟨?_, ?_⟩⟩
  · unfold vtlb_DynGenRead
    split_ifs
    · exact h32 (fun h => hs (by unfold Supported; omega))
    · exact h64 (fun h => hs (by unfold Supported; omega))
  · have h8 : bits ≠ 8 := fun e => hs (Or.inl e)
    have h16 : bits ≠ 16 := fun e => hs (Or.inr (Or.inl e))
    have h3 : bits ≠ 32 := fun e => hs (Or.inr (Or.inr (Or.inl e)))
    have h6 : bits ≠ 64 := fun e => hs (Or.inr (Or.inr (Or.inr (Or.inl e))))
    have h1 : bits ≠ 128 := fun e => hs (Or.inr (Or.inr (Or.inr (Or.inr e))))
    simp [emitted, vtlb_DynGenWrite, DynGen_PrepRegs, Profiler_EmitMem, xGetPtr,
        xEmit, DynGen_IndirectDispatch, h8, h16, h3, h6, h1, StateT.run, bind,
        StateT.bind, modify, modifyGet, MonadStateOf.modifyGet, StateT.modifyGet, Except.bind,
        pure, StateT.pure, Except.pure, get, getThe, MonadStateOf.get, StateT.get, throw,
        throwThe, MonadExceptOf.throw, StateT.lift, Except.map, liftM, monadLift, MonadLift.monadLift]

/-- C8 fails on the constant-address emitters. In `env0` (page 0 direct,
page 1 served by handler 3): `vtlb_DynGenRead64_Const` with the unsupported
width 32 on a handler page returns normally having emitted a call of the
8-bit load handler `RWFT[0][0][3]`, although the direct branch of the same
function stops with `jNO_DEFAULT` for that width;
`vtlb_DynGenRead32_Const` with width 64 and `vtlb_DynGenWrite_Const` with
width 7 on a direct page return normally having emitted nothing, and on a
handler page they emit a call of a width-class-0 handler. -/
theorem const_emitters_accept_unsupported_width :
    emitted (vtlb_DynGenRead64_Const env0 32 0x1002) es0 =
      .ok [Instr.FlushCall,
        Instr.FastCall (CallTarget.direct (env0.RWFT 0 0 3)) (Arg.imm 0x1002) Arg.none] ∧
    emitted (vtlb_DynGenRead64_Const env0 32 0x10) es0 = .error Fatal.jNO_DEFAULT ∧
    emitted (vtlb_DynGenRead32_Const env0 64 false 0x10) es0 = .ok [] ∧
    emitted (vtlb_DynGenRead32_Const env0 64 false 0x1002) es0 =
      .ok [Instr.FlushCall,
        Instr.FastCall (CallTarget.direct (env0.RWFT 0 0 3)) (Arg.imm 0x1002) Arg.none] ∧
    emitted (vtlb_DynGenWrite_Const env0 7 0x10) es0 = .ok [] ∧
    emitted (vtlb_DynGenWrite_Const env0 7 0x1002) es0 =
      .ok [Instr.FlushCall,
        Instr.FastCall (CallTarget.direct (env0.RWFT 0 1 3)) (Arg.imm 0x1002)
          (Arg.reg Reg.edx)] := by
  decide

theorem paddrOf_int (env : Env) (A : Nat) :
    ((paddrOf env A : Nat) : Int) =
        ((A : Int) + vmapEntry env A - ((vmapEntry env A &&& 0xFF : Nat) : Int) + 0x80000000)
          % 4294967296 ∧
    ((paddrOf env A : Nat) : Int) =
        ((A : Int) + vmapEntry env A - ((vmapEntry env A &&& 0xFF : Nat) : Int) - 0x80000000)
          % 4294967296 := by
  rw [and_255]
  unfold paddrOf handlerOf ppfOf sub32 wrap32
  generalize vmapEntry env A = E
  omega

/-- Handler branch of the constant-address emitters for a supported width,
outside the status-register shortcut: flush, the call, then (8/16-bit loads)
the extension. -/
theorem Emits_constGen_handler (env : Env) (s : EmitState) (store : Bool) (bits : Nat)
    (sign : Bool) (A : Nat) (hb : Supported bits) (hd : signBit32 (ppfOf env A) = true)
    (hnot : ¬ (store = false ∧ bits = 32 ∧ env.IntcStat = false ∧
      paddrOf env A = env.INTC_STAT)) :
    Emits (constGen env store bits sign A) s ()
      (Instr.FlushCall ::
        Instr.FastCall
          (CallTarget.direct (env.RWFT (szidxOf bits) (if store then 1 else 0) (handlerOf env A)))
          (Arg.imm (paddrOf env A)) (if store then Arg.reg Reg.edx else Arg.none) ::
        (if store then [] else extCode bits sign)) := by
  unfold constGen
  cases store
  · have hnot2 : ¬ (bits = 32 ∧ env.IntcStat = false ∧ paddrOf env A = env.INTC_STAT) :=
      fun h => hnot ⟨rfl, h⟩
    rcases hb with rfl | rfl | rfl | rfl | rfl
    · simpa [szidxOf] using Emits_Read32_Const_handler env s 8 sign A hd
    · simpa [szidxOf] using Emits_Read32_Const_handler env s 16 sign A hd
    · have := Emits_Read32_Const_handler env s 32 sign A hd
      rw [if_neg hnot2] at this
      simpa [szidxOf] using this
    · simpa [szidxOf, extCode] using Emits_Read64_Const_handler env s 64 A hd
    · simpa [szidxOf, extCode] using Emits_Read64_Const_handler env s 128 A hd
  · have := Emits_Write_Const_handler env s bits A hd
    rw [if_pos hb] at this
    simpa using this

/-- C6: for a handler-mapped constant address A and a supported width and
direction (outside the status-register shortcut), the constant-address emitter
emits flush and then a call whose target `RWFT[width class][direction][entry & 0xFF]`
and whose physical-address argument `paddr = (A + entry - handler + 0x80000000)
mod 2^32 = (A + entry - handler - 0x80000000) mod 2^32` are exactly the
function and the ecx argument of the one call made at run time by the dynamic
path: the code of the dynamic emitter run with ecx = A branches to the
indirect dispatcher slot of (direction, width class, sign), and the dispatcher
generated for that triple calls that function with that argument and edx
unchanged. -/
theorem const_handler_matches_dynamic (env : Env) (hwf : env.WF) (s s1 : EmitState)
    (m : Machine) (A : Nat) (hA : A < 4294967296) (hecx : m.ecx = A)
    (hd : signBit32 (ppfOf env A) = true)
    (store : Bool) (bits : Nat) (hb : Supported bits) (sign : Bool)
    (hnot : ¬ (store = false ∧ bits = 32 ∧ env.IntcStat = false ∧
      paddrOf env A = env.INTC_STAT)) :
    ∃ tail cd m1 tramp m2 ret,
      emitted (constGen env store bits sign A) s =
        .ok (Instr.FlushCall ::
          Instr.FastCall
            (CallTarget.direct
              (env.RWFT (szidxOf bits) (if store then 1 else 0) (vmapEntry env A &&& 0xFF)))
            (Arg.imm (paddrOf env A)) (if store then Arg.reg Reg.edx else Arg.none) :: tail) ∧
      ((paddrOf env A : Nat) : Int) =
        ((A : Int) + vmapEntry env A - ((vmapEntry env A &&& 0xFF : Nat) : Int) + 0x80000000)
          % 4294967296 ∧
      ((paddrOf env A : Nat) : Int) =
        ((A : Int) + vmapEntry env A - ((vmapEntry env A &&& 0xFF : Nat) : Int) - 0x80000000)
          % 4294967296 ∧
      emitted (dynGen env store bits sign) s = .ok cd ∧
      run env cd m =
        .jump (indirectSlot env (if store then 1 else 0) (szidxOf bits)
          (if (!store && sign && decide (bits < 32)) then 1 else 0)) m1 ∧
      emitted (DynGen_IndirectTlbDispatcher env (if store then 1 else 0) (szidxOf bits)
        (!store && sign && decide (bits < 32))) s1 = .ok tramp ∧
      run env tramp m1 = .jump ret m2 ∧
      m2.calls = m.calls ++
        [⟨env.RWFT (szidxOf bits) (if store then 1 else 0) (vmapEntry env A &&& 0xFF),
          paddrOf env A, m.edx⟩] := by
  subst hecx
  have hEc := Emits_emitted (Emits_constGen_handler env s store bits sign m.ecx hb hd hnot)
  have hh : handlerOf env m.ecx = vmapEntry env m.ecx &&& 0xFF := by
    rw [and_255]; rfl
  rw [hh] at hEc
  obtain ⟨m1, hhead, heax1, -, hecx1, hedx1, -, hcalls1⟩ :=
    run_dyn_head env hwf m hA
      (indirectSlot env (if store then 1 else 0) (szidxOf bits)
        (if (!store && sign && decide (bits < 32)) then 1 else 0))
      (if store then directWriteCode s bits (xIndirect.atReg Reg.ecx 0)
       else directReadCode s bits (sign && decide (bits < 64)) (xIndirect.atReg Reg.ecx 0))
  rw [hd] at hhead
  simp only [if_true] at hhead
  obtain ⟨mh, m2, -, hj, hcalls, -⟩ := run_dispatcher env (if store then 1 else 0) (szidxOf bits)
    (!store && sign && decide (bits < 32)) m1
  refine ⟨_, _, m1, _, m2, mh.ebx, hEc, (paddrOf_int env m.ecx).1, (paddrOf_int env m.ecx).2,
    Emits_emitted (Emits_dynGen env s store bits sign hb), hhead,
    Emits_emitted (Emits_IndirectTlbDispatcher env s1 _ _ _), hj, ?_⟩
  rw [hcalls, heax1, hecx1, hedx1, hcalls1, and_255]
  have : paddrOf env m.ecx =
      sub32 (sub32 (ppfOf env m.ecx) 2147483648) (vmapEntry env m.ecx % 256) :=
    paddr_const_eq _ _
  rw [this]

/-- Witness of `const_handler_matches_dynamic`: a 32-bit store to the
handler-mapped address `0x1002` of `env0`. -/
theorem const_handler_matches_dynamic_witness :
    env0.WF ∧ (0x1002 : Nat) < 4294967296 ∧
    ({ m0 with ecx := 0x1002, edx := 7 } : Machine).ecx = 0x1002 ∧
    signBit32 (ppfOf env0 0x1002) = true ∧ Supported 32 ∧
    ¬ (true = false ∧ (32 : Nat) = 32 ∧ env0.IntcStat = false ∧
      paddrOf env0 0x1002 = env0.INTC_STAT) ∧
    ∃ tail cd m1 tramp m2 ret,
      emitted (constGen env0 true 32 false 0x1002) es0 =
        .ok (Instr.FlushCall ::
          Instr.FastCall
            (CallTarget.direct
              (env0.RWFT (szidxOf 32) (if true = true then 1 else 0)
                (vmapEntry env0 0x1002 &&& 0xFF)))
            (Arg.imm (paddrOf env0 0x1002))
            (if true = true then Arg.reg Reg.edx else Arg.none) :: tail) ∧
      ((paddrOf env0 0x1002 : Nat) : Int) =
        (((0x1002 : Nat) : Int) + vmapEntry env0 0x1002
          - ((vmapEntry env0 0x1002 &&& 0xFF : Nat) : Int) + 0x80000000) % 4294967296 ∧
      ((paddrOf env0 0x1002 : Nat) : Int) =
        (((0x1002 : Nat) : Int) + vmapEntry env0 0x1002
          - ((vmapEntry env0 0x1002 &&& 0xFF : Nat) : Int) - 0x80000000) % 4294967296 ∧
      emitted (dynGen env0 true 32 false) es0 = .ok cd ∧
      run env0 cd { m0 with ecx := 0x1002, edx := 7 } =
        .jump (indirectSlot env0 (if true = true then 1 else 0) (szidxOf 32)
          (if (!true && false && decide ((32 : Nat) < 32)) = true then 1 else 0)) m1 ∧
      emitted (DynGen_IndirectTlbDispatcher env0 (if true = true then 1 else 0) (szidxOf 32)
        (!true && false && decide ((32 : Nat) < 32))) es0 = .ok tramp ∧
      run env0 tramp m1 = .jump ret m2 ∧
      m2.calls = ({ m0 with ecx := 0x1002, edx := 7 } : Machine).calls ++
        [⟨env0.RWFT (szidxOf 32) (if true = true then 1 else 0)
            (vmapEntry env0 0x1002 &&& 0xFF),
          paddrOf env0 0x1002, ({ m0 with ecx := 0x1002, edx := 7 } : Machine).edx⟩] :=
  ⟨by decide, by decide, rfl, by decide, by decide, by decide,
    const_handler_matches_dynamic env0 (by decide) es0 es0 { m0 with ecx := 0x1002, edx := 7 }
      0x1002 (by decide) rfl (by decide) true 32 (by decide) false (by decide)⟩

/-! ## The one-time initialisation -/

theorem Runs_of_Emits {α : Type} {e : Emit α} {s : EmitState} {a : α} {c : List Instr}
    (h : Emits e s a c) : Runs e s := by
  unfold Emits at h
  unfold Runs
  cases he : e.run s with
  | error err => rw [he] at h; exact h.elim
  | ok r =>
    obtain ⟨a1, s1⟩ := r
    rw [he] at h
    exact ⟨a1, s1, rfl, h.2.2.2⟩

theorem Runs_bind {α β : Type} {e : Emit α} {f : α → Emit β} {s : EmitState}
    (h1 : Runs e s) (h2 : ∀ a s1, SameAlloc s1 s → Runs (f a) s1) : Runs (e >>= f) s := by
  obtain ⟨a, s1, hr, hs⟩ := h1
  obtain ⟨b, s2, hr2, hs2⟩ := h2 a s1 hs
  refine ⟨b, s2, ?_, SameAlloc_trans hs2 hs⟩
  simp only [StateT.run_bind, hr]
  exact hr2

theorem Runs_forM {α : Type} (f : α → Emit PUnit) (l : List α)
    (h : ∀ x ∈ l, ∀ s, Runs (f x) s) : ∀ s, Runs (l.forM f) s := by
  induction l with
  | nil =>
    intro s
    exact ⟨PUnit.unit, s, rfl, SameAlloc_refl s⟩
  | cons x xs ih =>
    intro s
    show Runs (f x >>= fun _ => xs.forM f) s
    exact Runs_bind (h x (by simp) s)
      (fun _ s1 _ => ih (fun y hy => h y (by simp [hy])) s1)

theorem Emits_xSetPtr (p : Nat) (s : EmitState) : Emits (xSetPtr p) s () [] := by
  simp [Emits, xSetPtr, StateT.run, modify, modifyGet, MonadStateOf.modifyGet,
    StateT.modifyGet, pure, Except.pure, SameAlloc, Event.instr]

theorem Emits_GetFullTlbDispatcherPtr (env : Env) (s : EmitState) (mode k sign : Nat)
    (hk : k ≤ 4) (h : (mode ≠ 0 ∨ 2 ≤ k) → sign = 0) :
    Emits (GetFullTlbDispatcherPtr env mode k sign) s
      (env.dispatchers + (512 + mode * 448 + sign * 320 + k * 64)) [] := by
  have hk6 : ¬ k > 6 := by omega
  by_cases hc : mode ≠ 0 ∨ 2 ≤ k
  · have := h hc
    subst this
    simp [Emits, GetFullTlbDispatcherPtr, assert, hc, hk6, StateT.run, bind,
      StateT.bind, Except.bind, pure, StateT.pure, Except.pure, SameAlloc]
  · simp [Emits, GetFullTlbDispatcherPtr, assert, hc, hk6, StateT.run, bind,
      StateT.bind, Except.bind, pure, StateT.pure, Except.pure, SameAlloc]
    omega

/-- The direct-path load emitter accepts the width classes 0..4. -/
theorem Runs_DirectRead_class (env : Env) (s : EmitState) (k : Nat) (sign : Bool) (hk : k ≤ 4) :
    Runs (DynGen_DirectRead env k sign) s := by
  unfold DynGen_DirectRead
  have : k = 0 ∨ k = 1 ∨ k = 2 ∨ k = 3 ∨ k = 4 := by omega
  rcases this with rfl | rfl | rfl | rfl | rfl
  · cases sign <;> simpa using Runs_of_Emits (Emits_xEmit env _ s)
  · cases sign <;> simpa using Runs_of_Emits (Emits_xEmit env _ s)
  · simpa using Runs_of_Emits (Emits_xEmit env _ s)
  · simpa using Runs_of_Emits (Emits_iMOV64_Smart env s _ _)
  · simpa using Runs_of_Emits (Emits_iMOV128_SSE env s _ _)

/-- The direct-path store emitter never stops fatally. -/
theorem Runs_DirectWrite_any (env : Env) (s : EmitState) (k : Nat) :
    Runs (DynGen_DirectWrite env k) s := by
  unfold DynGen_DirectWrite
  split_ifs
  · exact Runs_of_Emits (Emits_xEmit env _ s)
  · exact Runs_of_Emits (Emits_xEmit env _ s)
  · exact Runs_of_Emits (Emits_xEmit env _ s)
  · exact Runs_of_Emits (Emits_iMOV64_Smart env s _ _)
  · exact Runs_of_Emits (Emits_iMOV128_SSE env s _ _)
  · exact Runs_of_Emits (Emits_pure s ())

theorem Runs_FullTlbDispatcher (env : Env) (s : EmitState) (mode k : Nat) (sign : Bool)
    (hk : k ≤ 4) (h : (mode ≠ 0 ∨ 2 ≤ k) → sign = false) :
    Runs (DynGen_FullTlbDispatcher env mode k sign) s := by
  unfold DynGen_FullTlbDispatcher Profiler_EmitSlowMem
  refine Runs_bind (Runs_of_Emits (Emits_pure s _)) (fun _ s0 _ => ?_)
  refine Runs_bind (Runs_of_Emits (Emits_xEmit env _ s0)) (fun _ s1 _ => ?_)
  refine Runs_bind (Runs_of_Emits (Emits_xEmit env _ s1)) (fun _ s2 _ => ?_)
  refine Runs_bind (Runs_of_Emits (Emits_xEmit env _ s2)) (fun _ s3 _ => ?_)
  refine Runs_bind (Runs_of_Emits (Emits_xEmit env _ s3)) (fun _ s4 _ => ?_)
  refine Runs_bind (Runs_of_Emits (Emits_GetIndirectDispatcherPtr env s4 mode k
    (if sign then 1 else 0) (by intro hc; simp [h hc]))) (fun _ s5 _ => ?_)
  refine Runs_bind (Runs_of_Emits (Emits_xEmit env _ s5)) (fun _ s6 _ => ?_)
  dsimp only
  split_ifs
  · exact Runs_bind (Runs_DirectWrite_any env s6 k)
      (fun _ s7 _ => Runs_of_Emits (Emits_xEmit env _ s7))
  · exact Runs_bind (Runs_DirectRead_class env s6 k sign hk)
      (fun _ s7 _ => Runs_of_Emits (Emits_xEmit env _ s7))

theorem Runs_init_slot (env : Env) (s : EmitState) (mode k sg : Nat) (hk : k ≤ 4)
    (h : (mode ≠ 0 ∨ 2 ≤ k) → sg = 0) :
    Runs (vtlb_dynarec_init_slot env mode k sg) s := by
  have hsg : (mode ≠ 0 ∨ 2 ≤ k) → (if sg ≠ 0 then 1 else 0) = 0 := by
    intro hc; simp [h hc]
  unfold vtlb_dynarec_init_slot
  refine Runs_bind (Runs_of_Emits (Emits_GetIndirectDispatcherPtr env s mode k _ hsg))
    (fun _ s1 _ => ?_)
  refine Runs_bind (Runs_of_Emits (Emits_xSetPtr _ s1)) (fun _ s2 _ => ?_)
  refine Runs_bind (Runs_of_Emits (Emits_IndirectTlbDispatcher env s2 mode k _))
    (fun _ s3 _ => ?_)
  refine Runs_bind (Runs_of_Emits (Emits_GetFullTlbDispatcherPtr env s3 mode k _ hk hsg))
    (fun _ s4 _ => ?_)
  refine Runs_bind (Runs_of_Emits (Emits_xSetPtr _ s4)) (fun _ s5 _ => ?_)
  exact Runs_FullTlbDispatcher env s5 mode k _ hk (by intro hc; simp [h hc])

/-- The three nested loops of `vtlb_dynarec_init` run to completion. -/
theorem Runs_init_loops (env : Env) (s : EmitState) :
    Runs (vtlb_dynarec_init_loops env) s := by
  unfold vtlb_dynarec_init_loops
  refine Runs_forM _ _ (fun mode _ s1 => ?_) s
  refine Runs_forM _ _ (fun bits hbits s2 => ?_) s1
  refine Runs_forM _ _ (fun sg hsg s3 => ?_) s2
  have hk : bits ≤ 4 := by
    simp only [List.mem_cons, List.mem_singleton, List.not_mem_nil, or_false] at hbits
    omega
  refine Runs_init_slot env s3 mode bits sg hk ?_
  intro hc
  have hn : ¬ (mode = 0 ∧ bits < 2) := by omega
  rw [if_neg hn] at hsg
  simpa using hsg

/-- A second call of `vtlb_dynarec_init` changes nothing. -/
theorem init_run_done (env : Env) (s : EmitState) (h : s.hasBeenCalled = true) :
    (vtlb_dynarec_init env).run s = .ok ((), s) := by
  simp [vtlb_dynarec_init, StateT.run, bind, StateT.bind, get, getThe, MonadStateOf.get,
    StateT.get, Except.bind, pure, Except.pure, StateT.pure, h]

/-- The first call of `vtlb_dynarec_init` returns normally, with the guard
flag set and the dispatcher page execute-only. -/
theorem init_run_first (env : Env) (s : EmitState) (h : s.hasBeenCalled = false) :
    ∃ s1, (vtlb_dynarec_init env).run s = .ok ((), s1) ∧ s1.hasBeenCalled = true ∧
      s1.prot = PageAccess.ExecOnly := by
  obtain ⟨a, s4, hr, hs⟩ := Runs_init_loops env
    { s with
      hasBeenCalled := true
      prot := PageAccess.ReadWrite
      bytes := fun a =>
        if env.dispatchers ≤ a ∧ a < env.dispatchers + 0x1000 then 0xcc else s.bytes a
      log := s.log ++ [Event.protect PageAccess.ReadWrite, Event.memset 0xcc 0x1000] }
  refine ⟨{ s4 with prot := PageAccess.ExecOnly,
                    log := s4.log ++ [Event.protect PageAccess.ExecOnly] }, ?_, ?_, rfl⟩
  · simp only [StateT.run] at hr
    simp [vtlb_dynarec_init, StateT.run, bind, StateT.bind, get, getThe, MonadStateOf.get,
      StateT.get, Except.bind, pure, Except.pure, StateT.pure, h, modify, modifyGet,
      MonadStateOf.modifyGet, StateT.modifyGet, MemProtectStatic, memset_8]
    rw [hr]
  · exact hs.2.2.2.1

theorem init_times_run (env : Env) (s s1 : EmitState)
    (h1 : (vtlb_dynarec_init env).run s = .ok ((), s1)) (hc : s1.hasBeenCalled = true) :
    ∀ k, 1 ≤ k → (vtlb_dynarec_init_times env k).run s = .ok ((), s1) := by
  intro k hk
  induction k with
  | zero => omega
  | succ n ih =>
    unfold vtlb_dynarec_init_times
    rw [StateT.run_bind]
    cases n with
    | zero =>
      have h0 : (vtlb_dynarec_init_times env 0).run s = .ok ((), s) := rfl
      rw [h0]
      exact h1
    | succ j =>
      rw [ih (by omega)]
      exact init_run_done env s1 hc

/-- C5: `vtlb_dynarec_init` is idempotent. From any state with the guard flag
clear (uninitialised), one invocation returns normally in a state `s1`; for
every N >= 1, N invocations in a row return normally in that same state `s1`
(so the dispatcher buffer is byte-identical, as are the guard flag and the
protection); and after every invocation, the k-th for 1 <= k <= N, the
protection of the dispatcher page is execute-only. -/
theorem init_idempotent (env : Env) (s : EmitState) (hs : s.hasBeenCalled = false)
    (N : Nat) (hN : 1 ≤ N) :
    ∃ s1, (vtlb_dynarec_init env).run s = .ok ((), s1) ∧
      (vtlb_dynarec_init_times env N).run s = .ok ((), s1) ∧
      s1.hasBeenCalled = true ∧
      ∀ k, 1 ≤ k → k ≤ N →
        ∃ sk, (vtlb_dynarec_init_times env k).run s = .ok ((), sk) ∧
          sk.prot = PageAccess.ExecOnly ∧
          ∀ a, env.dispatchers ≤ a → a < env.dispatchers + pagesize → sk.bytes a = s1.bytes a := by
  obtain ⟨s1, h1, hc, hp⟩ := init_run_first env s hs
  refine ⟨s1, h1, init_times_run env s s1 h1 hc N hN, hc, ?_⟩
  intro k hk _
  exact ⟨s1, init_times_run env s s1 h1 hc k hk, hp, fun _ _ _ => rfl⟩

/-- Witness of `init_idempotent`: three invocations from the fresh state
`es0`. -/
theorem init_idempotent_witness :
    es0.hasBeenCalled = false ∧ 1 ≤ 3 ∧
    ∃ s1, (vtlb_dynarec_init env0).run es0 = .ok ((), s1) ∧
      (vtlb_dynarec_init_times env0 3).run es0 = .ok ((), s1) ∧
      s1.hasBeenCalled = true ∧
      ∀ k, 1 ≤ k → k ≤ 3 →
        ∃ sk, (vtlb_dynarec_init_times env0 k).run es0 = .ok ((), sk) ∧
          sk.prot = PageAccess.ExecOnly ∧
          ∀ a, env0.dispatchers ≤ a → a < env0.dispatchers + pagesize →
            sk.bytes a = s1.bytes a :=
  ⟨rfl, by decide, init_idempotent env0 es0 rfl 3 (by decide)⟩

/-! ## The layout of the dispatcher buffer -/

theorem mem_initTriples (mode k sg : Nat) :
    (mode, k, sg) ∈ initTriples ↔ validSlot mode k sg := by
  unfold validSlot
  constructor
  · intro h
    simp only [initTriples, List.mem_flatMap, List.mem_map, List.mem_cons, List.mem_singleton,
      List.not_mem_nil, or_false, Prod.mk.injEq, List.mem_range] at h
    obtain ⟨m, hm, b, hb, g, hg, rfl, rfl, rfl⟩ := h
    rcases hm with rfl | rfl <;> rcases hb with rfl | rfl | rfl | rfl | rfl <;>
      simp at hg <;> omega
  · rintro ⟨hm, hk, hs, h⟩
    simp only [initTriples, List.mem_flatMap, List.mem_map, List.mem_cons, List.mem_singleton,
      List.not_mem_nil, or_false, Prod.mk.injEq, List.mem_range]
    refine ⟨mode, by omega, k, by omega, sg, ?_, rfl, rfl, rfl⟩
    split_ifs with hc
    · omega
    · by_contra hne
      have : sg = 1 := by omega
      exact hc (h this)

/-- C14. For every valid (mode, width class, sign) triple the two pointer
functions return normally, `GetIndirectDispatcherPtr` with the buffer start
plus `mode*224 + sign*160 + class*32` and `GetFullTlbDispatcherPtr` with the
buffer start plus `512 + mode*448 + sign*320 + class*64`; the indirect
offset is a multiple of 32 and its 32-byte slot ends at or below offset 512;
the 64-byte full slot starts at or above offset 512 and ends inside the
4096-byte buffer; for two different valid triples the 32-byte indirect slots
are disjoint and the 64-byte full slots are disjoint; no indirect slot
overlaps a full slot. The valid triples are the 12 triples the loops of
`vtlb_dynarec_init` go through. -/
theorem slot_layout (env : Env) (s : EmitState) (mode k sg mode1 k1 sg1 : Nat)
    (h : validSlot mode k sg) (h1 : validSlot mode1 k1 sg1) :
    Emits (GetIndirectDispatcherPtr env mode k sg) s
        (env.dispatchers + (mode * 224 + sg * 160 + k * 32)) [] ∧
      Emits (GetFullTlbDispatcherPtr env mode k sg) s
        (env.dispatchers + (512 + mode * 448 + sg * 320 + k * 64)) [] ∧
      indirectSlot env mode k sg = env.dispatchers + (mode * 224 + sg * 160 + k * 32) ∧
      fullSlot env mode k sg = env.dispatchers + (512 + mode * 448 + sg * 320 + k * 64) ∧
      32 ∣ (mode * 224 + sg * 160 + k * 32) ∧
      indirectSlot env mode k sg + 32 ≤ env.dispatchers + 512 ∧
      env.dispatchers + 512 ≤ fullSlot env mode k sg ∧
      fullSlot env mode k sg + 64 ≤ env.dispatchers + pagesize ∧
      ((mode, k, sg) ≠ (mode1, k1, sg1) →
        (indirectSlot env mode k sg + 32 ≤ indirectSlot env mode1 k1 sg1 ∨
          indirectSlot env mode1 k1 sg1 + 32 ≤ indirectSlot env mode k sg) ∧
        (fullSlot env mode k sg + 64 ≤ fullSlot env mode1 k1 sg1 ∨
          fullSlot env mode1 k1 sg1 + 64 ≤ fullSlot env mode k sg)) ∧
      indirectSlot env mode k sg + 32 ≤ fullSlot env mode1 k1 sg1 ∧
      initTriples.length = 12 ∧
      ((mode, k, sg) ∈ initTriples) := by
  have hv := h
  have hv1 := h1
  obtain ⟨hm, hk, hs, hx⟩ := h
  obtain ⟨hm1, hk1, hs1, hx1⟩ := h1
  have hA : (mode ≠ 0 ∨ 2 ≤ k) → sg = 0 := by
    intro hc
    by_contra hne
    have h1 : sg = 1 := by omega
    have := hx h1
    omega
  refine ⟨Emits_GetIndirectDispatcherPtr env s mode k sg hA,
    Emits_GetFullTlbDispatcherPtr env s mode k sg hk hA, rfl, rfl, ?_, ?_, ?_, ?_, ?_, ?_,
    by decide, (mem_initTriples mode k sg).2 hv⟩
  · exact ⟨mode * 7 + sg * 5 + k, by ring⟩
  · unfold indirectSlot
    omega
  · unfold fullSlot
    omega
  · unfold fullSlot pagesize
    omega
  · intro hne
    have hy : sg = 0 ∨ (mode = 0 ∧ k < 2) := by
      rcases Nat.eq_zero_or_pos sg with h0 | h0
      · exact Or.inl h0
      · exact Or.inr (hx (by omega))
    have hy1 : sg1 = 0 ∨ (mode1 = 0 ∧ k1 < 2) := by
      rcases Nat.eq_zero_or_pos sg1 with h0 | h0
      · exact Or.inl h0
      · exact Or.inr (hx1 (by omega))
    have hne1 : ¬ (mode = mode1 ∧ k = k1 ∧ sg = sg1) := by
      rintro ⟨rfl, rfl, rfl⟩
      exact hne rfl
    have e1 : mode = 0 ∨ mode = 1 := by omega
    have e2 : mode1 = 0 ∨ mode1 = 1 := by omega
    have e3 : sg = 0 ∨ sg = 1 := by omega
    have e4 : sg1 = 0 ∨ sg1 = 1 := by omega
    unfold indirectSlot fullSlot
    rcases e1 with rfl | rfl <;> rcases e2 with rfl | rfl <;> rcases e3 with rfl | rfl <;>
      rcases e4 with rfl | rfl <;> constructor <;> omega
  · have e1 : mode = 0 ∨ mode = 1 := by omega
    have e2 : mode1 = 0 ∨ mode1 = 1 := by omega
    have e3 : sg = 0 ∨ sg = 1 := by omega
    have e4 : sg1 = 0 ∨ sg1 = 1 := by omega
    unfold indirectSlot fullSlot
    rcases e1 with rfl | rfl <;> rcases e2 with rfl | rfl <;> rcases e3 with rfl | rfl <;>
      rcases e4 with rfl | rfl <;> omega

theorem slot_layout_witness :
    validSlot 0 4 0 ∧ validSlot 0 0 1 ∧
      fullSlot env0 0 4 0 + 64 ≤ fullSlot env0 0 0 1 :=
  ⟨by decide, by decide,
    ((slot_layout env0 es0 0 4 0 0 0 1 (by decide) (by decide)).2.2.2.2.2.2.2.2.1
      (by decide)).2.resolve_right (by decide)⟩

/-! ## Flush before call in the constant-address emitters -/

theorem isPlain_mov64Code (s : EmitState) (d src : xIndirect) :
    ∀ i ∈ mov64Code s d src, i.isPlain = true := by
  unfold mov64Code
  split_ifs <;> simp [Instr.isPlain, Instr.isFlush, Instr.isCall, Instr.isBranch]

theorem isPlain_mov128Code (s : EmitState) (d src : xIndirect) :
    ∀ i ∈ mov128Code s d src, i.isPlain = true := by
  unfold mov128Code
  split_ifs <;> simp [Instr.isPlain, Instr.isFlush, Instr.isCall, Instr.isBranch]

theorem isPlain_directReadCode (s : EmitState) (bits : Nat) (sign : Bool) (src : xIndirect) :
    ∀ i ∈ directReadCode s bits sign src, i.isPlain = true := by
  unfold directReadCode
  split_ifs
  all_goals first
    | exact isPlain_mov64Code s _ _
    | exact isPlain_mov128Code s _ _
    | simp [Instr.isPlain, Instr.isFlush, Instr.isCall, Instr.isBranch]

theorem isPlain_directWriteCode (s : EmitState) (bits : Nat) (dst : xIndirect) :
    ∀ i ∈ directWriteCode s bits dst, i.isPlain = true := by
  unfold directWriteCode
  split_ifs
  · simp [Instr.isPlain, Instr.isFlush, Instr.isCall, Instr.isBranch]
  · simp [Instr.isPlain, Instr.isFlush, Instr.isCall, Instr.isBranch]
  · simp [Instr.isPlain, Instr.isFlush, Instr.isCall, Instr.isBranch]
  · exact isPlain_mov64Code s _ _
  · exact isPlain_mov128Code s _ _

theorem isPlain_extCode (bits : Nat) (sign : Bool) : ∀ i ∈ extCode bits sign, i.isPlain = true := by
  unfold extCode
  split_ifs <;> cases sign <;> simp [Instr.isPlain, Instr.isFlush, Instr.isCall, Instr.isBranch]

/-- Direct branch of the constant-address 8/16/32-bit load emitter for a
width argument it has no case for: nothing is emitted. -/
theorem Emits_Read32_Const_direct_other (env : Env) (s : EmitState) (bits : Nat) (sign : Bool)
    (A : Nat) (hb : ¬ (bits = 8 ∨ bits = 16 ∨ bits = 32))
    (hd : signBit32 (ppfOf env A) = false) :
    Emits (vtlb_DynGenRead32_Const env bits sign A) s () [] := by
  unfold ppfOf vmapEntry at hd
  unfold vtlb_DynGenRead32_Const
  have h8 : ¬ bits = 8 := fun h => hb (Or.inl h)
  have h16 : ¬ bits = 16 := fun h => hb (Or.inr (Or.inl h))
  have h32 : ¬ bits = 32 := fun h => hb (Or.inr (Or.inr h))
  simp only [Profiler_EmitConstMem, pure_bind, hd, if_true, h8, h16, h32, if_false]
  exact Emits_pure s ()

/-- Direct branch of the constant-address store emitter for an unsupported
width argument: nothing is emitted. -/
theorem Emits_Write_Const_direct_other (env : Env) (s : EmitState) (bits : Nat) (A : Nat)
    (hb : ¬ Supported bits) (hd : signBit32 (ppfOf env A) = false) :
    Emits (vtlb_DynGenWrite_Const env bits A) s () [] := by
  unfold ppfOf vmapEntry at hd
  unfold vtlb_DynGenWrite_Const
  unfold Supported at hb
  have h8 : ¬ bits = 8 := fun h => hb (by omega)
  have h16 : ¬ bits = 16 := fun h => hb (by omega)
  have h32 : ¬ bits = 32 := fun h => hb (by omega)
  have h64 : ¬ bits = 64 := fun h => hb (by omega)
  have h128 : ¬ bits = 128 := fun h => hb (by omega)
  simp only [Profiler_EmitConstMem, pure_bind, hd, if_true, h8, h16, h32, h64, h128, if_false]
  exact Emits_pure s ()

/-- Direct branch of the constant-address 64/128-bit load emitter for a width
argument it has no case for: generation stops at `jNO_DEFAULT`. -/
theorem emitted_Read64_Const_direct_other (env : Env) (s : EmitState) (bits : Nat) (A : Nat)
    (hb : ¬ (bits = 64 ∨ bits = 128)) (hd : signBit32 (ppfOf env A) = false) :
    emitted (vtlb_DynGenRead64_Const env bits A) s = .error Fatal.jNO_DEFAULT := by
  unfold ppfOf vmapEntry at hd
  unfold vtlb_DynGenRead64_Const emitted
  have h64 : ¬ bits = 64 := fun h => hb (Or.inl h)
  have h128 : ¬ bits = 128 := fun h => hb (Or.inr h)
  simp only [Profiler_EmitConstMem, pure_bind, hd, if_true, h64, h128, if_false]
  rfl

/-- C16. In the output of every constant-address emitter, for every width
argument, sign flag, address and page map: when the sign bit of
`addr_const + vmap[addr_const >> VTLB_PAGE_BITS]` is clear (direct-mapped)
whatever is emitted contains no flush notification, no call and no branch;
when it is set the emitter returns normally and its output is either the
single status-register load (the 32-bit load emitter under the shortcut
condition, and only then), or exactly one flush notification immediately
followed by exactly one call with the immediate physical address, followed
only by instructions that are neither flush nor call nor branch. -/
theorem const_flush_before_call (env : Env) (s : EmitState) (bits : Nat) (sign : Bool)
    (A : Nat) :
    (signBit32 (ppfOf env A) = false →
      ∀ e ∈ constEmitters env bits sign A, ∀ c, emitted e s = .ok c →
        ∀ i ∈ c, i.isFlush = false ∧ i.isCall = false ∧ i.isBranch = false) ∧
    (signBit32 (ppfOf env A) = true →
      (∃ t, emitted (vtlb_DynGenRead64_Const env bits A) s =
        .ok [Instr.FlushCall, Instr.FastCall t (Arg.imm (paddrOf env A)) Arg.none]) ∧
      (∃ t, emitted (vtlb_DynGenWrite_Const env bits A) s =
        .ok [Instr.FlushCall, Instr.FastCall t (Arg.imm (paddrOf env A)) (Arg.reg Reg.edx)]) ∧
      (if bits = 32 ∧ env.IntcStat = false ∧ paddrOf env A = env.INTC_STAT then
        emitted (vtlb_DynGenRead32_Const env bits sign A) s =
          .ok [Instr.MOV_rm Reg.eax (xIndirect.atAbs (env.psHu32 env.INTC_STAT))]
       else
        ∃ t tail, emitted (vtlb_DynGenRead32_Const env bits sign A) s =
            .ok (Instr.FlushCall :: Instr.FastCall t (Arg.imm (paddrOf env A)) Arg.none :: tail) ∧
          ∀ i ∈ tail, i.isFlush = false ∧ i.isCall = false ∧ i.isBranch = false)) := by
  have hplain : ∀ i : Instr, i.isPlain = true →
      i.isFlush = false ∧ i.isCall = false ∧ i.isBranch = false := by
    intro i hi
    simpa [Instr.isPlain, and_assoc] using hi
  constructor
  · intro hd e he c hc i hi
    apply hplain
    simp only [constEmitters, List.mem_cons, List.mem_singleton, List.not_mem_nil, or_false] at he
    rcases he with rfl | rfl | rfl
    · by_cases hb : bits = 64 ∨ bits = 128
      · rw [Emits_emitted (Emits_Read64_Const_direct env s bits A hb hd)] at hc
        cases hc
        exact isPlain_directReadCode s _ _ _ i hi
      · rw [emitted_Read64_Const_direct_other env s bits A hb hd] at hc
        cases hc
    · by_cases hb : bits = 8 ∨ bits = 16 ∨ bits = 32
      · rw [Emits_emitted (Emits_Read32_Const_direct env s bits sign A hb hd)] at hc
        cases hc
        exact isPlain_directReadCode s _ _ _ i hi
      · rw [Emits_emitted (Emits_Read32_Const_direct_other env s bits sign A hb hd)] at hc
        cases hc
        cases hi
    · by_cases hb : Supported bits
      · rw [Emits_emitted (Emits_Write_Const_direct env s bits A hb hd)] at hc
        cases hc
        exact isPlain_directWriteCode s _ _ i hi
      · rw [Emits_emitted (Emits_Write_Const_direct_other env s bits A hb hd)] at hc
        cases hc
        cases hi
  · intro hd
    refine ⟨⟨_, Emits_emitted (Emits_Read64_Const_handler env s bits A hd)⟩,
      ⟨_, Emits_emitted (Emits_Write_Const_handler env s bits A hd)⟩, ?_⟩
    have h := Emits_emitted (Emits_Read32_Const_handler env s bits sign A hd)
    split_ifs with hc
    · rw [h, if_pos hc]
    · rw [h, if_neg hc]
      exact ⟨_, _, rfl, fun i hi => hplain i (isPlain_extCode bits sign i hi)⟩

theorem const_flush_before_call_witness :
    signBit32 (ppfOf env0 0x1002) = true ∧ signBit32 (ppfOf env0 0x10) = false ∧
      (∃ t, emitted (vtlb_DynGenWrite_Const env0 32 0x1002) es0 =
        .ok [Instr.FlushCall, Instr.FastCall t (Arg.imm (paddrOf env0 0x1002)) (Arg.reg Reg.edx)]) ∧
      (∀ i ∈ [Instr.MOV_mr 32 (xIndirect.atAbs 0x100010) Reg.edx],
        i.isFlush = false ∧ i.isCall = false ∧ i.isBranch = false) :=
  ⟨by decide, by decide,
    ((const_flush_before_call env0 es0 32 false 0x1002).2 (by decide)).2.1,
    (const_flush_before_call env0 es0 32 false 0x10).1 (by decide)
      (vtlb_DynGenWrite_Const env0 32 0x10) (by simp [constEmitters]) _ (by decide)⟩

/-! ## The 128-bit move and the scoped register holder -/

/-- C11 (amended). `iMOV128_SSE`, through the scoped holder `iAllocRegSSE`,
is invisible when its source and destination addresses are multiples of 16.
For every allocator state and all operands it returns normally and leaves
the allocator state (the in-use flags of the vector and MMX registers,
`x86FpuState`) as it was. When no vector register is free it emits exactly
save xmm0 to the scratch area, load xmm0 from the source, store xmm0 to the
destination, restore xmm0. When a register is free the constructor claims the
first free register and emits nothing, the two moves through that register
are all that is emitted (no save, no restore), and the destructor frees that
register and emits nothing. Run with source and destination multiples of 16,
what was emitted falls through, makes the 16 destination bytes equal to the
16 source bytes, and when no register was free leaves every vector register,
xmm0 included, with its original value. Otherwise the aligned 16-byte move
faults and memory is as it was. -/
theorem mov128_invisible (env : Env) (s : EmitState) (d src : xIndirect) (m : Machine) :
    ∃ s1,
      (iMOV128_SSE env d src).run s = .ok ((), s1) ∧
      s1.xmmregs = s.xmmregs ∧ s1.mmxregs = s.mmxregs ∧ s1.x86FpuState = s.x86FpuState ∧
      (_hasFreeXMMreg s = false →
        emitted (iMOV128_SSE env d src) s =
          .ok [Instr.StoreReg 0, Instr.MOVDQA_xm 0 src, Instr.MOVDQA_mx d 0,
            Instr.RestoreReg 0]) ∧
      (_hasFreeXMMreg s = true →
        ∃ reg sA sB,
          (iAllocRegSSE.ctor env).run s = .ok (reg, sA) ∧
          reg.m_free = true ∧ reg.m_reg = s.xmmregs.indexOf false ∧
          s.xmmregs[reg.m_reg]? = some false ∧
          sA = { s with xmmregs := s.xmmregs.set reg.m_reg true } ∧
          emitted (iMOV128_SSE env d src) s =
            .ok [Instr.MOVDQA_xm reg.m_reg src, Instr.MOVDQA_mx d reg.m_reg] ∧
          (xEmit env (Instr.MOVDQA_xm reg.m_reg src) >>= fun _ =>
            xEmit env (Instr.MOVDQA_mx d reg.m_reg)).run sA = .ok ((), sB) ∧
          sB.xmmregs = sA.xmmregs ∧
          (iAllocRegSSE.dtor env reg).run sB = .ok ((), s1) ∧
          s1 = { sB with xmmregs := sB.xmmregs.set reg.m_reg false }) ∧
      (ea m src % 16 = 0 → ea m d % 16 = 0 →
        ∃ m1, run env (codeOf (emitted (iMOV128_SSE env d src) s)) m = .next m1 ∧
          readBytes m1.mem (ea m d) 16 = readBytes m.mem (ea m src) 16 ∧
          (_hasFreeXMMreg s = false → m1.xmm = m.xmm)) ∧
      (¬ (ea m src % 16 = 0 ∧ ea m d % 16 = 0) →
        ∃ mf, run env (codeOf (emitted (iMOV128_SSE env d src) s)) m = .fault mf ∧
          mf.mem = m.mem) := by
  have hE := Emits_iMOV128_SSE env s d src
  have hem := Emits_emitted hE
  unfold Emits at hE
  cases hr : (iMOV128_SSE env d src).run s with
  | error err => rw [hr] at hE; exact hE.elim
  | ok r =>
    obtain ⟨u, s1⟩ := r
    rw [hr] at hE
    obtain ⟨-, -, -, hfpu, hxmm, hmmx, -, -⟩ := hE
    refine ⟨s1, rfl, hxmm, hmmx, hfpu, ?_, ?_, ?_, ?_⟩
    · intro hb
      have hc : mov128Code s d src =
          [Instr.StoreReg 0, Instr.MOVDQA_xm 0 src, Instr.MOVDQA_mx d 0, Instr.RestoreReg 0] := by
        simp [mov128Code, hb]
      rw [hem, hc]
    · intro hf
      have hx : false ∈ s.xmmregs := by simpa [_hasFreeXMMreg] using hf
      have hi : s.xmmregs.indexOf false < s.xmmregs.length := List.indexOf_lt_length.mpr hx
      have hg : s.xmmregs[s.xmmregs.indexOf false] = false := List.indexOf_get hi
      have hc : mov128Code s d src =
          [Instr.MOVDQA_xm (s.xmmregs.indexOf false) src,
           Instr.MOVDQA_mx d (s.xmmregs.indexOf false)] := by
        simp [mov128Code, hf]
      simp only [iMOV128_SSE, iAllocRegSSE.ctor, iAllocRegSSE.dtor, hf, _allocTempXMMreg,
        _freeXMMreg, xEmit, StateT.run, bind, StateT.bind, modify, modifyGet,
        MonadStateOf.modifyGet, StateT.modifyGet, Except.bind, pure, StateT.pure, Except.pure,
        get, getThe, MonadStateOf.get, StateT.get, set, StateT.set, if_true] at hr
      cases hr
      refine ⟨⟨s.xmmregs.indexOf false, true⟩,
        { s with xmmregs := s.xmmregs.set (s.xmmregs.indexOf false) true },
        emitAll env [Instr.MOVDQA_xm (s.xmmregs.indexOf false) src,
          Instr.MOVDQA_mx d (s.xmmregs.indexOf false)]
          { s with xmmregs := s.xmmregs.set (s.xmmregs.indexOf false) true }, ?_, rfl, rfl, ?_,
        rfl, ?_, ?_, ?_, ?_, ?_⟩
      · simp [iAllocRegSSE.ctor, hf, _allocTempXMMreg, StateT.run, bind, StateT.bind,
          Except.bind, pure, StateT.pure, Except.pure, get, getThe, MonadStateOf.get, StateT.get,
          set, StateT.set]
      · rw [List.getElem?_eq_getElem hi, hg]
      · rw [hem, hc]
      · simp only [xEmit, StateT.run, bind, StateT.bind, modify, modifyGet,
          MonadStateOf.modifyGet, StateT.modifyGet, Except.bind, pure, StateT.pure, Except.pure]
        rfl
      · rfl
      · rfl
      · rfl
    · intro hs hd
      obtain ⟨m1, hrun, hmem, -, -, -, -, -, hx⟩ := run_mov128 env s d src m hs hd
      refine ⟨m1, ?_, ?_, hx⟩
      · rw [hem]; exact hrun
      · rw [hmem]; exact copy128_read _ _ _
    · intro hna
      obtain ⟨mf, hrun, hmem, -⟩ := run_mov128_fault env s d src m hna
      refine ⟨mf, ?_, hmem⟩
      rw [hem]; exact hrun

theorem mov128_invisible_witness :
    _hasFreeXMMreg esBusy = false ∧
      ea ({ m0 with ecx := 0x100010, edx := 0x300000 } : Machine) (xIndirect.atReg Reg.ecx 0)
        % 16 = 0 ∧
      ea ({ m0 with ecx := 0x100010, edx := 0x300000 } : Machine) (xIndirect.atReg Reg.edx 0)
        % 16 = 0 ∧
      emitted (iMOV128_SSE env0 (xIndirect.atReg Reg.edx 0) (xIndirect.atReg Reg.ecx 0)) esBusy =
        .ok [Instr.StoreReg 0, Instr.MOVDQA_xm 0 (xIndirect.atReg Reg.ecx 0),
          Instr.MOVDQA_mx (xIndirect.atReg Reg.edx 0) 0, Instr.RestoreReg 0] ∧
      ∃ m1, run env0
          (codeOf (emitted
            (iMOV128_SSE env0 (xIndirect.atReg Reg.edx 0) (xIndirect.atReg Reg.ecx 0)) esBusy))
          { m0 with ecx := 0x100010, edx := 0x300000 } = .next m1 ∧
        readBytes m1.mem
            (ea ({ m0 with ecx := 0x100010, edx := 0x300000 } : Machine)
              (xIndirect.atReg Reg.edx 0)) 16 =
          readBytes ({ m0 with ecx := 0x100010, edx := 0x300000 } : Machine).mem
            (ea ({ m0 with ecx := 0x100010, edx := 0x300000 } : Machine)
              (xIndirect.atReg Reg.ecx 0)) 16 ∧
        (_hasFreeXMMreg esBusy = false →
          m1.xmm = ({ m0 with ecx := 0x100010, edx := 0x300000 } : Machine).xmm) := by
  obtain ⟨s1, -, -, -, -, hb, -, hal, -⟩ :=
    mov128_invisible env0 esBusy (xIndirect.atReg Reg.edx 0) (xIndirect.atReg Reg.ecx 0)
      { m0 with ecx := 0x100010, edx := 0x300000 }
  exact ⟨by decide, by decide, by decide, hb (by decide), hal (by decide) (by decide)⟩

/-- C11 as stated fails: with every vector register in use, the code of
`iMOV128_SSE( ptr[edx], ptr[ecx] )` run with the source `0x100010` and the
destination `0x300001` (not a multiple of 16) faults at the store to the
destination, after xmm0 was saved and loaded and before it is restored: the
16 destination bytes are not the 16 source bytes, and xmm0 holds the source
bytes instead of its original value. -/
theorem mov128_faults_unaligned :
    (run env0
      (codeOf (emitted
        (iMOV128_SSE env0 (xIndirect.atReg Reg.edx 0) (xIndirect.atReg Reg.ecx 0)) esBusy))
      { m0 with ecx := 0x100010, edx := 0x300001 }).isFault = true ∧
    readBytes
      (run env0
        (codeOf (emitted
          (iMOV128_SSE env0 (xIndirect.atReg Reg.edx 0) (xIndirect.atReg Reg.ecx 0)) esBusy))
        { m0 with ecx := 0x100010, edx := 0x300001 }).machine.mem 0x300001 16
      ≠ readBytes m0.mem 0x100010 16 ∧
    (run env0
      (codeOf (emitted
        (iMOV128_SSE env0 (xIndirect.atReg Reg.edx 0) (xIndirect.atReg Reg.ecx 0)) esBusy))
      { m0 with ecx := 0x100010, edx := 0x300001 }).machine.xmm 0 ≠ m0.xmm 0 := by
  decide

/-! ## The generator state after a call -/

theorem emitAll_append (env : Env) (c1 c2 : List Instr) (s : EmitState) :
    emitAll env (c1 ++ c2) s = emitAll env c2 (emitAll env c1 s) := by
  induction c1 generalizing s with
  | nil => rfl
  | cons i is ih => exact ih _

theorem emitAll_sameAlloc (env : Env) (c : List Instr) (s : EmitState) :
    SameAlloc (emitAll env c s) s := by
  induction c generalizing s with
  | nil => exact SameAlloc_refl s
  | cons i is ih => exact SameAlloc_trans (ih _) ⟨rfl, rfl, rfl, rfl, rfl⟩

theorem emitAll_log (env : Env) (c : List Instr) (s : EmitState) :
    (emitAll env c s).log = s.log ++ layout env s.x86Ptr c := by
  induction c generalizing s with
  | nil => simp [emitAll, layout]
  | cons i is ih => simp [emitAll, layout, ih]

theorem emitAll_x86Ptr (env : Env) (c : List Instr) (s : EmitState) :
    (emitAll env c s).x86Ptr = endPos env s.x86Ptr c := by
  induction c generalizing s with
  | nil => rfl
  | cons i is ih => simp [emitAll, endPos, ih]

theorem layout_append (env : Env) (p : Nat) (c1 c2 : List Instr) :
    layout env p (c1 ++ c2) = layout env p c1 ++ layout env (endPos env p c1) c2 := by
  induction c1 generalizing p with
  | nil => rfl
  | cons i is ih => simp [layout, endPos, ih]

theorem layout_instr (env : Env) (p : Nat) (c : List Instr) :
    (layout env p c).filterMap Event.instr = c := by
  induction c generalizing p with
  | nil => rfl
  | cons i is ih => simp [layout, Event.instr, ih]

theorem EmitsExactly_pure {α : Type} (env : Env) (s : EmitState) (a : α) :
    EmitsExactly env (pure a : Emit α) s a [] := rfl

theorem EmitsExactly_xEmit (env : Env) (i : Instr) (s : EmitState) :
    EmitsExactly env (xEmit env i) s () [i] := rfl

theorem EmitsExactly_bind {α β : Type} {env : Env} {e : Emit α} {f : α → Emit β}
    {s : EmitState} {a : α} {b : β} {c c1 c2 : List Instr} (h1 : EmitsExactly env e s a c1)
    (h2 : ∀ s1, SameAlloc s1 s → EmitsExactly env (f a) s1 b c2) (hc : c = c1 ++ c2) :
    EmitsExactly env (e >>= f) s b c := by
  subst hc
  unfold EmitsExactly at h1 ⊢
  have h2' := h2 _ (emitAll_sameAlloc env c1 s)
  unfold EmitsExactly at h2'
  rw [StateT.run_bind, h1]
  show (f a).run (emitAll env c1 s) = _
  rw [h2', emitAll_append]

theorem Emits_of_EmitsExactly {α : Type} {env : Env} {e : Emit α} {s : EmitState} {a : α}
    {c : List Instr} (h : EmitsExactly env e s a c) : Emits e s a c := by
  unfold EmitsExactly at h
  unfold Emits
  rw [h]
  refine ⟨rfl, ?_, ?_, emitAll_sameAlloc env c s⟩
  · rw [emitAll_log, List.take_left]
  · rw [emitAll_log, List.drop_left, layout_instr]

theorem EmitsExactly_iMOV64_Smart (env : Env) (s : EmitState) (d src : xIndirect) :
    EmitsExactly env (iMOV64_Smart env d src) s () (mov64Code s d src) := by
  unfold mov64Code
  by_cases h1 : s.x86FpuState = FpuState.FPU_STATE ∧ _hasFreeXMMreg s = true
  · have hx : false ∈ s.xmmregs := by simpa [_hasFreeXMMreg] using h1.2
    simp [EmitsExactly, emitAll, iMOV64_Smart, h1, _allocTempXMMreg, _freeXMMreg, xEmit,
      StateT.run, bind, StateT.bind, modify, modifyGet, MonadStateOf.modifyGet,
      StateT.modifyGet, Except.bind, pure, StateT.pure, Except.pure, get, getThe,
      MonadStateOf.get, StateT.get, set, StateT.set, set_indexOf_restore _ hx]
  · by_cases h2 : _hasFreeMMXreg s = true
    · have hx : false ∈ s.mmxregs := by simpa [_hasFreeMMXreg] using h2
      simp [EmitsExactly, emitAll, iMOV64_Smart, h1, h2, _allocMMXreg, _freeMMXreg, xEmit,
        StateT.run, bind, StateT.bind, modify, modifyGet, MonadStateOf.modifyGet,
        StateT.modifyGet, Except.bind, pure, StateT.pure, Except.pure, get, getThe,
        MonadStateOf.get, StateT.get, set, StateT.set, set_indexOf_restore _ hx]
    · simp [EmitsExactly, emitAll, iMOV64_Smart, h1, h2, xEmit, StateT.run,
        bind, StateT.bind, modify, modifyGet, MonadStateOf.modifyGet, StateT.modifyGet,
        Except.bind, pure, StateT.pure, Except.pure, get, getThe, MonadStateOf.get, StateT.get,
        set, StateT.set]

theorem EmitsExactly_iMOV128_SSE (env : Env) (s : EmitState) (d src : xIndirect) :
    EmitsExactly env (iMOV128_SSE env d src) s () (mov128Code s d src) := by
  unfold mov128Code
  by_cases h1 : _hasFreeXMMreg s = true
  · have hx : false ∈ s.xmmregs := by simpa [_hasFreeXMMreg] using h1
    simp [EmitsExactly, emitAll, iMOV128_SSE, iAllocRegSSE.ctor, iAllocRegSSE.dtor, h1,
      _allocTempXMMreg, _freeXMMreg, xEmit, StateT.run, bind, StateT.bind, modify, modifyGet,
      MonadStateOf.modifyGet, StateT.modifyGet, Except.bind, pure, StateT.pure, Except.pure,
      get, getThe, MonadStateOf.get, StateT.get, set, StateT.set, set_indexOf_restore _ hx]
  · simp [EmitsExactly, emitAll, iMOV128_SSE, iAllocRegSSE.ctor, iAllocRegSSE.dtor, h1, xEmit,
      StateT.run, bind, StateT.bind, modify, modifyGet, MonadStateOf.modifyGet,
      StateT.modifyGet, Except.bind, pure, StateT.pure, Except.pure, get, getThe,
      MonadStateOf.get, StateT.get, set, StateT.set]

/-- `DynGen_PrepRegs` emits its five instructions and returns the emit
position after the fourth (`mov ebx, 0xcdcdcdcd`) less 4. -/
theorem EmitsExactly_PrepRegs (env : Env) (s : EmitState) :
    EmitsExactly env (DynGen_PrepRegs env) s
      (endPos env s.x86Ptr ((prepRegsCode env).take 4) - 4) (prepRegsCode env) := by
  simp [EmitsExactly, emitAll, endPos, DynGen_PrepRegs, prepRegsCode, Profiler_EmitMem, xGetPtr,
    xEmit, StateT.run, bind, StateT.bind, modify, modifyGet, MonadStateOf.modifyGet,
    StateT.modifyGet, Except.bind, pure, StateT.pure, Except.pure, get, getThe,
    MonadStateOf.get, StateT.get]

theorem EmitsExactly_GetIndirectDispatcherPtr (env : Env) (s : EmitState)
    (mode szidx sign : Nat) (h : (mode ≠ 0 ∨ 2 ≤ szidx) → sign = 0) :
    EmitsExactly env (GetIndirectDispatcherPtr env mode szidx sign) s
      (indirectSlot env mode szidx sign) [] := by
  by_cases hc : mode ≠ 0 ∨ 2 ≤ szidx
  · have := h hc
    subst this
    simp [EmitsExactly, emitAll, GetIndirectDispatcherPtr, indirectSlot, assert, hc, StateT.run,
      bind, StateT.bind, Except.bind, pure, StateT.pure, Except.pure]
  · simp [EmitsExactly, emitAll, GetIndirectDispatcherPtr, indirectSlot, assert, hc, StateT.run,
      bind, StateT.bind, Except.bind, pure, StateT.pure, Except.pure]
    omega

theorem EmitsExactly_IndirectDispatch (env : Env) (s : EmitState) (mode bits : Nat)
    (sign : Bool) (hb : Supported bits) (h : (mode ≠ 0 ∨ 2 ≤ szidxOf bits) → sign = false) :
    EmitsExactly env (DynGen_IndirectDispatch env mode bits sign) s ()
      [Instr.JS (indirectSlot env mode (szidxOf bits) (if sign then 1 else 0))] := by
  have hg := fun s1 => EmitsExactly_GetIndirectDispatcherPtr env s1 mode (szidxOf bits)
    (if sign then 1 else 0) (by intro hc; simp [h hc])
  unfold DynGen_IndirectDispatch
  rcases hb with rfl | rfl | rfl | rfl | rfl <;>
  · simp only [szidxOf] at hg
    norm_num at hg ⊢
    refine EmitsExactly_bind (hg s) (fun s1 _ => EmitsExactly_xEmit env _ s1) (by simp [szidxOf])

theorem EmitsExactly_DirectRead (env : Env) (s : EmitState) (bits : Nat) (sign : Bool)
    (hb : Supported bits) :
    EmitsExactly env (DynGen_DirectRead env bits sign) s ()
      (directReadCode s bits sign (xIndirect.atReg Reg.ecx 0)) := by
  unfold DynGen_DirectRead directReadCode
  rcases hb with rfl | rfl | rfl | rfl | rfl
  · cases sign <;> simpa using EmitsExactly_xEmit env _ s
  · cases sign <;> simpa using EmitsExactly_xEmit env _ s
  · simpa using EmitsExactly_xEmit env _ s
  · simpa using EmitsExactly_iMOV64_Smart env s _ _
  · simpa using EmitsExactly_iMOV128_SSE env s _ _

theorem EmitsExactly_DirectWrite (env : Env) (s : EmitState) (bits : Nat)
    (hb : Supported bits) :
    EmitsExactly env (DynGen_DirectWrite env bits) s ()
      (directWriteCode s bits (xIndirect.atReg Reg.ecx 0)) := by
  unfold DynGen_DirectWrite directWriteCode
  rcases hb with rfl | rfl | rfl | rfl | rfl
  · simpa using EmitsExactly_xEmit env _ s
  · simpa using EmitsExactly_xEmit env _ s
  · simpa using EmitsExactly_xEmit env _ s
  · simpa using EmitsExactly_iMOV64_Smart env s _ _
  · simpa using EmitsExactly_iMOV128_SSE env s _ _

theorem run_bind_exact {α β : Type} {env : Env} {e : Emit α} {f : α → Emit β}
    {s : EmitState} {a : α} {c1 : List Instr} {r : Except Fatal (β × EmitState)}
    (h1 : EmitsExactly env e s a c1) (h2 : (f a).run (emitAll env c1 s) = r) :
    (e >>= f).run s = r := by
  unfold EmitsExactly at h1
  rw [StateT.run_bind, h1]
  exact h2

theorem writeback_run (wb : Nat) (s : EmitState) :
    (xGetPtr >>= fun p => writeU32 wb p).run s = .ok ((), storeU32 wb s.x86Ptr s) := rfl

theorem EmitsExactly_pxAssume (env : Env) (s : EmitState) (c : Bool) (h : c = true) :
    EmitsExactly env (pxAssume c) s () [] := by
  subst h
  rfl

theorem storeU32_emitAll (env : Env) (wb : Nat) (c1 c2 c3 : List Instr) (s : EmitState) :
    storeU32 wb (emitAll env c3 (emitAll env c2 (emitAll env c1 s))).x86Ptr
        (emitAll env c3 (emitAll env c2 (emitAll env c1 s))) =
      storeU32 wb (endPos env s.x86Ptr (c1 ++ (c2 ++ c3))) (emitAll env (c1 ++ (c2 ++ c3)) s) := by
  rw [← emitAll_append, ← emitAll_append, emitAll_x86Ptr]

/-- Final generator state of the dynamic store emitter. -/
theorem run_DynGenWrite (env : Env) (s : EmitState) (bits : Nat) (hs : Supported bits) :
    (vtlb_DynGenWrite env bits).run s = .ok ((),
      storeU32 (writebackPtr env s.x86Ptr) (endPos env s.x86Ptr (dynCode env s true bits false))
        (emitAll env (dynCode env s true bits false) s)) := by
  unfold vtlb_DynGenWrite
  refine run_bind_exact (EmitsExactly_PrepRegs env s) ?_
  refine run_bind_exact (EmitsExactly_IndirectDispatch env _ 1 bits false hs (fun _ => rfl)) ?_
  refine run_bind_exact (EmitsExactly_DirectWrite env _ bits hs) ?_
  rw [writeback_run, storeU32_emitAll,
    directWriteCode_congr (SameAlloc_trans (emitAll_sameAlloc env _ _) (emitAll_sameAlloc env _ _))]
  rfl

/-- Final generator state of the dynamic 8/16/32-bit load emitter. -/
theorem run_DynGenRead32 (env : Env) (s : EmitState) (bits : Nat) (sign : Bool)
    (hb : bits = 8 ∨ bits = 16 ∨ bits = 32) :
    (vtlb_DynGenRead32 env bits sign).run s = .ok ((),
      storeU32 (writebackPtr env s.x86Ptr) (endPos env s.x86Ptr (dynCode env s false bits sign))
        (emitAll env (dynCode env s false bits sign) s)) := by
  have hs : Supported bits := by unfold Supported; omega
  have h64 : decide (bits < 64) = true := by simp; omega
  unfold vtlb_DynGenRead32
  refine run_bind_exact (EmitsExactly_pxAssume env s _ (by simp; omega)) ?_
  show (DynGen_PrepRegs env >>= _).run s = _
  refine run_bind_exact (EmitsExactly_PrepRegs env s) ?_
  refine run_bind_exact (EmitsExactly_IndirectDispatch env _ 0 bits _ hs ?_) ?_
  · intro hc
    rcases hb with rfl | rfl | rfl <;> simp [szidxOf] at hc ⊢
  refine run_bind_exact (EmitsExactly_DirectRead env _ bits sign hs) ?_
  rw [writeback_run, storeU32_emitAll,
    directReadCode_congr (SameAlloc_trans (emitAll_sameAlloc env _ _) (emitAll_sameAlloc env _ _))]
  simp only [dynCode, h64, Bool.and_true, Bool.not_false, Bool.true_and, Bool.false_eq_true,
    if_false]
  rfl

/-- Final generator state of the dynamic 64/128-bit load emitter. -/
theorem run_DynGenRead64 (env : Env) (s : EmitState) (bits : Nat) (sign : Bool)
    (hb : bits = 64 ∨ bits = 128) :
    (vtlb_DynGenRead64 env bits).run s = .ok ((),
      storeU32 (writebackPtr env s.x86Ptr) (endPos env s.x86Ptr (dynCode env s false bits sign))
        (emitAll env (dynCode env s false bits sign) s)) := by
  have hs : Supported bits := by unfold Supported; omega
  have h64 : decide (bits < 64) = false := by simp; omega
  have h32 : decide (bits < 32) = false := by simp; omega
  unfold vtlb_DynGenRead64
  refine run_bind_exact (EmitsExactly_pxAssume env s _ (by simp; omega)) ?_
  show (DynGen_PrepRegs env >>= _).run s = _
  refine run_bind_exact (EmitsExactly_PrepRegs env s) ?_
  refine run_bind_exact (EmitsExactly_IndirectDispatch env _ 0 bits false hs (fun _ => rfl)) ?_
  refine run_bind_exact (EmitsExactly_DirectRead env _ bits false hs) ?_
  rw [writeback_run, storeU32_emitAll,
    directReadCode_congr (SameAlloc_trans (emitAll_sameAlloc env _ _) (emitAll_sameAlloc env _ _))]
  simp only [dynCode, h64, h32, Bool.and_false, Bool.false_eq_true, if_false]
  rfl

/-- Final generator state of a dynamic-address emitter for a supported
width: the instructions of `dynCode` emitted, then the one store of the emit
position through the writeback pointer. -/
theorem run_dynGen (env : Env) (s : EmitState) (store : Bool) (bits : Nat) (sign : Bool)
    (hb : Supported bits) :
    (dynGen env store bits sign).run s = .ok ((),
      storeU32 (writebackPtr env s.x86Ptr) (endPos env s.x86Ptr (dynCode env s store bits sign))
        (emitAll env (dynCode env s store bits sign) s)) := by
  unfold dynGen
  cases store
  · by_cases h : bits < 64
    · simp only [Bool.false_eq_true, if_false, h, if_true]
      exact run_DynGenRead32 env s bits sign (by unfold Supported at hb; omega)
    · simp only [Bool.false_eq_true, if_false, h]
      exact run_DynGenRead64 env s bits sign (by unfold Supported at hb; omega)
  · simp only [if_true]
    have := run_DynGenWrite env s bits hb
    simpa [dynCode] using this

/-! ## The writeback patch -/

theorem patched_of_not_movImm (env : Env) (a v p : Nat) (i : Instr)
    (h : i.isMovImm = false) : Event.patched env a v (Event.ins p i) = Event.ins p i := by
  cases i <;> first | rfl | simp [Instr.isMovImm] at h

theorem map_patched_layout (env : Env) (a v : Nat) (c : List Instr)
    (h : ∀ i ∈ c, i.isMovImm = false) (q : Nat) :
    (layout env q c).map (Event.patched env a v) = layout env q c := by
  induction c generalizing q with
  | nil => rfl
  | cons i is ih =>
    simp only [layout, List.map_cons]
    rw [patched_of_not_movImm env a v q i (h i (List.mem_cons_self _ _)),
      ih (fun j hj => h j (List.mem_cons_of_mem _ hj))]

theorem foldl_applyEvent_layout (env : Env) (c : List Instr) (q : Nat) (acc : List Event) :
    (layout env q c).foldl (applyEvent env) acc = acc ++ layout env q c := by
  induction c generalizing q acc with
  | nil => simp [layout]
  | cons i is ih =>
    simp only [layout, List.foldl_cons, applyEvent]
    rw [ih]
    simp

theorem not_movImm_mov64Code (s : EmitState) (d src : xIndirect) :
    ∀ i ∈ mov64Code s d src, i.isMovImm = false := by
  unfold mov64Code
  split_ifs <;> simp [Instr.isMovImm]

theorem not_movImm_mov128Code (s : EmitState) (d src : xIndirect) :
    ∀ i ∈ mov128Code s d src, i.isMovImm = false := by
  unfold mov128Code
  split_ifs <;> simp [Instr.isMovImm]

theorem not_movImm_directReadCode (s : EmitState) (bits : Nat) (sign : Bool) (src : xIndirect) :
    ∀ i ∈ directReadCode s bits sign src, i.isMovImm = false := by
  unfold directReadCode
  split_ifs
  all_goals first
    | exact not_movImm_mov64Code s _ _
    | exact not_movImm_mov128Code s _ _
    | simp [Instr.isMovImm]

theorem not_movImm_directWriteCode (s : EmitState) (bits : Nat) (dst : xIndirect) :
    ∀ i ∈ directWriteCode s bits dst, i.isMovImm = false := by
  unfold directWriteCode
  split_ifs
  all_goals first
    | exact not_movImm_mov64Code s _ _
    | exact not_movImm_mov128Code s _ _
    | simp [Instr.isMovImm]

/-- The writeback pointer is the address of the last four bytes of
`mov ebx, 0xcdcdcdcd` when that instruction is at least four bytes long. -/
theorem writebackPtr_add (env : Env) (p : Nat)
    (h4 : 4 ≤ (env.enc (movEbxPos env p) (Instr.MOV_ri Reg.ebx 0xcdcdcdcd)).length) :
    writebackPtr env p + 4 =
      movEbxPos env p + (env.enc (movEbxPos env p) (Instr.MOV_ri Reg.ebx 0xcdcdcdcd)).length := by
  unfold writebackPtr
  have e : endPos env p ((prepRegsCode env).take 4) =
      movEbxPos env p + (env.enc (movEbxPos env p) (Instr.MOV_ri Reg.ebx 0xcdcdcdcd)).length := rfl
  rw [e]
  omega

/-- The instructions the trace of a dynamic-address emitter stands for: the
listing with the immediate of `mov ebx` replaced by the stored value. -/
theorem finalCode_dyn (env : Env) (s : EmitState) (store : Bool) (bits : Nat) (sign : Bool)
    (p v : Nat)
    (h4 : 4 ≤ (env.enc (movEbxPos env p) (Instr.MOV_ri Reg.ebx 0xcdcdcdcd)).length) :
    finalCode env (layout env p (dynCode env s store bits sign) ++
        [Event.patch (writebackPtr env p) v]) =
      (dynCode env s store bits sign).set 3 (Instr.MOV_ri Reg.ebx v) := by
  have hw := writebackPtr_add env p h4
  have e3 : movEbxPos env p =
      p + (env.enc p (Instr.MOV_rr Reg.eax Reg.ecx)).length +
        (env.enc (p + (env.enc p (Instr.MOV_rr Reg.eax Reg.ecx)).length)
          (Instr.SHR_ri Reg.eax env.VTLB_PAGE_BITS)).length +
        (env.enc (p + (env.enc p (Instr.MOV_rr Reg.eax Reg.ecx)).length +
          (env.enc (p + (env.enc p (Instr.MOV_rr Reg.eax Reg.ecx)).length)
            (Instr.SHR_ri Reg.eax env.VTLB_PAGE_BITS)).length)
          (Instr.MOV_rt Reg.eax Table.vmap Reg.eax)).length := rfl
  have hrest : ∀ i ∈ (Instr.JS (indirectSlot env (if store then 1 else 0) (szidxOf bits)
        (if (!store && sign && decide (bits < 32)) then 1 else 0)) ::
      (if store then directWriteCode s bits (xIndirect.atReg Reg.ecx 0)
       else directReadCode s bits (sign && decide (bits < 64)) (xIndirect.atReg Reg.ecx 0))),
      i.isMovImm = false := by
    intro i hi
    rcases List.mem_cons.1 hi with rfl | hi
    · rfl
    · split_ifs at hi
      · exact not_movImm_directWriteCode s _ _ i hi
      · exact not_movImm_directReadCode s _ _ _ i hi
  unfold finalCode
  rw [List.foldl_append, foldl_applyEvent_layout]
  simp only [List.foldl_cons, List.foldl_nil, applyEvent, List.nil_append]
  unfold dynCode
  rw [layout_append, List.map_append, List.filterMap_append, map_patched_layout env _ _ _ hrest,
    layout_instr]
  simp only [prepRegsCode, layout, List.map_cons, List.map_nil, Event.patched, ← e3, hw, if_true,
    List.filterMap_cons, Event.instr, List.filterMap_nil, List.cons_append, List.nil_append,
    List.set_cons_succ, List.set_cons_zero]

/-- The machine state the code of `DynGen_PrepRegs` leaves when the immediate
of its `mov ebx` is `v`. -/
theorem run_prepRegs_imm (env : Env) (hwf : env.WF) (m : Machine) (hA : m.ecx < 4294967296)
    (v : Nat) :
    run env [Instr.MOV_rr Reg.eax Reg.ecx, Instr.SHR_ri Reg.eax env.VTLB_PAGE_BITS,
        Instr.MOV_rt Reg.eax Table.vmap Reg.eax, Instr.MOV_ri Reg.ebx v,
        Instr.ADD_rr Reg.ecx Reg.eax] m = .next
      { m with
        eax := vmapEntry env m.ecx
        ebx := wrap32 v
        ecx := ppfOf env m.ecx
        sf := signBit32 (ppfOf env m.ecx)
        cf := decide (4294967296 ≤ m.ecx + vmapEntry env m.ecx) } := by
  have hp := pageIndex_eq env hwf m.ecx hA
  rw [wrap32_of_lt hA] at hp
  simp only [run, step, getReg, setReg, setFlags, tableRead, hp, vmapEntry, ppfOf,
    wrap32_wrap32, wrap32_of_lt hA, wrap32_add_wrap32_right, signBit32_wrap32]

/-- Running the code of a dynamic-address emitter whose `mov ebx` immediate
is `v`: on a handler page it leaves through the `js` with ebx = `v`, on a
direct-mapped page it falls through the direct path, or faults there when the
access is 128 bits wide and its address or data buffer is not a multiple of
16. -/
theorem run_dyn_patched (env : Env) (hwf : env.WF) (s : EmitState) (store : Bool) (bits : Nat)
    (sign : Bool) (hb : Supported bits) (v : Nat) (m : Machine) (hA : m.ecx < 4294967296) :
    (signBit32 (ppfOf env m.ecx) = true →
      ∃ m1, run env ((dynCode env s store bits sign).set 3 (Instr.MOV_ri Reg.ebx v)) m =
          .jump (indirectSlot env (if store then 1 else 0) (szidxOf bits)
            (if (!store && sign && decide (bits < 32)) then 1 else 0)) m1 ∧
        m1.ebx = wrap32 v ∧ m1.eax = vmapEntry env m.ecx ∧ m1.ecx = ppfOf env m.ecx ∧
        m1.edx = m.edx) ∧
    (signBit32 (ppfOf env m.ecx) = false →
      ∃ m1, if wideAligned bits m.edx (ppfOf env m.ecx) then
          run env ((dynCode env s store bits sign).set 3 (Instr.MOV_ri Reg.ebx v)) m = .next m1
        else
          run env ((dynCode env s store bits sign).set 3 (Instr.MOV_ri Reg.ebx v)) m =
            .fault m1) := by
  have hset : (dynCode env s store bits sign).set 3 (Instr.MOV_ri Reg.ebx v) =
      [Instr.MOV_rr Reg.eax Reg.ecx, Instr.SHR_ri Reg.eax env.VTLB_PAGE_BITS,
        Instr.MOV_rt Reg.eax Table.vmap Reg.eax, Instr.MOV_ri Reg.ebx v,
        Instr.ADD_rr Reg.ecx Reg.eax] ++
      Instr.JS (indirectSlot env (if store then 1 else 0) (szidxOf bits)
        (if (!store && sign && decide (bits < 32)) then 1 else 0)) ::
      (if store then directWriteCode s bits (xIndirect.atReg Reg.ecx 0)
       else directReadCode s bits (sign && decide (bits < 64)) (xIndirect.atReg Reg.ecx 0)) := rfl
  rw [hset, run_append, run_prepRegs_imm env hwf m hA v]
  constructor
  · intro hs
    refine ⟨{ m with
        eax := vmapEntry env m.ecx
        ebx := wrap32 v
        ecx := ppfOf env m.ecx
        sf := true
        cf := decide (4294967296 ≤ m.ecx + vmapEntry env m.ecx) }, ?_, rfl, rfl, rfl, rfl⟩
    simp only [run, step, hs, if_true]
  · intro hs
    have hp : wrap32 (ppfOf env m.ecx) = ppfOf env m.ecx := wrap32_of_lt (ppfOf_lt env _)
    have e1 : ea ({ m with
        eax := vmapEntry env m.ecx
        ebx := wrap32 v
        ecx := ppfOf env m.ecx
        sf := signBit32 (ppfOf env m.ecx)
        cf := decide (4294967296 ≤ m.ecx + vmapEntry env m.ecx) } : Machine)
        (xIndirect.atReg Reg.ecx 0) = ppfOf env m.ecx := by
      simp only [ea, getReg, Nat.add_zero, hp]
    by_cases hal : wideAligned bits m.edx (ppfOf env m.ecx)
    · obtain ⟨m1, h1, -⟩ := run_direct env s store bits sign (xIndirect.atReg Reg.ecx 0)
        { m with
          eax := vmapEntry env m.ecx
          ebx := wrap32 v
          ecx := ppfOf env m.ecx
          sf := signBit32 (ppfOf env m.ecx)
          cf := decide (4294967296 ≤ m.ecx + vmapEntry env m.ecx) } hb rfl
        (by rw [e1]; exact hal)
      refine ⟨m1, ?_⟩
      rw [hs] at h1
      rw [if_pos hal]
      simp only [run, step, hs, Bool.false_eq_true, if_false]
      exact h1
    · have h128 : bits = 128 := by
        by_contra hne
        exact hal (fun h => absurd h hne)
      subst h128
      obtain ⟨mf, h1, -⟩ := run_direct_fault env s store sign (xIndirect.atReg Reg.ecx 0)
        { m with
          eax := vmapEntry env m.ecx
          ebx := wrap32 v
          ecx := ppfOf env m.ecx
          sf := signBit32 (ppfOf env m.ecx)
          cf := decide (4294967296 ≤ m.ecx + vmapEntry env m.ecx) }
        (by rw [e1]; exact hal)
      refine ⟨mf, ?_⟩
      rw [hs] at h1
      rw [if_neg hal]
      simp only [run, step, hs, Bool.false_eq_true, if_false]
      exact h1

/-- An indirect dispatcher leaves through `jmp ebx` with the value ebx had on
entry, when handlers preserve ebx (callee-saved in the calling convention). -/
theorem run_trampCode (env : Env) (habi : ∀ fn mm, (env.handler fn mm).ebx = mm.ebx)
    (mode k : Nat) (sign : Bool) (m : Machine) :
    ∃ m2, run env (trampCode mode k sign) m = .jump m.ebx m2 := by
  obtain ⟨mh, m2, h1, h2, -, -⟩ := run_dispatcher env mode k sign m
  rw [run_dispatcherCall] at h1
  cases h1
  refine ⟨m2, ?_⟩
  unfold trampCode
  rw [h2]
  simp only [habi]

theorem Emits_trampCode (env : Env) (s : EmitState) (mode k : Nat) (sign : Bool) :
    Emits (DynGen_IndirectTlbDispatcher env mode k sign) s () (trampCode mode k sign) :=
  Emits_IndirectTlbDispatcher env s mode k sign

/-- C12. Writeback patch. For every dynamic-address emitter call
(`vtlb_DynGenRead32`, `vtlb_DynGenRead64`, `vtlb_DynGenWrite`) with a
supported width, started at any stream position, with an encoder that puts
the immediate of `mov r, imm32` in the last four bytes of the instruction:
the call returns normally; the emit position at return is the position
immediately following the direct-path instructions; the trace is the
instructions of the listing from the start position followed by exactly one
store, of that emit position, at the writeback pointer; the writeback pointer
is the address of the last four bytes (the immediate, emitted as the
placeholder 0xcdcdcdcd) of the `mov ebx, imm32` of `DynGen_PrepRegs`; after
the call those four bytes hold the emit position and every other byte is as
emission left it; the allocator state is unchanged. Hence the code stands for
the listing with `mov ebx, <emit position at return>`: on a handler page it
leaves through the `js` with ebx equal to that position, and the indirect
dispatcher, whose handler call preserves ebx, leaves through `jmp ebx` to
that position, the same place the direct path falls through to (a 128-bit
direct access whose address or data buffer is not a multiple of 16 faults
instead of falling through). -/
theorem writeback_patch (env : Env) (s : EmitState) (store : Bool) (bits : Nat) (sign : Bool)
    (hb : Supported bits)
    (hEnc : ∀ p r v, ∃ pre, env.enc p (Instr.MOV_ri r v) = pre ++ toLE 4 v) :
    ∃ s1 pre,
      (dynGen env store bits sign).run s = .ok ((), s1) ∧
      s1.x86Ptr = endPos env s.x86Ptr (dynCode env s store bits sign) ∧
      s1.log = s.log ++ layout env s.x86Ptr (dynCode env s store bits sign) ++
        [Event.patch (writebackPtr env s.x86Ptr) s1.x86Ptr] ∧
      Event.ins (movEbxPos env s.x86Ptr) (Instr.MOV_ri Reg.ebx 0xcdcdcdcd) ∈
        layout env s.x86Ptr (dynCode env s store bits sign) ∧
      env.enc (movEbxPos env s.x86Ptr) (Instr.MOV_ri Reg.ebx 0xcdcdcdcd) =
        pre ++ toLE 4 0xcdcdcdcd ∧
      writebackPtr env s.x86Ptr = movEbxPos env s.x86Ptr + pre.length ∧
      readBytes s1.bytes (writebackPtr env s.x86Ptr) 4 = toLE 4 s1.x86Ptr ∧
      (∀ a, (∀ i, i < 4 → wrap32 (writebackPtr env s.x86Ptr + i) ≠ a) →
        s1.bytes a = (emitAll env (dynCode env s store bits sign) s).bytes a) ∧
      SameAlloc s1 s ∧
      finalCode env (s1.log.drop s.log.length) =
        (dynCode env s store bits sign).set 3 (Instr.MOV_ri Reg.ebx s1.x86Ptr) ∧
      (∀ m : Machine, env.WF → m.ecx < 4294967296 →
        (signBit32 (ppfOf env m.ecx) = true →
          ∃ m1, run env (finalCode env (s1.log.drop s.log.length)) m =
              .jump (indirectSlot env (if store then 1 else 0) (szidxOf bits)
                (if (!store && sign && decide (bits < 32)) then 1 else 0)) m1 ∧
            m1.ebx = wrap32 s1.x86Ptr ∧
            ((∀ fn mm, (env.handler fn mm).ebx = mm.ebx) →
              ∃ m2, run env (trampCode (if store then 1 else 0) (szidxOf bits)
                (!store && sign && decide (bits < 32))) m1 = .jump (wrap32 s1.x86Ptr) m2)) ∧
        (signBit32 (ppfOf env m.ecx) = false →
          ∃ m1, if wideAligned bits m.edx (ppfOf env m.ecx) then
              run env (finalCode env (s1.log.drop s.log.length)) m = .next m1
            else run env (finalCode env (s1.log.drop s.log.length)) m = .fault m1)) := by
  obtain ⟨pre, hpre⟩ := hEnc (movEbxPos env s.x86Ptr) Reg.ebx 0xcdcdcdcd
  have h4 : 4 ≤ (env.enc (movEbxPos env s.x86Ptr) (Instr.MOV_ri Reg.ebx 0xcdcdcdcd)).length := by
    rw [hpre, List.length_append, toLE_length]
    omega
  have hw := writebackPtr_add env s.x86Ptr h4
  have hlog : (storeU32 (writebackPtr env s.x86Ptr)
      (endPos env s.x86Ptr (dynCode env s store bits sign))
      (emitAll env (dynCode env s store bits sign) s)).log =
      s.log ++ (layout env s.x86Ptr (dynCode env s store bits sign) ++
        [Event.patch (writebackPtr env s.x86Ptr)
          (endPos env s.x86Ptr (dynCode env s store bits sign))]) := by
    simp only [storeU32, emitAll_log, List.append_assoc]
  have hfc : finalCode env ((storeU32 (writebackPtr env s.x86Ptr)
      (endPos env s.x86Ptr (dynCode env s store bits sign))
      (emitAll env (dynCode env s store bits sign) s)).log.drop s.log.length) =
      (dynCode env s store bits sign).set 3
        (Instr.MOV_ri Reg.ebx (endPos env s.x86Ptr (dynCode env s store bits sign))) := by
    rw [hlog, List.drop_left]
    exact finalCode_dyn env s store bits sign s.x86Ptr _ h4
  have hptr : (storeU32 (writebackPtr env s.x86Ptr)
      (endPos env s.x86Ptr (dynCode env s store bits sign))
      (emitAll env (dynCode env s store bits sign) s)).x86Ptr =
      endPos env s.x86Ptr (dynCode env s store bits sign) := emitAll_x86Ptr env _ s
  refine ⟨_, pre, run_dynGen env s store bits sign hb, hptr, ?_, ?_, hpre, ?_, ?_, ?_, ?_, ?_, ?_⟩
  · rw [hlog, hptr, List.append_assoc]
  · have e : dynCode env s store bits sign =
        (prepRegsCode env).take 3 ++ (Instr.MOV_ri Reg.ebx 0xcdcdcdcd ::
          (Instr.ADD_rr Reg.ecx Reg.eax ::
            Instr.JS (indirectSlot env (if store then 1 else 0) (szidxOf bits)
              (if (!store && sign && decide (bits < 32)) then 1 else 0)) ::
            (if store then directWriteCode s bits (xIndirect.atReg Reg.ecx 0)
             else directReadCode s bits (sign && decide (bits < 64))
               (xIndirect.atReg Reg.ecx 0)))) := rfl
    rw [e, layout_append]
    apply List.mem_append_right
    exact List.mem_cons_self _ _
  · rw [hpre, List.length_append, toLE_length] at hw
    omega
  · rw [hptr]
    have := readBytes_writeBytes_same (emitAll env (dynCode env s store bits sign) s).bytes
      (writebackPtr env s.x86Ptr)
      (toLE 4 (endPos env s.x86Ptr (dynCode env s store bits sign)))
      (by rw [toLE_length]; norm_num) (toLE_lt 4 _)
    rw [toLE_length] at this
    exact this
  · intro a ha
    apply writeBytes_outside
    intro i hi
    rw [toLE_length] at hi
    exact ha i hi
  · exact emitAll_sameAlloc env _ s
  · rw [hfc, hptr]
  · intro m hwf hA
    rw [hfc, hptr]
    obtain ⟨hj, hn⟩ := run_dyn_patched env hwf s store bits sign hb
      (endPos env s.x86Ptr (dynCode env s store bits sign)) m hA
    refine ⟨fun hs => ?_, hn⟩
    obtain ⟨m1, h1, h2, -⟩ := hj hs
    refine ⟨m1, h1, h2, fun habi => ?_⟩
    obtain ⟨m2, hm2⟩ := run_trampCode env habi (if store then 1 else 0) (szidxOf bits)
      (!store && sign && decide (bits < 32)) m1
    exact ⟨m2, by rw [hm2, h2]⟩

theorem writeback_patch_witness :
    Supported 32 ∧
      (∀ p r v, ∃ pre, env1.enc p (Instr.MOV_ri r v) = pre ++ toLE 4 v) ∧
      ∃ s1, (dynGen env1 true 32 false).run es0 = .ok ((), s1) ∧
        s1.x86Ptr = 0x60000B ∧
        s1.log.drop 7 = [Event.patch 0x600004 0x60000B] ∧
        readBytes s1.bytes 0x600004 4 = [0x0B, 0x00, 0x60, 0x00] := by
  refine ⟨by decide, fun p r v => ⟨[0xBB], rfl⟩, ?_⟩
  obtain ⟨s1, pre, h1, h2, h3, -, -, -, h7, -⟩ :=
    writeback_patch env1 es0 true 32 false (by decide) (fun p r v => ⟨[0xBB], rfl⟩)
  have e : endPos env1 es0.x86Ptr (dynCode env1 es0 true 32 false) = 0x60000B := by decide
  have w : writebackPtr env1 es0.x86Ptr = 0x600004 := by decide
  rw [e] at h2
  rw [w] at h3 h7
  refine ⟨s1, h1, h2, ?_, ?_⟩
  · rw [h3, h2]
    rfl
  · rw [h7, h2]
    rfl

/-! ## The trace of the one-time initialisation -/

theorem run_bind_ok {α β : Type} {e : Emit α} {f : α → Emit β} {s s1 : EmitState} {a : α}
    {r : Except Fatal (β × EmitState)} (h1 : e.run s = .ok (a, s1)) (h2 : (f a).run s1 = r) :
    (e >>= f).run s = r := by
  rw [StateT.run_bind, h1]
  exact h2

theorem EmitsExactly_trampCode (env : Env) (s : EmitState) (mode bits : Nat) (sign : Bool) :
    EmitsExactly env (DynGen_IndirectTlbDispatcher env mode bits sign) s ()
      (trampCode mode bits sign) := by
  unfold DynGen_IndirectTlbDispatcher trampCode dispatcherCallCode
  refine EmitsExactly_bind (EmitsExactly_xEmit env _ s) (fun s1 _ => ?_) rfl
  refine EmitsExactly_bind (EmitsExactly_xEmit env _ s1) (fun s2 _ => ?_) rfl
  refine EmitsExactly_bind (EmitsExactly_xEmit env _ s2) (fun s3 _ => ?_) rfl
  refine EmitsExactly_bind (EmitsExactly_xEmit env _ s3) (fun s4 _ => ?_) rfl
  unfold extCode
  by_cases hm : mode = 0
  · by_cases h0 : bits = 0
    · cases sign <;> simp only [hm, h0, if_true] <;>
        exact EmitsExactly_bind (EmitsExactly_xEmit env _ s4)
          (fun s5 _ => EmitsExactly_xEmit env _ s5) rfl
    · by_cases h1 : bits = 1
      · cases sign <;> simp only [hm, h1, if_true] <;>
          exact EmitsExactly_bind (EmitsExactly_xEmit env _ s4)
            (fun s5 _ => EmitsExactly_xEmit env _ s5) rfl
      · simp only [hm, h0, h1, if_true, if_false]
        exact EmitsExactly_bind (EmitsExactly_pure env s4 _)
          (fun s5 _ => EmitsExactly_xEmit env _ s5) rfl
  · simp only [hm, if_false]
    exact EmitsExactly_bind (EmitsExactly_pure env s4 _)
      (fun s5 _ => EmitsExactly_xEmit env _ s5) rfl

theorem EmitsExactly_GetFullTlbDispatcherPtr (env : Env) (s : EmitState) (mode k sign : Nat)
    (hk : k ≤ 4) (h : (mode ≠ 0 ∨ 2 ≤ k) → sign = 0) :
    EmitsExactly env (GetFullTlbDispatcherPtr env mode k sign) s (fullSlot env mode k sign) [] := by
  have hk6 : ¬ k > 6 := by omega
  by_cases hc : mode ≠ 0 ∨ 2 ≤ k
  · have := h hc
    subst this
    simp [EmitsExactly, emitAll, fullSlot, GetFullTlbDispatcherPtr, assert, hc, hk6, StateT.run,
      bind, StateT.bind, Except.bind, pure, StateT.pure, Except.pure]
  · simp [EmitsExactly, emitAll, fullSlot, GetFullTlbDispatcherPtr, assert, hc, hk6, StateT.run,
      bind, StateT.bind, Except.bind, pure, StateT.pure, Except.pure]
    omega

/-- The direct-path load emitter called with a width class 0..4. -/
theorem EmitsExactly_DirectRead_class (env : Env) (s : EmitState) (k : Nat) (sign : Bool)
    (hk : k ≤ 4) :
    EmitsExactly env (DynGen_DirectRead env k sign) s ()
      (directReadCode s (classWidth k) sign (xIndirect.atReg Reg.ecx 0)) := by
  unfold DynGen_DirectRead directReadCode classWidth
  have : k = 0 ∨ k = 1 ∨ k = 2 ∨ k = 3 ∨ k = 4 := by omega
  rcases this with rfl | rfl | rfl | rfl | rfl
  · cases sign <;> simpa using EmitsExactly_xEmit env _ s
  · cases sign <;> simpa using EmitsExactly_xEmit env _ s
  · simpa using EmitsExactly_xEmit env _ s
  · simpa using EmitsExactly_iMOV64_Smart env s _ _
  · simpa using EmitsExactly_iMOV128_SSE env s _ _

/-- The direct-path store emitter called with a width class 0..4. -/
theorem EmitsExactly_DirectWrite_class (env : Env) (s : EmitState) (k : Nat) (hk : k ≤ 4) :
    EmitsExactly env (DynGen_DirectWrite env k) s ()
      (directWriteCode s (classWidth k) (xIndirect.atReg Reg.ecx 0)) := by
  unfold DynGen_DirectWrite directWriteCode classWidth
  have : k = 0 ∨ k = 1 ∨ k = 2 ∨ k = 3 ∨ k = 4 := by omega
  rcases this with rfl | rfl | rfl | rfl | rfl
  · simpa using EmitsExactly_xEmit env _ s
  · simpa using EmitsExactly_xEmit env _ s
  · simpa using EmitsExactly_xEmit env _ s
  · simpa using EmitsExactly_iMOV64_Smart env s _ _
  · simpa using EmitsExactly_iMOV128_SSE env s _ _

theorem fullCode_congr {s1 s : EmitState} (h : SameAlloc s1 s) (env : Env) (mode k : Nat)
    (sign : Bool) : fullCode env s1 mode k sign = fullCode env s mode k sign := by
  simp only [fullCode, directReadCode_congr h, directWriteCode_congr h]

theorem EmitsExactly_FullTlbDispatcher (env : Env) (s : EmitState) (mode k : Nat) (sign : Bool)
    (hk : k ≤ 4) (h : (mode ≠ 0 ∨ 2 ≤ k) → sign = false) :
    EmitsExactly env (DynGen_FullTlbDispatcher env mode k sign) s () (fullCode env s mode k sign) := by
  unfold DynGen_FullTlbDispatcher Profiler_EmitSlowMem fullCode
  refine EmitsExactly_bind (EmitsExactly_pure env s _) (fun s0 h0 => ?_) (List.nil_append _).symm
  refine EmitsExactly_bind (EmitsExactly_xEmit env _ s0) (fun s1 h1 => ?_) rfl
  refine EmitsExactly_bind (EmitsExactly_xEmit env _ s1) (fun s2 h2 => ?_) rfl
  refine EmitsExactly_bind (EmitsExactly_xEmit env _ s2) (fun s3 h3 => ?_) rfl
  refine EmitsExactly_bind (EmitsExactly_xEmit env _ s3) (fun s4 h4 => ?_) rfl
  refine EmitsExactly_bind (EmitsExactly_GetIndirectDispatcherPtr env s4 mode k
    (if sign then 1 else 0) (by intro hc; simp [h hc])) (fun s5 h5 => ?_) (List.nil_append _).symm
  refine EmitsExactly_bind (EmitsExactly_xEmit env _ s5) (fun s6 h6 => ?_) rfl
  have hs6 : SameAlloc s6 s :=
    SameAlloc_trans h6 (SameAlloc_trans h5 (SameAlloc_trans h4 (SameAlloc_trans h3
      (SameAlloc_trans h2 (SameAlloc_trans h1 h0)))))
  dsimp only
  split_ifs with hm
  · refine EmitsExactly_bind (EmitsExactly_DirectWrite_class env s6 k hk)
      (fun s7 _ => EmitsExactly_xEmit env _ s7) ?_
    rw [directWriteCode_congr hs6]
  · refine EmitsExactly_bind (EmitsExactly_DirectRead_class env s6 k sign hk)
      (fun s7 _ => EmitsExactly_xEmit env _ s7) ?_
    rw [directReadCode_congr hs6]

theorem setPtrState_sameAlloc (p : Nat) (s : EmitState) : SameAlloc (setPtrState p s) s :=
  ⟨rfl, rfl, rfl, rfl, rfl⟩

theorem xSetPtr_run (p : Nat) (s : EmitState) : (xSetPtr p).run s = .ok ((), setPtrState p s) :=
  rfl

/-- One pass of the innermost loop body of `vtlb_dynarec_init`. -/
theorem run_init_slot (env : Env) (s : EmitState) (mode k sg : Nat) (hk : k ≤ 4)
    (hsg : sg ≤ 1) (h : (mode ≠ 0 ∨ 2 ≤ k) → sg = 0) :
    (vtlb_dynarec_init_slot env mode k sg).run s = .ok ((), slotState env mode k sg s) := by
  have e1 : (if sg ≠ 0 then 1 else 0) = sg := by
    split_ifs <;> omega
  have hb : (mode ≠ 0 ∨ 2 ≤ k) → decide (sg ≠ 0) = false := by
    intro hc; simp [h hc]
  unfold vtlb_dynarec_init_slot slotState
  rw [e1]
  refine run_bind_exact (EmitsExactly_GetIndirectDispatcherPtr env s mode k sg h) ?_
  refine run_bind_ok (xSetPtr_run _ _) ?_
  refine run_bind_exact (EmitsExactly_trampCode env _ mode k _) ?_
  refine run_bind_exact (EmitsExactly_GetFullTlbDispatcherPtr env _ mode k sg hk h) ?_
  refine run_bind_ok (xSetPtr_run _ _) ?_
  have hfull := EmitsExactly_FullTlbDispatcher env
    (setPtrState (fullSlot env mode k sg)
      (emitAll env []
        (emitAll env (trampCode mode k (decide (sg ≠ 0)))
          (setPtrState (indirectSlot env mode k sg) (emitAll env [] s)))))
    mode k (decide (sg ≠ 0)) hk hb
  unfold EmitsExactly at hfull
  rw [hfull]
  have hsame : SameAlloc
      (setPtrState (fullSlot env mode k sg)
        (emitAll env []
          (emitAll env (trampCode mode k (decide (sg ≠ 0)))
            (setPtrState (indirectSlot env mode k sg) (emitAll env [] s))))) s :=
    SameAlloc_trans (setPtrState_sameAlloc _ _)
      (SameAlloc_trans (emitAll_sameAlloc env _ _)
        (SameAlloc_trans (emitAll_sameAlloc env _ _)
          (SameAlloc_trans (setPtrState_sameAlloc _ _) (emitAll_sameAlloc env _ _))))
  rw [fullCode_congr hsame]
  rfl

theorem slotState_sameAlloc (env : Env) (mode k sg : Nat) (s : EmitState) :
    SameAlloc (slotState env mode k sg s) s :=
  SameAlloc_trans (emitAll_sameAlloc env _ _)
    (SameAlloc_trans (setPtrState_sameAlloc _ _)
      (SameAlloc_trans (emitAll_sameAlloc env _ _) (setPtrState_sameAlloc _ _)))

theorem slotState_log (env : Env) (mode k sg : Nat) (s : EmitState) :
    (slotState env mode k sg s).log = s.log ++ slotEvents env s mode k sg := by
  unfold slotState slotEvents
  rw [emitAll_log]
  simp only [setPtrState, emitAll_log, List.append_assoc, List.cons_append, List.nil_append,
    List.singleton_append]

theorem slotEvents_congr {s1 s : EmitState} (h : SameAlloc s1 s) (env : Env) (mode k sg : Nat) :
    slotEvents env s1 mode k sg = slotEvents env s mode k sg := by
  simp only [slotEvents, fullCode_congr h]

theorem forM_run_foldl {α : Type} (f : α → Emit PUnit) (g : α → EmitState → EmitState)
    (l : List α) (h : ∀ x ∈ l, ∀ st, (f x).run st = .ok (PUnit.unit, g x st)) :
    ∀ s, (l.forM f).run s = .ok (PUnit.unit, l.foldl (fun st x => g x st) s) := by
  induction l with
  | nil => intro s; rfl
  | cons x xs ih =>
    intro s
    show (f x >>= fun _ => xs.forM f).run s = _
    exact run_bind_ok (h x (List.mem_cons_self _ _) s)
      (ih (fun y hy => h y (List.mem_cons_of_mem _ hy)) _)

/-- The three nested loops of `vtlb_dynarec_init` run to completion. -/
theorem run_init_loops (env : Env) (s : EmitState) :
    (vtlb_dynarec_init_loops env).run s = .ok ((), loopsState env s) := by
  unfold vtlb_dynarec_init_loops loopsState
  refine forM_run_foldl _ (fun mode st =>
    [0, 1, 2, 3, 4].foldl (fun st bits =>
      (List.range (if mode = 0 ∧ bits < 2 then 2 else 1)).foldl (fun st sign =>
        slotState env mode bits sign st) st) st) _ (fun mode _ s1 => ?_) s
  refine forM_run_foldl _ (fun bits st =>
      (List.range (if mode = 0 ∧ bits < 2 then 2 else 1)).foldl (fun st sign =>
        slotState env mode bits sign st) st) _ (fun bits hbits s2 => ?_) s1
  refine forM_run_foldl _ (fun sign st => slotState env mode bits sign st) _
    (fun sg hsg s3 => ?_) s2
  have hk : bits ≤ 4 := by
    simp only [List.mem_cons, List.mem_singleton, List.not_mem_nil, or_false] at hbits
    omega
  have hsg1 : sg ≤ 1 := by
    rw [List.mem_range] at hsg
    split_ifs at hsg <;> omega
  refine run_init_slot env s3 mode bits sg hk hsg1 ?_
  intro hc
  have hn : ¬ (mode = 0 ∧ bits < 2) := by omega
  rw [if_neg hn] at hsg
  simpa using hsg

theorem foldl_log {α : Type} (g : α → EmitState → EmitState) (G : α → List Event)
    (s0 : EmitState) (l : List α)
    (h : ∀ x ∈ l, ∀ st, SameAlloc st s0 →
      (g x st).log = st.log ++ G x ∧ SameAlloc (g x st) s0) :
    ∀ st, SameAlloc st s0 →
      (l.foldl (fun st x => g x st) st).log = st.log ++ l.flatMap G ∧
        SameAlloc (l.foldl (fun st x => g x st) st) s0 := by
  induction l with
  | nil => intro st hst; exact ⟨by simp, hst⟩
  | cons x xs ih =>
    intro st hst
    obtain ⟨h1, h2⟩ := h x (List.mem_cons_self _ _) st hst
    obtain ⟨h3, h4⟩ := ih (fun y hy => h y (List.mem_cons_of_mem _ hy)) (g x st) h2
    refine ⟨?_, h4⟩
    simp only [List.foldl_cons, List.flatMap_cons]
    rw [h3, h1, List.append_assoc]

/-- The trace and the allocator state the three loops leave. -/
theorem loopsState_log (env : Env) (s : EmitState) :
    (loopsState env s).log = s.log ++ loopEvents env s ∧ SameAlloc (loopsState env s) s := by
  have h := foldl_log
    (fun mode st =>
      [0, 1, 2, 3, 4].foldl (fun st bits =>
        (List.range (if mode = 0 ∧ bits < 2 then 2 else 1)).foldl (fun st sign =>
          slotState env mode bits sign st) st) st)
    (fun mode => [0, 1, 2, 3, 4].flatMap fun bits =>
      (List.range (if mode = 0 ∧ bits < 2 then 2 else 1)).flatMap fun sign =>
        slotEvents env s mode bits sign)
    s [0, 1] (fun mode _ s1 h1 =>
      foldl_log
        (fun bits st =>
          (List.range (if mode = 0 ∧ bits < 2 then 2 else 1)).foldl (fun st sign =>
            slotState env mode bits sign st) st)
        (fun bits => (List.range (if mode = 0 ∧ bits < 2 then 2 else 1)).flatMap fun sign =>
          slotEvents env s mode bits sign)
        s [0, 1, 2, 3, 4] (fun bits _ s2 h2 =>
          foldl_log (fun sign st => slotState env mode bits sign st)
            (fun sign => slotEvents env s mode bits sign) s _
            (fun sg _ s3 h3 =>
              ⟨by rw [slotState_log, slotEvents_congr h3],
                SameAlloc_trans (slotState_sameAlloc env mode bits sg s3) h3⟩) s2 h2) s1 h1)
    s (SameAlloc_refl s)
  refine ⟨?_, h.2⟩
  unfold loopsState
  rw [h.1]
  congr 1
  simp [loopEvents, initTriples, List.range_succ, List.flatMap_cons, List.flatMap_nil]

/-- The first call of `vtlb_dynarec_init` ends in `initState`. -/
theorem run_init_first (env : Env) (s : EmitState) (h : s.hasBeenCalled = false) :
    (vtlb_dynarec_init env).run s = .ok ((), initState env s) := by
  have hr := run_init_loops env (initStart env s)
  simp only [StateT.run, initStart] at hr
  simp [vtlb_dynarec_init, initState, initStart, StateT.run, bind, StateT.bind, get, getThe,
    MonadStateOf.get, StateT.get, Except.bind, pure, Except.pure, StateT.pure, h, modify,
    modifyGet, MonadStateOf.modifyGet, StateT.modifyGet, MemProtectStatic, memset_8]
  rw [hr]

theorem loopEvents_initStart (env : Env) (s : EmitState) :
    loopEvents env (initStart env s) = loopEvents env s := rfl

theorem initState_log (env : Env) (s : EmitState) :
    (initState env s).log =
      s.log ++ Event.protect PageAccess.ReadWrite ::
        ((Event.memset 0xcc 0x1000 :: loopEvents env s) ++
          [Event.protect PageAccess.ExecOnly]) := by
  have h := (loopsState_log env (initStart env s)).1
  rw [loopEvents_initStart] at h
  show (loopsState env (initStart env s)).log ++ [Event.protect PageAccess.ExecOnly] = _
  rw [h]
  simp [initStart]

theorem initState_called (env : Env) (s : EmitState) : (initState env s).hasBeenCalled = true := by
  have h := (loopsState_log env (initStart env s)).2.2.2.2.1
  unfold initState
  dsimp only
  rw [h]
  rfl

theorem initState_prot (env : Env) (s : EmitState) :
    (initState env s).prot = PageAccess.ExecOnly := rfl

theorem layout_events (env : Env) (p : Nat) (c : List Instr) :
    ∀ e ∈ layout env p c, ∃ q i, e = Event.ins q i := by
  induction c generalizing p with
  | nil => intro e he; cases he
  | cons i is ih =>
    intro e he
    rcases List.mem_cons.1 he with rfl | he
    · exact ⟨p, i, rfl⟩
    · exact ih _ e he

theorem slotEvents_events (env : Env) (s : EmitState) (mode k sg : Nat) :
    ∀ e ∈ slotEvents env s mode k sg, (∃ p, e = Event.setPtr p) ∨ ∃ q i, e = Event.ins q i := by
  intro e he
  unfold slotEvents at he
  rcases List.mem_append.1 he with h | h
  · rcases List.mem_cons.1 h with rfl | h
    · exact Or.inl ⟨_, rfl⟩
    · exact Or.inr (layout_events env _ _ e h)
  · rcases List.mem_cons.1 h with rfl | h
    · exact Or.inl ⟨_, rfl⟩
    · exact Or.inr (layout_events env _ _ e h)

theorem loopEvents_events (env : Env) (s : EmitState) :
    ∀ e ∈ loopEvents env s, (∃ p, e = Event.setPtr p) ∨ ∃ q i, e = Event.ins q i := by
  intro e he
  unfold loopEvents at he
  obtain ⟨t, -, ht⟩ := List.mem_flatMap.1 he
  exact slotEvents_events env s _ _ _ e ht

theorem nothing_after_last {α : Type} (A pre post : List α) (x : α) (hx : x ∉ A)
    (h : A ++ [x] = pre ++ x :: post) : post = [] := by
  induction A generalizing pre with
  | nil =>
    cases pre with
    | nil => simpa using h.symm
    | cons b pre1 =>
      simp only [List.nil_append, List.cons_append, List.cons.injEq] at h
      have := congrArg List.length h.2
      simp at this
      omega
  | cons a A1 ih =>
    cases pre with
    | nil =>
      simp only [List.cons_append, List.nil_append, List.cons.injEq] at h
      exact absurd (List.mem_cons.2 (Or.inl h.1.symm)) hx
    | cons b pre1 =>
      simp only [List.cons_append, List.cons.injEq] at h
      exact ih pre1 (fun hm => hx (List.mem_cons_of_mem _ hm)) h.2

theorem between_first_and_last {α : Type} (x y e : α) (mid pre post : List α)
    (h : x :: (mid ++ [y]) = pre ++ e :: post) (hx : e ≠ x) (hy : e ≠ y) :
    x ∈ pre ∧ y ∈ post := by
  cases pre with
  | nil =>
    simp only [List.nil_append, List.cons.injEq] at h
    exact absurd h.1.symm hx
  | cons b pre1 =>
    simp only [List.cons_append, List.cons.injEq] at h
    obtain ⟨rfl, h2⟩ := h
    refine ⟨List.mem_cons_self _ _, ?_⟩
    rcases List.append_eq_append_iff.1 h2 with ⟨a1, -, h4⟩ | ⟨c1, -, h4⟩
    · cases a1 with
      | nil =>
        simp only [List.nil_append, List.cons.injEq] at h4
        exact absurd h4.1.symm hy
      | cons a a2 =>
        simp only [List.cons_append, List.cons.injEq] at h4
        have := congrArg List.length h4.2
        simp at this
        omega
    · cases c1 with
      | nil =>
        simp only [List.nil_append, List.cons.injEq] at h4
        exact absurd h4.1 hy
      | cons c c2 =>
        simp only [List.cons_append, List.cons.injEq] at h4
        rw [h4.2]
        simp

/-- C15. Temporal order of the initialisation. In every sequence of N >= 1
invocations of `vtlb_dynarec_init` from the uninitialised state (guard flag
clear), the trace the sequence appends is: the protection change to
read-write, then the 0xcc fill of the buffer, then the emission of the
dispatchers (moves of the emit position and emitted instructions only), then
the protection change to execute-only, and nothing after it. So the
protection of the dispatcher page changes exactly twice in total, to
read-write and then to execute-only; every write (the fill and every emitted
instruction) lies between the two changes; no write and no protection change
follows the change to execute-only; the page is execute-only at the end. -/
theorem init_protection_order (env : Env) (s : EmitState) (hs : s.hasBeenCalled = false)
    (N : Nat) (hN : 1 ≤ N) :
    ∃ s1 mid,
      (vtlb_dynarec_init_times env N).run s = .ok ((), s1) ∧
      s1.log = s.log ++ Event.protect PageAccess.ReadWrite ::
        (mid ++ [Event.protect PageAccess.ExecOnly]) ∧
      mid = Event.memset 0xcc 0x1000 :: loopEvents env s ∧
      (∀ e ∈ mid, e.isProtect = false) ∧
      (∀ e ∈ loopEvents env s, (∃ p, e = Event.setPtr p) ∨ ∃ q i, e = Event.ins q i) ∧
      (s1.log.drop s.log.length).filter Event.isProtect =
        [Event.protect PageAccess.ReadWrite, Event.protect PageAccess.ExecOnly] ∧
      (∀ pre post, s1.log.drop s.log.length = pre ++ Event.protect PageAccess.ExecOnly :: post →
        post = []) ∧
      (∀ pre e post, s1.log.drop s.log.length = pre ++ e :: post → e.isWrite = true →
        Event.protect PageAccess.ReadWrite ∈ pre ∧ Event.protect PageAccess.ExecOnly ∈ post) ∧
      s1.prot = PageAccess.ExecOnly := by
  have h1 := run_init_first env s hs
  have hrun := init_times_run env s (initState env s) h1 (initState_called env s) N hN
  have hmid : ∀ e ∈ Event.memset 0xcc 0x1000 :: loopEvents env s, e.isProtect = false := by
    intro e he
    rcases List.mem_cons.1 he with rfl | he
    · rfl
    · rcases loopEvents_events env s e he with ⟨p, rfl⟩ | ⟨q, i, rfl⟩ <;> rfl
  have hdrop : (initState env s).log.drop s.log.length =
      Event.protect PageAccess.ReadWrite ::
        ((Event.memset 0xcc 0x1000 :: loopEvents env s) ++
          [Event.protect PageAccess.ExecOnly]) := by
    rw [initState_log, List.drop_left]
  have hfilter : (Event.memset 0xcc 0x1000 :: loopEvents env s).filter Event.isProtect = [] := by
    rw [List.filter_eq_nil_iff]
    intro e he
    simp [hmid e he]
  refine ⟨initState env s, Event.memset 0xcc 0x1000 :: loopEvents env s, hrun,
    initState_log env s, rfl, hmid, loopEvents_events env s, ?_, ?_, ?_,
    initState_prot env s⟩
  · rw [hdrop, List.filter_cons, List.filter_append, hfilter]
    rfl
  · intro pre post hpp
    rw [hdrop] at hpp
    refine nothing_after_last
      (Event.protect PageAccess.ReadWrite :: (Event.memset 0xcc 0x1000 :: loopEvents env s))
      pre post (Event.protect PageAccess.ExecOnly) ?_ hpp
    intro hm
    rcases List.mem_cons.1 hm with h | h
    · cases h
    · have := hmid _ h
      simp [Event.isProtect] at this
  · intro pre e post hpp hw
    rw [hdrop] at hpp
    refine between_first_and_last _ _ e _ pre post hpp ?_ ?_
    · rintro rfl
      simp [Event.isWrite] at hw
    · rintro rfl
      simp [Event.isWrite] at hw

theorem init_protection_order_witness :
    es0.hasBeenCalled = false ∧ 1 ≤ 2 ∧
      ∃ s1, (vtlb_dynarec_init_times env0 2).run es0 = .ok ((), s1) ∧
        (s1.log.drop es0.log.length).filter Event.isProtect =
          [Event.protect PageAccess.ReadWrite, Event.protect PageAccess.ExecOnly] ∧
        s1.prot = PageAccess.ExecOnly := by
  refine ⟨rfl, by decide, ?_⟩
  obtain ⟨s1, mid, h1, -, -, -, -, h6, -, -, h9⟩ :=
    init_protection_order env0 es0 rfl 2 (by decide)
  exact ⟨s1, h1, h6, h9⟩

/-! ## Where the dynamic emitters branch to -/

theorem flatMap_split {α β : Type} (G : α → List β) (l : List α) (t : α) (ht : t ∈ l) :
    ∃ pre post, l.flatMap G = pre ++ G t ++ post := by
  obtain ⟨l1, l2, rfl⟩ := List.append_of_mem ht
  exact ⟨l1.flatMap G, l2.flatMap G, by simp [List.flatMap_append, List.flatMap_cons]⟩

theorem isBranch_of_isPlain (i : Instr) (h : i.isPlain = true) : i.isBranch = false := by
  simp only [Instr.isPlain, Bool.and_eq_true, Bool.not_eq_true'] at h
  exact h.2

/-- C13. Dispatcher targeting. For every call of `vtlb_DynGenRead32` with 8,
16 or 32 bits, `vtlb_DynGenRead64` with 64 or 128 bits and `vtlb_DynGenWrite`
with a supported width: the triple (mode, width class, s) with s = (sign and
bits < 32, loads only) is a valid slot triple, so the assertion in
`GetIndirectDispatcherPtr` holds and it returns the slot address; the emitter
returns normally, its one branch is the `js` to that slot address; from the
uninitialised state `vtlb_dynarec_init` returns normally and its trace
contains the move of the emit position to that slot address, followed by
exactly the instructions of `DynGen_IndirectTlbDispatcher(mode, width class,
s)` laid out from that address, followed by the move to the full dispatcher
slot; a signed 32-bit load targets the slot of the unsigned one. -/
theorem js_targets_filled_slot (env : Env) (s s0 : EmitState) (store : Bool) (bits : Nat)
    (sign : Bool) (hb : Supported bits) (h0 : s0.hasBeenCalled = false) :
    validSlot (if store then 1 else 0) (szidxOf bits)
      (if (!store && sign && decide (bits < 32)) then 1 else 0) ∧
    Emits (GetIndirectDispatcherPtr env (if store then 1 else 0) (szidxOf bits)
      (if (!store && sign && decide (bits < 32)) then 1 else 0)) s
      (dynSlot env store bits sign) [] ∧
    (∃ code, emitted (dynGen env store bits sign) s = .ok code ∧
      Instr.JS (dynSlot env store bits sign) ∈ code ∧
      ∀ i ∈ code, i.isBranch = true → i = Instr.JS (dynSlot env store bits sign)) ∧
    (∃ s1 pre post, (vtlb_dynarec_init env).run s0 = .ok ((), s1) ∧
      s1.log = pre ++
        (Event.setPtr (dynSlot env store bits sign) ::
          layout env (dynSlot env store bits sign)
            (trampCode (if store then 1 else 0) (szidxOf bits)
              (!store && sign && decide (bits < 32)))) ++
        Event.setPtr (fullSlot env (if store then 1 else 0) (szidxOf bits)
          (if (!store && sign && decide (bits < 32)) then 1 else 0)) :: post) ∧
    emitted (DynGen_IndirectTlbDispatcher env (if store then 1 else 0) (szidxOf bits)
        (!store && sign && decide (bits < 32))) s0 =
      .ok (trampCode (if store then 1 else 0) (szidxOf bits)
        (!store && sign && decide (bits < 32))) ∧
    (bits = 32 → dynSlot env store bits sign = dynSlot env store bits false) := by
  have hk : szidxOf bits ≤ 4 := by
    unfold szidxOf
    split_ifs <;> omega
  have hv : validSlot (if store then 1 else 0) (szidxOf bits)
      (if (!store && sign && decide (bits < 32)) then 1 else 0) := by
    refine ⟨by split_ifs <;> omega, hk, by split_ifs <;> omega, ?_⟩
    intro h1
    have hc : (!store && sign && decide (bits < 32)) = true := by
      by_contra hn
      rw [if_neg hn] at h1
      omega
    simp only [Bool.and_eq_true, Bool.not_eq_true', decide_eq_true_eq] at hc
    obtain ⟨⟨hst, -⟩, h32⟩ := hc
    subst hst
    refine ⟨rfl, ?_⟩
    unfold Supported at hb
    unfold szidxOf
    split_ifs <;> omega
  have hA : ((if store then 1 else 0) ≠ 0 ∨ 2 ≤ szidxOf bits) →
      (if (!store && sign && decide (bits < 32)) then 1 else 0) = 0 := by
    intro hc
    by_contra hne
    have h1 : (if (!store && sign && decide (bits < 32)) then 1 else 0) = 1 := by
      split_ifs at hne ⊢ <;> omega
    have := hv.2.2.2 h1
    omega
  have hdec : decide ((if (!store && sign && decide (bits < 32)) then 1 else 0) ≠ 0) =
      (!store && sign && decide (bits < 32)) := by
    cases (!store && sign && decide (bits < 32)) <;> simp
  refine ⟨hv, Emits_GetIndirectDispatcherPtr env s _ _ _ hA, ?_, ?_, ?_, ?_⟩
  · refine ⟨_, Emits_emitted (Emits_dynGen env s store bits sign hb), ?_, ?_⟩
    · simp [dynSlot]
    · intro i hi hbr
      rcases List.mem_append.1 hi with h | h
      · simp only [prepRegsCode, List.mem_cons, List.mem_singleton, List.not_mem_nil,
          or_false] at h
        rcases h with rfl | rfl | rfl | rfl | rfl <;> simp [Instr.isBranch] at hbr
      · rcases List.mem_cons.1 h with rfl | h
        · rfl
        · split_ifs at h
          · have := isBranch_of_isPlain i (isPlain_directWriteCode s _ _ i h)
            rw [this] at hbr
            cases hbr
          · have := isBranch_of_isPlain i (isPlain_directReadCode s _ _ _ i h)
            rw [this] at hbr
            cases hbr
  · obtain ⟨pre, post, hsplit⟩ := flatMap_split
      (fun t : Nat × Nat × Nat => slotEvents env s0 t.1 t.2.1 t.2.2) initTriples _
      ((mem_initTriples _ _ _).2 hv)
    refine ⟨initState env s0, s0.log ++ Event.protect PageAccess.ReadWrite ::
      Event.memset 0xcc 0x1000 :: pre,
      layout env (fullSlot env (if store then 1 else 0) (szidxOf bits)
          (if (!store && sign && decide (bits < 32)) then 1 else 0))
        (fullCode env s0 (if store then 1 else 0) (szidxOf bits)
          (!store && sign && decide (bits < 32))) ++ post ++
        [Event.protect PageAccess.ExecOnly], run_init_first env s0 h0, ?_⟩
    rw [initState_log]
    unfold loopEvents
    rw [hsplit]
    simp only [slotEvents, hdec, dynSlot, List.append_assoc, List.cons_append]
  · exact Emits_emitted (Emits_trampCode env s0 _ _ _)
  · intro h32
    subst h32
    simp [dynSlot]

theorem js_targets_filled_slot_witness :
    Supported 8 ∧ es0.hasBeenCalled = false ∧
      (∃ code, emitted (dynGen env0 false 8 true) es0 = .ok code ∧
        Instr.JS (dynSlot env0 false 8 true) ∈ code ∧
        ∀ i ∈ code, i.isBranch = true → i = Instr.JS (dynSlot env0 false 8 true)) ∧
      dynSlot env0 false 8 true = 0x5000A0 :=
  ⟨by decide, rfl,
    (js_targets_filled_slot env0 es0 es0 false 8 true (by decide) rfl).2.2.1, by decide⟩

end RecVTLB
